import Mathlib

/-!
# TPIE internal sorters (`tpie/internal_sort.h`)

A shallow embedding of the three bounded-memory internal sorters
`Internal_Sorter_Op`, `Internal_Sorter_Obj` and `Internal_Sorter_KObj`,
together with the memory accounting of `Internal_Sorter_Base`.

Machine integers (`TPIE_OS_SIZE_T`) are natural numbers; where the source
subtracts, the subtraction is taken modulo `2 ^ 64`.  Arrays are lists.
Streams are addressed by a natural number standing for the `file_stream<T>*`
pointer, so that `InStr == OutStr` is equality of addresses.
-/

namespace tpie

/-! ## Collaborators of the sorters -/

/-- Modelled from the spec: the sequential item stream `file_stream<T>`, whose
header is not among the sources.  The stream is its items and the current
position; `offset ≤ items.length` on every stream the operations produce from
a stream that satisfies it. -/
structure file_stream (α : Type) where
  items : List α
  offset : Nat

namespace file_stream

variable {α : Type}

/-- Modelled from the spec: `read()` returns the next item and advances the
position; at the end of the stream there is no item to return. -/
def read (f : file_stream α) : Option (α × file_stream α) :=
  match f.items[f.offset]? with
  | some x => some (x, { f with offset := f.offset + 1 })
  | none => none

/-- Modelled from the spec: `write(item)` overwrites the item at the current
position, or appends when the position is the end, and advances. -/
def write (f : file_stream α) (x : α) : file_stream α :=
  if f.offset < f.items.length then
    { items := f.items.set f.offset x, offset := f.offset + 1 }
  else
    { items := f.items ++ [x], offset := f.offset + 1 }

/-- Modelled from the spec: `seek(position)` moves the current position. -/
def seek (f : file_stream α) (position : Nat) : file_stream α :=
  { f with offset := position }

/-- Modelled from the spec: `truncate(length)` keeps the first `length` items;
a position beyond the new end is moved to the new end. -/
def truncate (f : file_stream α) (length : Nat) : file_stream α :=
  { items := f.items.take length, offset := min f.offset length }

end file_stream

/-- The three `fractional_subindicator` objects a `sort` call declares. -/
inductive subindicator where
  | read_progress
  | sort_progress
  | write_progress
deriving DecidableEq, Repr

/-- Calls a `sort` body makes on its `fractional_progress fp` and on the
sub-indicators `read_progress` and `write_progress`. -/
inductive progress_call where
  | fp_init
  | init (s : subindicator) (range : Nat)
  | step (s : subindicator)
  | done (s : subindicator)
  | fp_done
deriving DecidableEq, Repr

/-- Modelled from the spec: the progress reporter behind the pointer `pi`; it
is the sequence of calls it has received. -/
structure progress_indicator_base where
  calls : List progress_call
deriving DecidableEq, Repr

/-- What a `sort` call does, in program order: the operations on the streams,
the progress calls, and the call of `parallel_sort` on the first `n` slots. -/
inductive Event (α : Type) where
  | read (stream : Nat) (x : α)
  | write (stream : Nat) (x : α)
  | truncate (stream : Nat) (length : Nat)
  | seek (stream : Nat) (position : Nat)
  | progress (p : progress_call)
  | parallel_sort (n : Nat)
deriving DecidableEq, Repr

/-- The ways a `sort` call ends other than by returning. -/
inductive Abort where
  /-- The exception of `throw stream_exception("NULL_POINTER")`. -/
  | NULL_POINTER
  /-- Modelled from the spec: the failure of
  `tp_assert(nItems <= len, "Internal buffer overfull (nItems > len)")`;
  the macro is not among the sources, the spec makes it a fatal failure. -/
  | buffer_overfull
  /-- Modelled from the spec: `read()` on a stream with no next item. -/
  | end_of_stream
deriving DecidableEq, Repr

/-- The state a `sort` call runs in: the sorter object `self`, the streams by
address, the reporter behind `pi` (`none` for a null pointer) and the events
so far. -/
structure Cfg (S α : Type) where
  self : S
  streams : Nat → file_stream α
  pi : Option progress_indicator_base
  trace : List (Event α)

/-- Result of a `sort` call: the state on return, or the abort together with
the state at the point of the abort. -/
abbrev Outcome (S α : Type) := Except (Abort × Cfg S α) (Cfg S α)

/-- The loop `for (i = 0; i < n; i++) body`, where the body may abort: the
first `n` iterations are the first `n - 1` followed by iteration `n - 1`. -/
def for_loop {ε σ : Type} (body : Nat → σ → Except ε σ) : Nat → σ → Except ε σ
  | 0, s => Except.ok s
  | n + 1, s =>
    match for_loop body n s with
    | Except.ok s1 => body n s1
    | Except.error e => Except.error e

/-- The loop `for (i = 0; i < n; i++) body`, for a body that does not abort. -/
def for_each {σ : Type} (body : Nat → σ → σ) : Nat → σ → σ
  | 0, s => s
  | n + 1, s => body n (for_each body n s)

/-- The state an outcome ends in, whichever way the call ended. -/
def Outcome.final {S α : Type} : Outcome S α → Cfg S α
  | .ok c => c
  | .error (_, c) => c

namespace Cfg

variable {S α : Type}

/-- A progress call: recorded, and received by the reporter when there is one
(with a null `pi` the call is a no-op). -/
def report (c : Cfg S α) (p : progress_call) : Cfg S α :=
  { c with
    pi := c.pi.map (fun r => { calls := r.calls ++ [p] })
    trace := c.trace ++ [Event.progress p] }

/-- The call `InStr->read()`. -/
def stream_read (c : Cfg S α) (InStr : Nat) : Option (α × Cfg S α) :=
  match (c.streams InStr).read with
  | none => none
  | some (x, f) =>
    some (x, { c with
      streams := Function.update c.streams InStr f
      trace := c.trace ++ [Event.read InStr x] })

/-- The call `OutStr->write(x)`. -/
def stream_write (c : Cfg S α) (OutStr : Nat) (x : α) : Cfg S α :=
  { c with
    streams := Function.update c.streams OutStr ((c.streams OutStr).write x)
    trace := c.trace ++ [Event.write OutStr x] }

/-- The call `InStr->truncate(length)`. -/
def stream_truncate (c : Cfg S α) (InStr : Nat) (length : Nat) : Cfg S α :=
  { c with
    streams := Function.update c.streams InStr ((c.streams InStr).truncate length)
    trace := c.trace ++ [Event.truncate InStr length] }

/-- The call `InStr->seek(position)`. -/
def stream_seek (c : Cfg S α) (InStr : Nat) (position : Nat) : Cfg S α :=
  { c with
    streams := Function.update c.streams InStr ((c.streams InStr).seek position)
    trace := c.trace ++ [Event.seek InStr position] }

/-- The block `if (InStr==OutStr) { InStr->truncate(0); InStr->seek(0); }`. -/
def rewind_if_same (c : Cfg S α) (InStr OutStr : Nat) : Cfg S α :=
  if InStr = OutStr then (c.stream_truncate InStr 0).stream_seek InStr 0 else c

end Cfg

/-- The items written to stream `s` by the events `es`, in order. -/
def written {α : Type} (s : Nat) (es : List (Event α)) : List α :=
  es.filterMap (fun e =>
    match e with
    | Event.write t x => if t = s then some x else none
    | _ => none)

/-- The events of reading the items `l` from stream `s` in a read loop: each
read is followed by a step of `read_progress`. -/
def read_events {α : Type} (s : Nat) : List α → List (Event α)
  | [] => []
  | x :: xs =>
    Event.read s x :: Event.progress (progress_call.step subindicator.read_progress)
      :: read_events s xs

/-- The events of writing the items `l` to stream `s` in a write loop: each
write is followed by a step of `write_progress`. -/
def write_events {α : Type} (s : Nat) : List α → List (Event α)
  | [] => []
  | x :: xs =>
    Event.write s x :: Event.progress (progress_call.step subindicator.write_progress)
      :: write_events s xs

/-- A reporter after it has received the calls `ps`. -/
def progress_indicator_base.receive (r : progress_indicator_base) (ps : List progress_call) :
    progress_indicator_base :=
  { calls := r.calls ++ ps }

/-- The events of a `sort` call that returns, in program order, when it reads
the items `run` (`nItems` of them) from `InStr` and writes the items `out`
to `OutStr`. -/
def sort_events {α : Type} (InStr OutStr nItems : Nat) (run out : List α) : List (Event α) :=
  [Event.progress progress_call.fp_init,
    Event.progress (progress_call.init subindicator.read_progress nItems)]
  ++ read_events InStr run
  ++ [Event.progress (progress_call.done subindicator.read_progress),
    Event.parallel_sort nItems]
  ++ (if InStr = OutStr then [Event.truncate InStr 0, Event.seek InStr 0] else [])
  ++ [Event.progress (progress_call.init subindicator.write_progress nItems)]
  ++ write_events OutStr out
  ++ [Event.progress (progress_call.done subindicator.write_progress),
    Event.progress progress_call.fp_done]

/-- The progress calls of a `sort` call that returns, in program order. -/
def sort_calls (nItems : Nat) : List progress_call :=
  [progress_call.fp_init, progress_call.init subindicator.read_progress nItems]
  ++ List.replicate nItems (progress_call.step subindicator.read_progress)
  ++ [progress_call.done subindicator.read_progress,
    progress_call.init subindicator.write_progress nItems]
  ++ List.replicate nItems (progress_call.step subindicator.write_progress)
  ++ [progress_call.done subindicator.write_progress, progress_call.fp_done]

/-- The streams after a `sort` call that returns: the input stream has
advanced over the `nItems` items read, the stream is emptied and rewound when
input and output are the same stream, and the items `out` are written to the
output stream. -/
def sort_streams {α : Type} (streams : Nat → file_stream α) (InStr OutStr nItems : Nat)
    (out : List α) : Nat → file_stream α :=
  let after_read := Function.update streams InStr
    { items := (streams InStr).items, offset := (streams InStr).offset + nItems }
  let after_rewind :=
    if InStr = OutStr then Function.update after_read InStr { items := [], offset := 0 }
    else after_read
  Function.update after_rewind OutStr (out.foldl file_stream.write (after_rewind OutStr))

/-- The run a `sort` call reads: the `nItems` items of the input stream from
its current position. -/
def input_run {α : Type} (f : file_stream α) (nItems : Nat) : List α :=
  (f.items.drop f.offset).take nItems

/-- The items read from stream `s` by the events `es`, in order. -/
def read_from {α : Type} (s : Nat) (es : List (Event α)) : List α :=
  es.filterMap (fun e =>
    match e with
    | Event.read t x => if t = s then some x else none
    | _ => none)

/-- The events a call added: the final trace without the trace on entry. -/
def new_events {S α : Type} (c : Cfg S α) (r : Outcome S α) : List (Event α) :=
  r.final.trace.drop c.trace.length

/-! ## Orderings and `parallel_sort` -/

/-- A comparison in the sense the C++ standard requires of a sort: a strict
weak order (irreflexive, transitive, incomparability transitive). -/
structure StrictWeakOrder {α : Type} (lt : α → α → Bool) : Prop where
  irrefl : ∀ a, lt a a = false
  trans : ∀ a b c, lt a b = true → lt b c = true → lt a c = true
  incomp_trans : ∀ a b c, lt a b = false → lt b a = false →
    lt b c = false → lt c b = false → lt a c = false ∧ lt c a = false

/-- Non-decreasing order under a comparison: no later item is less than an
earlier one. -/
def NonDecreasing {α : Type} (lt : α → α → Bool) (l : List α) : Prop :=
  l.Pairwise (fun a b => lt b a = false)

/-- Modelled from the spec: `parallel_sort<true>(begin, end, progress, comp)`
of `tpie/parallel_sort.h`, which is not among the sources.  It is a parameter
of the sorters: a function from the comparison and the range to the range
after the call. -/
abbrev parallel_sort_fn (α : Type) := (α → α → Bool) → List α → List α

/-- Modelled from the spec: `parallel_sort` is a correct comparison sort: for
a comparison that is a strict weak order it rearranges the range into
non-decreasing order. -/
def CorrectSort {α : Type} (parallel_sort : parallel_sort_fn α) : Prop :=
  ∀ lt, StrictWeakOrder lt → ∀ l,
    (parallel_sort lt l).Perm l ∧ NonDecreasing lt (parallel_sort lt l)

/-- Insertion of `x` into a list, before the first item that is not less
than `x`. -/
def ordered_insert {α : Type} (lt : α → α → Bool) (x : α) : List α → List α
  | [] => [x]
  | y :: ys => if lt y x then y :: ordered_insert lt x ys else x :: y :: ys

/-- Insertion sort: one comparison sort that can stand for `parallel_sort`
when a call is evaluated. -/
def insertion_sort {α : Type} : parallel_sort_fn α := fun lt l =>
  l.foldr (ordered_insert lt) []

/-- The comparison `std::less<T>()`: the operator `<` of the type. -/
def std_less {α : Type} [LT α] [DecidableRel (fun a b : α => a < b)] : α → α → Bool :=
  fun a b => decide (a < b)

/-- Modelled from the spec: `TPIE2STL_cmp<T,CMPR>(cmp)` of `tpie/comparator.h`,
which is not among the sources: `compare` returns -1, 0 or +1 and the adapter
is true when it returns a negative number. -/
def TPIE2STL_cmp {α : Type} (cmp : α → α → Int) : α → α → Bool :=
  fun left right => decide (cmp left right < 0)

/-! ## `Internal_Sorter_Base` -/

/-- Number of values of `TPIE_OS_SIZE_T` (`size_t`, 64 bits). -/
def SIZE_T_RANGE : Nat := 2 ^ 64

/-- Modelled from the spec: `array<T>::resize(size)` of `tpie/array.h`, which
is not among the sources: storage for exactly `size` items, none of the old
items kept; the new slots hold the default value of the type. -/
def array_resize {α : Type} [Inhabited α] (_a : List α) (size : Nat) : List α :=
  List.replicate size default

/-- The members of `Internal_Sorter_Base<T>`: the array `ItemArray` and its
length `len`. -/
structure Internal_Sorter_Base (α : Type) where
  ItemArray : List α
  len : Nat

namespace Internal_Sorter_Base

variable {α : Type}

/-- The constructor `Internal_Sorter_Base(void): len(0)`, with an empty array. -/
def new : Internal_Sorter_Base α := { ItemArray := [], len := 0 }

/-- The method `allocate(nitems)`: `len=nitems; ItemArray.resize(len);`. -/
def allocate [Inhabited α] (self : Internal_Sorter_Base α) (nitems : Nat) :
    Internal_Sorter_Base α :=
  { ItemArray := array_resize self.ItemArray nitems, len := nitems }

/-- The method `deallocate()`: `ItemArray.resize(0); len=0;`. -/
def deallocate [Inhabited α] (self : Internal_Sorter_Base α) : Internal_Sorter_Base α :=
  { ItemArray := array_resize self.ItemArray 0, len := 0 }

/-- The method `space_overhead()`: `return 0;`. -/
def space_overhead : Nat := 0

/-- The method `space_per_item()`: `return sizeof(T);`, with `sizeof(T)` a
parameter. -/
def space_per_item (sizeof_T : Nat) : Nat := sizeof_T

/-- The method `MaxItemCount(memSize)`; the subtraction is unsigned. -/
def MaxItemCount (sizeof_T : Nat) (memSize : Nat) : Nat :=
  let memAvail := (memSize + SIZE_T_RANGE - space_overhead) % SIZE_T_RANGE
  if memAvail < space_per_item sizeof_T then 0
  else memAvail / space_per_item sizeof_T

/-- The read loop of `Internal_Sorter_Op::sort` and `Internal_Sorter_Obj::sort`:
`for (i = 0; i < nItems; i++) { ItemArray[i] = InStr->read(); read_progress.step(); }`. -/
def read_loop (InStr nItems : Nat) (c : Cfg (Internal_Sorter_Base α) α) :
    Outcome (Internal_Sorter_Base α) α :=
  for_loop (fun i c =>
    match c.stream_read InStr with
    | none => Except.error (Abort.end_of_stream, c)
    | some (x, c1) =>
      Except.ok
        ({ c1 with self := { c1.self with ItemArray := c1.self.ItemArray.set i x } }.report
          (progress_call.step subindicator.read_progress))) nItems c

/-- The call `parallel_sort<true>(ItemArray.begin(), ItemArray.begin()+nItems,
sort_progress, comp)`: the first `nItems` slots are sorted, the rest is left. -/
def sort_items (parallel_sort : parallel_sort_fn α) (comp : α → α → Bool) (nItems : Nat)
    (c : Cfg (Internal_Sorter_Base α) α) : Cfg (Internal_Sorter_Base α) α :=
  { c with
    self := { c.self with
      ItemArray := parallel_sort comp (c.self.ItemArray.take nItems)
        ++ c.self.ItemArray.drop nItems }
    trace := c.trace ++ [Event.parallel_sort nItems] }

/-- The write loop of `Internal_Sorter_Op::sort` and `Internal_Sorter_Obj::sort`:
`for (i = 0; i < nItems; i++) { OutStr->write(ItemArray[i]); write_progress.step(); }`. -/
def write_loop [Inhabited α] (OutStr nItems : Nat) (c : Cfg (Internal_Sorter_Base α) α) :
    Cfg (Internal_Sorter_Base α) α :=
  for_each (fun i c =>
    (c.stream_write OutStr (c.self.ItemArray.getD i default)).report
      (progress_call.step subindicator.write_progress)) nItems c

/-- The part of `sort` that `Internal_Sorter_Op` and `Internal_Sorter_Obj`
share word for word, from `fractional_progress fp(pi)` to `fp.done()`, with
the comparison handed to `parallel_sort` as `comp`. -/
def sort_body [Inhabited α] (parallel_sort : parallel_sort_fn α) (comp : α → α → Bool)
    (InStr OutStr nItems : Nat) (c : Cfg (Internal_Sorter_Base α) α) :
    Outcome (Internal_Sorter_Base α) α :=
  let c := c.report progress_call.fp_init
  let c := c.report (progress_call.init subindicator.read_progress nItems)
  match read_loop InStr nItems c with
  | Except.error e => Except.error e
  | Except.ok c =>
    let c := c.report (progress_call.done subindicator.read_progress)
    let c := sort_items parallel_sort comp nItems c
    let c := c.rewind_if_same InStr OutStr
    let c := c.report (progress_call.init subindicator.write_progress nItems)
    let c := write_loop OutStr nItems c
    let c := c.report (progress_call.done subindicator.write_progress)
    Except.ok (c.report progress_call.fp_done)

end Internal_Sorter_Base

/-! ## `Internal_Sorter_Op` -/

/-- The method `Internal_Sorter_Op<T>::sort(InStr, OutStr, nItems, pi)`. -/
def Internal_Sorter_Op.sort {α : Type} [LT α] [DecidableRel (fun a b : α => a < b)]
    [Inhabited α] (parallel_sort : parallel_sort_fn α) (InStr OutStr nItems : Nat)
    (c : Cfg (Internal_Sorter_Base α) α) : Outcome (Internal_Sorter_Base α) α :=
  if c.self.ItemArray.length = 0 then Except.error (Abort.NULL_POINTER, c)
  else if ¬ nItems ≤ c.self.len then Except.error (Abort.buffer_overfull, c)
  else Internal_Sorter_Base.sort_body parallel_sort std_less InStr OutStr nItems c

/-! ## `Internal_Sorter_Obj` -/

/-- The method `Internal_Sorter_Obj<T,CMPR>::sort(InStr, OutStr, nItems, pi)`;
the member `cmp_o`, fixed by the constructor, is the first argument. -/
def Internal_Sorter_Obj.sort {α : Type} [Inhabited α] (cmp_o : α → α → Int)
    (parallel_sort : parallel_sort_fn α) (InStr OutStr nItems : Nat)
    (c : Cfg (Internal_Sorter_Base α) α) : Outcome (Internal_Sorter_Base α) α :=
  if ¬ nItems ≤ c.self.len then Except.error (Abort.buffer_overfull, c)
  else if c.self.ItemArray.length = 0 then Except.error (Abort.NULL_POINTER, c)
  else if ¬ nItems ≤ c.self.len then Except.error (Abort.buffer_overfull, c)
  else Internal_Sorter_Base.sort_body parallel_sort (TPIE2STL_cmp cmp_o) InStr OutStr nItems c

/-! ## `Internal_Sorter_KObj` -/

/-- The class `qsort_item<Key>`: a key and the index of the item it belongs to. -/
structure qsort_item (κ : Type) where
  keyval : κ
  source : Nat
deriving DecidableEq, Repr

/-- The friend `operator<` of `qsort_item`: `x.keyval < y.keyval`. -/
instance qsort_item.instLT {κ : Type} [LT κ] : LT (qsort_item κ) :=
  { lt := fun x y => x.keyval < y.keyval }

/-- Deciding the friend `operator<` of `qsort_item` is deciding `<` on keys. -/
instance qsort_item.instDecidableLT {κ : Type} [LT κ] [DecidableRel (fun a b : κ => a < b)] :
    DecidableRel (fun x y : qsort_item κ => x < y) :=
  fun x y => inferInstanceAs (Decidable (x.keyval < y.keyval))

/-- A `qsort_item` of a freshly resized array. -/
instance qsort_item.instInhabited {κ : Type} [Inhabited κ] : Inhabited (qsort_item κ) :=
  { default := { keyval := default, source := 0 } }

/-- Modelled from the spec: the comparison object `CMPR` of the key sorter.
The source calls its method `compare` on two keys (-1, 0 or +1); the key
extractor `copy` is the one the spec gives the object, the sources of the
class are not part of the repository. -/
structure key_comparator (α κ : Type) where
  compare : κ → κ → Int
  copy : α → κ

/-- The method `QsortKeyCmp<KEY,KCMP>::compare(left, right)`:
`isLess->compare(left.keyval, right.keyval)`. -/
def QsortKeyCmp.compare {α κ : Type} (isLess : key_comparator α κ)
    (left right : qsort_item κ) : Int :=
  isLess.compare left.keyval right.keyval

/-- The members of `Internal_Sorter_KObj<T,KEY,CMPR>`: its own `ItemArray` and
`len`, which hide those of the base class, the array `sortItemArray` and the
comparison object `UsrObject`. -/
structure Internal_Sorter_KObj (α κ : Type) where
  ItemArray : List α
  sortItemArray : List (qsort_item κ)
  UsrObject : key_comparator α κ
  len : Nat

namespace Internal_Sorter_KObj

variable {α κ : Type}

/-- The constructor `Internal_Sorter_KObj(CMPR* cmp): UsrObject(cmp), len(0)`. -/
def new (cmp : key_comparator α κ) : Internal_Sorter_KObj α κ :=
  { ItemArray := [], sortItemArray := [], UsrObject := cmp, len := 0 }

/-- The method `allocate(nitems)`:
`len=nitems; ItemArray.resize(len); sortItemArray.resize(len);`. -/
def allocate [Inhabited α] [Inhabited κ] (self : Internal_Sorter_KObj α κ) (nitems : Nat) :
    Internal_Sorter_KObj α κ :=
  { self with
    len := nitems
    ItemArray := array_resize self.ItemArray nitems
    sortItemArray := array_resize self.sortItemArray nitems }

/-- The method `deallocate()`:
`len=0; ItemArray.resize(0); sortItemArray.resize(0);`. -/
def deallocate [Inhabited α] [Inhabited κ] (self : Internal_Sorter_KObj α κ) :
    Internal_Sorter_KObj α κ :=
  { self with
    len := 0
    ItemArray := array_resize self.ItemArray 0
    sortItemArray := array_resize self.sortItemArray 0 }

/-- The method `space_overhead()`: `return 0;`. -/
def space_overhead : Nat := 0

/-- The method `space_per_item()`: `return sizeof(T) + sizeof(qsort_item<KEY>);`,
with the two sizes as parameters and the sum in `TPIE_OS_SIZE_T`. -/
def space_per_item (sizeof_T sizeof_qsort_item : Nat) : Nat :=
  (sizeof_T + sizeof_qsort_item) % SIZE_T_RANGE

/-- The method `MaxItemCount(memSize)`; the subtraction is unsigned. -/
def MaxItemCount (sizeof_T sizeof_qsort_item : Nat) (memSize : Nat) : Nat :=
  let memAvail := (memSize + SIZE_T_RANGE - space_overhead) % SIZE_T_RANGE
  if memAvail < space_per_item sizeof_T sizeof_qsort_item then 0
  else memAvail / space_per_item sizeof_T sizeof_qsort_item

/-- The read loop of `Internal_Sorter_KObj::sort`:
`for (i = 0; i < nItems; i++) { ItemArray[i] = InStr->read();
sortItemArray[i].source=i; read_progress.step(); }`. -/
def read_loop (InStr nItems : Nat) (c : Cfg (Internal_Sorter_KObj α κ) α) :
    Outcome (Internal_Sorter_KObj α κ) α :=
  for_loop (fun i c =>
    match c.stream_read InStr with
    | none => Except.error (Abort.end_of_stream, c)
    | some (x, c1) =>
      Except.ok
        ({ c1 with self := { c1.self with
            ItemArray := c1.self.ItemArray.set i x
            sortItemArray :=
              match c1.self.sortItemArray[i]? with
              | some q => c1.self.sortItemArray.set i { q with source := i }
              | none => c1.self.sortItemArray } }.report
          (progress_call.step subindicator.read_progress))) nItems c

/-- The call `parallel_sort<true>(sortItemArray.begin(),
sortItemArray.begin()+nItems, sort_progress, std::less<qsort_item<KEY> >())`. -/
def sort_items [LT κ] [DecidableRel (fun a b : κ => a < b)]
    (parallel_sort : parallel_sort_fn (qsort_item κ)) (nItems : Nat)
    (c : Cfg (Internal_Sorter_KObj α κ) α) : Cfg (Internal_Sorter_KObj α κ) α :=
  { c with
    self := { c.self with
      sortItemArray := parallel_sort std_less (c.self.sortItemArray.take nItems)
        ++ c.self.sortItemArray.drop nItems }
    trace := c.trace ++ [Event.parallel_sort nItems] }

/-- The write loop of `Internal_Sorter_KObj::sort`:
`for (i = 0; i < nItems; i++) { OutStr->write(ItemArray[sortItemArray[i].source]);
write_progress.step(); }`. -/
def write_loop [Inhabited α] [Inhabited κ] (OutStr nItems : Nat)
    (c : Cfg (Internal_Sorter_KObj α κ) α) : Cfg (Internal_Sorter_KObj α κ) α :=
  for_each (fun i c =>
    (c.stream_write OutStr
      (c.self.ItemArray.getD (c.self.sortItemArray.getD i default).source default)).report
      (progress_call.step subindicator.write_progress)) nItems c

/-- The method `Internal_Sorter_KObj<T,KEY,CMPR>::sort(InStr, OutStr, nItems, pi)`.
The objects `kc` and `stlcomp` are built from `UsrObject` as in the source,
and as in the source the call of `parallel_sort` is given `std::less`. -/
def sort [LT κ] [DecidableRel (fun a b : κ => a < b)] [Inhabited α] [Inhabited κ]
    (parallel_sort : parallel_sort_fn (qsort_item κ)) (InStr OutStr nItems : Nat)
    (c : Cfg (Internal_Sorter_KObj α κ) α) : Outcome (Internal_Sorter_KObj α κ) α :=
  if c.self.ItemArray.length = 0 ∨ c.self.sortItemArray.length = 0 then
    Except.error (Abort.NULL_POINTER, c)
  else if ¬ nItems ≤ c.self.len then Except.error (Abort.buffer_overfull, c)
  else
    let c := c.report progress_call.fp_init
    let c := c.report (progress_call.init subindicator.read_progress nItems)
    match read_loop InStr nItems c with
    | Except.error e => Except.error e
    | Except.ok c =>
      let c := c.report (progress_call.done subindicator.read_progress)
      let kc := QsortKeyCmp.compare c.self.UsrObject
      let _stlcomp := TPIE2STL_cmp kc
      let c := sort_items parallel_sort nItems c
      let c := c.rewind_if_same InStr OutStr
      let c := c.report (progress_call.init subindicator.write_progress nItems)
      let c := write_loop OutStr nItems c
      let c := c.report (progress_call.done subindicator.write_progress)
      Except.ok (c.report progress_call.fp_done)

/-- The entries `l` after a read loop has stored the source indices
`i, i + 1, ...` in them; the keys are the ones the entries held. -/
def with_sources : Nat → List (qsort_item κ) → List (qsort_item κ)
  | _, [] => []
  | i, q :: qs => { q with source := i } :: with_sources (i + 1) qs

/-- The items a write loop writes: for each entry of the indirection array,
in order, the item of `ItemArray` at the entry's source index. -/
def dereference [Inhabited α] (ItemArray : List α) (entries : List (qsort_item κ)) : List α :=
  entries.map (fun q => ItemArray.getD q.source default)

end Internal_Sorter_KObj

/-! ## States used to evaluate calls -/

/-- A comparison object for `Internal_Sorter_Obj` on a linearly ordered type:
`compare` returns -1, 0 or +1. -/
def three_way {α : Type} [LinearOrder α] (a b : α) : Int :=
  if a < b then -1 else if a = b then 0 else 1

/-- A store in which every stream is empty except stream 0, which holds
`items` at position 0. -/
def single_stream {α : Type} (items : List α) : Nat → file_stream α :=
  fun s => if s = 0 then { items := items, offset := 0 } else { items := [], offset := 0 }

/-- The state before a first `sort`: a sorter allocated for `capacity` items,
the input on stream 0, no reporter, no events. -/
def Internal_Sorter_Base.fresh {α : Type} [Inhabited α] (capacity : Nat) (items : List α) :
    Cfg (Internal_Sorter_Base α) α :=
  { self := Internal_Sorter_Base.new.allocate capacity
    streams := single_stream items
    pi := none
    trace := [] }

/-- The state before a first `sort` of a key sorter: a sorter allocated for
`capacity` items, the input on stream 0, no reporter, no events. -/
def Internal_Sorter_KObj.fresh {α κ : Type} [Inhabited α] [Inhabited κ]
    (cmp : key_comparator α κ) (capacity : Nat) (items : List α) :
    Cfg (Internal_Sorter_KObj α κ) α :=
  { self := (Internal_Sorter_KObj.new cmp).allocate capacity
    streams := single_stream items
    pi := none
    trace := [] }

/-- The state of a call on a sorter that was constructed and never
allocated: the input on stream 0, no reporter, no events. -/
def Internal_Sorter_Base.unallocated {α : Type} (items : List α) :
    Cfg (Internal_Sorter_Base α) α :=
  { self := Internal_Sorter_Base.new
    streams := single_stream items
    pi := none
    trace := [] }

/-- The state of a call on a key sorter that was constructed and never
allocated: the input on stream 0, no reporter, no events. -/
def Internal_Sorter_KObj.unallocated {α κ : Type} (cmp : key_comparator α κ)
    (items : List α) : Cfg (Internal_Sorter_KObj α κ) α :=
  { self := Internal_Sorter_KObj.new cmp
    streams := single_stream items
    pi := none
    trace := [] }

/-- The state of a call on a key sorter whose `sortItemArray` holds the
entries `entries`, whatever earlier use or the allocation left in them: the
capacity is their number, the input is on stream 0, no reporter, no events. -/
def Internal_Sorter_KObj.with_entries {α κ : Type} [Inhabited α]
    (cmp : key_comparator α κ) (entries : List (qsort_item κ)) (items : List α) :
    Cfg (Internal_Sorter_KObj α κ) α :=
  { self :=
      { ItemArray := List.replicate entries.length default
        sortItemArray := entries
        UsrObject := cmp
        len := entries.length }
    streams := single_stream items
    pi := none
    trace := [] }

/-- The ten integers of the scenario of the spec. -/
def scenario_ints : List Nat := [5, 3, 8, 1, 9, 2, 7, 4, 6, 0]

/-- A comparison object for a key sorter of numbers that are their own key. -/
def nat_key : key_comparator Nat Nat :=
  { compare := three_way, copy := fun x => x }

/-- The comparison object of the scenario of the spec: records are a key and
a payload, keys are compared as numbers, the key of a record is its first
component. -/
def record_cmp : key_comparator (Nat × String) Nat :=
  { compare := fun a b => if a < b then -1 else if a = b then 0 else 1
    copy := fun r => r.1 }

/-- Records in non-decreasing order of their extracted keys, as compared by
the comparison object. -/
def key_ordered {α κ : Type} (cmp : key_comparator α κ) (l : List α) : Prop :=
  NonDecreasing (fun a b => TPIE2STL_cmp cmp.compare (cmp.copy a) (cmp.copy b)) l

/-- The three records of the scenario of the spec. -/
def scenario_records : List (Nat × String) := [(3, "c"), (1, "a"), (2, "b")]

/-- A store in which stream 0 holds `input` at position 0, stream 1 holds
`output` at position `q`, and every other stream is empty. -/
def two_streams {α : Type} (input output : List α) (q : Nat) : Nat → file_stream α :=
  fun s =>
    if s = 0 then { items := input, offset := 0 }
    else if s = 1 then { items := output, offset := q }
    else { items := [], offset := 0 }

/-- The state before a first `sort` of a key sorter allocated for `capacity`
items, with the input on stream 0 and an output stream 1 that already holds
`output` and is at position `q`. -/
def Internal_Sorter_KObj.fresh_onto {α κ : Type} [Inhabited α] [Inhabited κ]
    (cmp : key_comparator α κ) (capacity : Nat) (input output : List α) (q : Nat) :
    Cfg (Internal_Sorter_KObj α κ) α :=
  { self := (Internal_Sorter_KObj.new cmp).allocate capacity
    streams := two_streams input output q
    pi := none
    trace := [] }

/-- The state before a first `sort` of a sorter allocated for `capacity`
items, with the input on stream 0 and an output stream 1 that already holds
`output` and is at position `q`. -/
def Internal_Sorter_Base.fresh_onto {α : Type} [Inhabited α] (capacity : Nat)
    (input output : List α) (q : Nat) : Cfg (Internal_Sorter_Base α) α :=
  { self := Internal_Sorter_Base.new.allocate capacity
    streams := two_streams input output q
    pi := none
    trace := [] }

/-- A run without ties under a comparison: two items of the run neither of
which is less than the other are the same item. -/
def TieFree {α : Type} (lt : α → α → Bool) (l : List α) : Prop :=
  ∀ a, a ∈ l → ∀ b, b ∈ l → lt a b = false → lt b a = false → a = b

/-- Insertion of `x` into a list, before the first item that `x` is less
than: behind the items equivalent to `x`. -/
def insert_behind_ties {α : Type} (lt : α → α → Bool) (x : α) : List α → List α
  | [] => [x]
  | y :: ys => if lt x y then x :: y :: ys else y :: insert_behind_ties lt x ys

/-- An insertion sort that is not stable: of two equivalent items, the one
that came first ends behind the other. -/
def tie_reversing_sort {α : Type} : parallel_sort_fn α := fun lt l =>
  l.foldr (insert_behind_ties lt) []

/-- A comparison object for `Internal_Sorter_Obj` on records: `compare`
looks at the key, the first component, only. -/
def record_key_cmp (a b : Nat × String) : Int := three_way a.1 b.1

/-- The state with the reporter behind `pi` replaced by `pi`. -/
def Cfg.with_pi {S α : Type} (c : Cfg S α) (pi : Option progress_indicator_base) : Cfg S α :=
  { c with pi := pi }

/-- The outcome with the reporter replaced by `pi` in the state it ends in. -/
def Outcome.with_pi {S α : Type} (r : Outcome S α) (pi : Option progress_indicator_base) :
    Outcome S α :=
  match r with
  | Except.ok c => Except.ok (c.with_pi pi)
  | Except.error (a, c) => Except.error (a, c.with_pi pi)

/-- The way an outcome ended: `none` for a return, the abort otherwise. -/
def Outcome.abort {S α : Type} : Outcome S α → Option Abort
  | Except.ok _ => none
  | Except.error (a, _) => some a

/-! ## The job class (`tpie/job.h`)

`tpie/job.h` declares the class and its members; the bodies of its methods
are not among the sources and are modelled from the spec.  Jobs are
addressed by a natural number standing for the `job*` pointer.  The methods
that touch the dependency count run under one lock, so each is one step on
the state of all jobs. -/

/-- The enumeration `job::job_state`. -/
inductive job_state where
  | job_idle
  | job_enqueued
  | job_running
deriving DecidableEq, Repr

/-- The private members `m_dependencies`, `m_parent` and `m_state` of `job`. -/
structure job where
  m_dependencies : Nat
  m_parent : Option Nat
  m_state : job_state
deriving DecidableEq, Repr

/-- Modelled from the spec: the constructor `job()`: an idle job with no
outstanding completion and no parent. -/
def job.new : job :=
  { m_dependencies := 0, m_parent := none, m_state := job_state.job_idle }

/-- What the methods of a job do that is seen from outside: the work call
`operator()`, the hook `on_done()`, and the wake-up of the threads blocked in
`join()` (`m_done`). -/
inductive job_event where
  | work (j : Nat)
  | on_done (j : Nat)
  | notify (j : Nat)
deriving DecidableEq, Repr

/-- All jobs by address, and the events so far. -/
structure job_pool where
  jobs : Nat → job
  log : List job_event

namespace job_pool

/-- The pool in which every job is newly constructed. -/
def fresh : job_pool := { jobs := fun _ => job.new, log := [] }

/-- The pool with job `j` replaced. -/
def set (p : job_pool) (j : Nat) (x : job) : job_pool :=
  { p with jobs := Function.update p.jobs j x }

/-- Modelled from the spec: `enqueue(parent)`: if a parent is given its
dependency count is incremented before the submission; the job goes from
idle to enqueued, remembers its parent, and from its submission on counts
itself in its own dependency count (the count is the number of unfinished
child jobs plus the job itself). -/
def enqueue (p : job_pool) (j : Nat) (parent : Option Nat) : job_pool :=
  let p1 :=
    match parent with
    | none => p
    | some q =>
      p.set q { p.jobs q with
        m_dependencies := ((p.jobs q).m_dependencies + 1) % SIZE_T_RANGE }
  p1.set j
    { m_dependencies := ((p1.jobs j).m_dependencies + 1) % SIZE_T_RANGE
      m_parent := parent
      m_state := job_state.job_enqueued }

/-- Modelled from the spec: the completion routine `done()`: it decrements
the job's own dependency count; when the count reaches zero it invokes
`on_done()`, wakes the threads blocked in `join()`, leaves the job idle, and
if the job has a parent runs the parent's completion routine.  The recursion
along the parents is bounded by `fuel`; `none` is a recursion that did not
end within it. -/
def done : Nat → job_pool → Nat → Option job_pool
  | 0, _, _ => none
  | fuel + 1, p, j =>
    let d := ((p.jobs j).m_dependencies + SIZE_T_RANGE - 1) % SIZE_T_RANGE
    let p1 := p.set j { p.jobs j with m_dependencies := d }
    if d ≠ 0 then some p1
    else
      let p2 : job_pool :=
        { jobs := Function.update p1.jobs j { p1.jobs j with m_state := job_state.job_idle }
          log := p1.log ++ [job_event.on_done j, job_event.notify j] }
      match (p.jobs j).m_parent with
      | none => some p2
      | some q => done fuel p2 q

/-- Modelled from the spec: `run()`, called by a worker: the job goes from
enqueued to running, its work `operator()` is invoked, then `done()`. -/
def run (fuel : Nat) (p : job_pool) (j : Nat) : Option job_pool :=
  done fuel
    { jobs := Function.update p.jobs j { p.jobs j with m_state := job_state.job_running }
      log := p.log ++ [job_event.work j] } j

/-- Modelled from the spec: `is_done()`: whether the dependency count is
zero. -/
def is_done (p : job_pool) (j : Nat) : Bool :=
  decide ((p.jobs j).m_dependencies = 0)

/-- Modelled from the spec: `join()` returns in a state in which `is_done()`
is true, and stays blocked in any other (`none`). -/
def join (p : job_pool) (j : Nat) : Option job_pool :=
  if p.is_done j then some p else none

/-- The jobs of `sched` run one after the other, each to its end. -/
def run_all (fuel : Nat) : List Nat → job_pool → Option job_pool
  | [], p => some p
  | j :: js, p =>
    match run fuel p j with
    | none => none
    | some p1 => run_all fuel js p1

/-- The children `cs` enqueued one after the other under the parent `a`. -/
def enqueue_children (a : Nat) : List Nat → job_pool → job_pool
  | [], p => p
  | c :: cs, p => enqueue_children a cs (p.enqueue c (some a))

/-- The pool after a parent job `a` and the child jobs `cs` under it have
been submitted, all of them newly constructed before. -/
def submitted (a : Nat) (cs : List Nat) : job_pool :=
  enqueue_children a cs (fresh.enqueue a none)

end job_pool

/-- Modelled from the spec: `default_worker_count()`, which `tpie/job.h`
declares and whose body is not among the sources: it returns the hardware
concurrency if that is less than 4, and the hardware concurrency minus 1
otherwise.  The hardware concurrency is the parameter. -/
def default_worker_count (hardware_concurrency : Nat) : Nat :=
  if hardware_concurrency < 4 then hardware_concurrency else hardware_concurrency - 1

/-! ## `progress_indicator_arrow` -/

/-- Number of values of `stream_size_type` (unsigned, 64 bits). -/
def STREAM_SIZE_RANGE : Nat := 2 ^ 64

/-- The members of `progress_indicator_arrow` that its methods use:
`m_indicatorLength` and `m_progress` of the class itself, and `m_title`,
`m_range` and `m_current` inherited from `progress_indicator_terminal`. -/
structure progress_indicator_arrow where
  m_title : String
  m_range : Nat
  m_current : Nat
  m_indicatorLength : Nat
  m_progress : Nat
deriving DecidableEq, Repr

namespace progress_indicator_arrow

/-- The constructor `progress_indicator_arrow(title, range)`:
`m_indicatorLength(0), m_progress(0)` and then `m_indicatorLength = 110;`;
the base class starts at `m_current = 0`. -/
def new (title : String) (range : Nat) : progress_indicator_arrow :=
  { m_title := title, m_range := range, m_current := 0, m_indicatorLength := 110,
    m_progress := 0 }

/-- The method `set_indicator_length(int indicatorLength)`:
`m_indicatorLength = std::max(2, std::min(60, indicatorLength));`, computed
on `int` and stored in a `stream_size_type`. -/
def set_indicator_length (self : progress_indicator_arrow) (indicatorLength : Int) :
    progress_indicator_arrow :=
  { self with
    m_indicatorLength := ((max 2 (min 60 indicatorLength)) % (STREAM_SIZE_RANGE : Int)).toNat }

/-- The method `reset()`: `m_current = 0; m_progress = 0;`. -/
def reset (self : progress_indicator_arrow) : progress_indicator_arrow :=
  { self with m_current := 0, m_progress := 0 }

end progress_indicator_arrow

/-- Every occurrence of the event `e2` in the log comes after an occurrence
of the event `e1`. -/
def Precedes (e1 e2 : job_event) (log : List job_event) : Prop :=
  ∀ l1 l2, log = l1 ++ e2 :: l2 → e1 ∈ l1

/-- The state of a parent `a` and its children `cs` in which exactly the
jobs of `D` have run to their end: the dependency counts, the parents, how
often each work call and each hook has been invoked, and in which order. -/
structure job_pool.ran (a : Nat) (cs D : List Nat) (p : job_pool) : Prop where
  parent_a : (p.jobs a).m_parent = none
  parent_c : ∀ c, c ∈ cs → (p.jobs c).m_parent = some a
  deps_a : (p.jobs a).m_dependencies = cs.length + 1 - D.length
  deps_c : ∀ c, c ∈ cs → (p.jobs c).m_dependencies = if c ∈ D then 0 else 1
  work : ∀ j, p.log.count (job_event.work j) = if j ∈ D then 1 else 0
  on_done_c : ∀ c, c ∈ cs → p.log.count (job_event.on_done c) = if c ∈ D then 1 else 0
  on_done_a : p.log.count (job_event.on_done a) = if cs.length + 1 ≤ D.length then 1 else 0
  hook_after_work : ∀ j, Precedes (job_event.work j) (job_event.on_done j) p.log
  hook_after_children : ∀ c, c ∈ cs →
    Precedes (job_event.work c) (job_event.on_done a) p.log ∧
      Precedes (job_event.on_done c) (job_event.on_done a) p.log

/-! ## The phases of a call and the reuse of a sorter -/

/-- The read phase of `Internal_Sorter_KObj::sort`, once the two checks on
entry have passed: `fp.init(); read_progress.init(nItems);`, the read loop,
and `read_progress.done();`. -/
def Internal_Sorter_KObj.read_phase {α κ : Type} (InStr nItems : Nat)
    (c : Cfg (Internal_Sorter_KObj α κ) α) : Outcome (Internal_Sorter_KObj α κ) α :=
  let c := c.report progress_call.fp_init
  let c := c.report (progress_call.init subindicator.read_progress nItems)
  match Internal_Sorter_KObj.read_loop InStr nItems c with
  | Except.error e => Except.error e
  | Except.ok c => Except.ok (c.report (progress_call.done subindicator.read_progress))

/-- The entries the indirection array is to hold after the read phase of a
key sort of `run`, in the words of the spec: entry `i` holds the key
extracted from the `i`-th item read, together with the source index `i`
(counted from the index of the first item). -/
def Internal_Sorter_KObj.extracted_entries {α κ : Type} (cmp : key_comparator α κ) :
    Nat → List α → List (qsort_item κ)
  | _, [] => []
  | i, x :: xs =>
    { keyval := cmp.copy x, source := i } ::
      Internal_Sorter_KObj.extracted_entries cmp (i + 1) xs

/-- The operations on streams among the events, in order. -/
def stream_ops {α : Type} (es : List (Event α)) : List (Event α) :=
  es.filter (fun e =>
    match e with
    | Event.read _ _ => true
    | Event.write _ _ => true
    | Event.truncate _ _ => true
    | Event.seek _ _ => true
    | _ => false)

/-- The calls on the reporter and the call of `parallel_sort` among the
events, in order. -/
def reporter_and_sort {α : Type} (es : List (Event α)) : List (Event α) :=
  es.filter (fun e =>
    match e with
    | Event.progress _ => true
    | Event.parallel_sort _ => true
    | _ => false)

/-- The state of a later call on the sorter an earlier call ended with: the
sorter object as that call left it, the streams of the later call, no
reporter, no events. -/
def Outcome.next_call {S α : Type} (r : Outcome S α) (streams : Nat → file_stream α) :
    Cfg S α :=
  { self := r.final.self, streams := streams, pi := none, trace := [] }

namespace progress_indicator_arrow

/-- The local `l` of `refresh()`:
`stream_size_type l = m_indicatorLength - 12 - m_title.size();`, in unsigned
64-bit arithmetic; the title is a sequence of `char`. -/
def refresh_l (self : progress_indicator_arrow) : Nat :=
  (((self.m_indicatorLength : Int) - 12 - (self.m_title.length : Int))
    % (STREAM_SIZE_RANGE : Int)).toNat

/-- The local `progress` of `refresh()` at the point the bar is printed:
`progress = (m_range) ? l * (m_current)/(m_range) : 0;` and then
`if (progress >= l) progress = l -1;`, in unsigned 64-bit arithmetic. -/
def refresh_progress (self : progress_indicator_arrow) : Nat :=
  let l := self.refresh_l
  let progress :=
    if self.m_range ≠ 0 then (l * self.m_current % STREAM_SIZE_RANGE) / self.m_range else 0
  if progress ≥ l then (l + STREAM_SIZE_RANGE - 1) % STREAM_SIZE_RANGE else progress

/-- The text `refresh()` prints between `" ["` and `"] "`: the loop
`for(i = 0; i < progress; i++) std::cout << "=";`, then `">"`, then the loop
`for(i = progress+1; i < l; i++) std::cout << " ";`. -/
def refresh_bar (self : progress_indicator_arrow) : List Char :=
  List.replicate self.refresh_progress '=' ++ ['>'] ++
    List.replicate (self.refresh_l - (self.refresh_progress + 1) % STREAM_SIZE_RANGE) ' '

/-- The method `refresh()` on the members of the class: after the bar is
printed, `m_progress = progress;`. -/
def refresh (self : progress_indicator_arrow) : progress_indicator_arrow :=
  { self with m_progress := self.refresh_progress }

end progress_indicator_arrow

/-- The stream operations of a call in three phases, as the spec orders them:
the reads of the items `run` from the input stream, then, only when input
and output are the same stream, `truncate(0)` followed by `seek(0)`, then
the writes of the items `out` to the output stream. -/
def phased_ops {α : Type} (InStr OutStr : Nat) (run out : List α) : List (Event α) :=
  run.map (Event.read InStr)
  ++ (if InStr = OutStr then [Event.truncate InStr 0, Event.seek InStr 0] else [])
  ++ out.map (Event.write OutStr)

/-- The progress protocol of a call with `nItems` items, as the spec orders
it: the parent scope is opened; the read sub-phase receives
`init(nItems)`, `nItems` calls of `step()` and one `done()`; then the sorting;
then the write sub-phase receives `init(nItems)`, `nItems` calls of `step()`
and one `done()`; the `done()` of the parent scope is last. -/
def sort_protocol {α : Type} (nItems : Nat) : List (Event α) :=
  [Event.progress progress_call.fp_init,
    Event.progress (progress_call.init subindicator.read_progress nItems)]
  ++ List.replicate nItems (Event.progress (progress_call.step subindicator.read_progress))
  ++ [Event.progress (progress_call.done subindicator.read_progress),
    Event.parallel_sort nItems,
    Event.progress (progress_call.init subindicator.write_progress nItems)]
  ++ List.replicate nItems (Event.progress (progress_call.step subindicator.write_progress))
  ++ [Event.progress (progress_call.done subindicator.write_progress),
    Event.progress progress_call.fp_done]

/-! # Theorems -/

/-! ## Lists and loops -/

theorem read_events_append {α : Type} (s : Nat) (l : List α) (x : α) :
    read_events s (l ++ [x]) = read_events s l ++
      [Event.read s x, Event.progress (progress_call.step subindicator.read_progress)] := by
  induction l with
  | nil => rfl
  | cons y ys ih => simp [read_events, ih]

theorem write_events_append {α : Type} (s : Nat) (l : List α) (x : α) :
    write_events s (l ++ [x]) = write_events s l ++
      [Event.write s x, Event.progress (progress_call.step subindicator.write_progress)] := by
  induction l with
  | nil => rfl
  | cons y ys ih => simp [write_events, ih]

theorem set_after_front {α : Type} (P A : List α) (n : Nat) (x : α) (hP : P.length = n)
    (hA : n < A.length) : (P ++ A.drop n).set n x = (P ++ [x]) ++ A.drop (n + 1) := by
  subst hP
  rw [List.set_append_right _ _ (Nat.le_refl _)]
  rw [List.drop_eq_getElem_cons hA]
  simp only [Nat.sub_self, List.set_cons_zero, List.append_assoc, List.singleton_append]

theorem take_succ_of_lt {α : Type} (l : List α) (n : Nat) (h : n < l.length) :
    l.take (n + 1) = l.take n ++ [l[n]] := by
  rw [List.take_succ, List.getElem?_eq_getElem h]
  rfl

/-- The items a read loop of `n` iterations takes from a stream. -/
theorem run_take_succ {α : Type} (f : file_stream α) (n : Nat)
    (h : f.offset + n < f.items.length) :
    (f.items.drop f.offset).take (n + 1) =
      (f.items.drop f.offset).take n ++ [f.items[f.offset + n]] := by
  rw [take_succ_of_lt _ _ (by simp; omega)]
  simp

theorem receive_receive (r : progress_indicator_base) (ps qs : List progress_call) :
    (r.receive ps).receive qs = r.receive (ps ++ qs) := by
  simp [progress_indicator_base.receive]

theorem base_read_loop_ok {α : Type} (InStr n : Nat)
    (c : Cfg (Internal_Sorter_Base α) α)
    (hin : (c.streams InStr).offset + n ≤ (c.streams InStr).items.length)
    (hA : n ≤ c.self.ItemArray.length) :
    Internal_Sorter_Base.read_loop InStr n c = Except.ok
      { self :=
          { ItemArray := ((c.streams InStr).items.drop (c.streams InStr).offset).take n
              ++ c.self.ItemArray.drop n
            len := c.self.len }
        streams := Function.update c.streams InStr
          { items := (c.streams InStr).items, offset := (c.streams InStr).offset + n }
        pi := c.pi.map (fun r =>
          r.receive (List.replicate n (progress_call.step subindicator.read_progress)))
        trace := c.trace ++ read_events InStr
          (((c.streams InStr).items.drop (c.streams InStr).offset).take n) } := by
  induction n with
  | zero =>
    simp [Internal_Sorter_Base.read_loop, for_loop, read_events,
      progress_indicator_base.receive]
  | succ n ih =>
    have ih1 := ih (by omega) (by omega)
    unfold Internal_Sorter_Base.read_loop at ih1 ⊢
    rw [for_loop, ih1]
    have hlt : (c.streams InStr).offset + n < (c.streams InStr).items.length := by omega
    simp only [Cfg.stream_read, file_stream.read, Function.update_same,
      List.getElem?_eq_getElem hlt, Cfg.report]
    rw [run_take_succ _ _ hlt, read_events_append]
    rw [set_after_front _ _ _ _ (by simp; omega) (by omega)]
    simp [progress_indicator_base.receive, List.replicate_succ', Function.comp_def]
    rfl

theorem write_step_items {α : Type} (P R xs : List α) (x : α) (n : Nat)
    (hP : P.length = n) :
    (P ++ x :: R).take (n + 1) ++ xs ++ (P ++ x :: R).drop (n + 1 + xs.length) =
      P ++ x :: xs ++ R.drop xs.length := by
  subst hP
  rw [List.take_append, Nat.add_assoc, List.drop_append]
  simp [Nat.add_comm 1]

/-- Writing the items `l` to a stream, one after the other. -/
theorem write_many_eq {α : Type} (l : List α) (f : file_stream α)
    (h : f.offset ≤ f.items.length) :
    l.foldl file_stream.write f =
      { items := f.items.take f.offset ++ l ++ f.items.drop (f.offset + l.length)
        offset := f.offset + l.length } := by
  induction l generalizing f with
  | nil => simp
  | cons x xs ih =>
    rw [List.foldl_cons, ih]
    · by_cases hlt : f.offset < f.items.length
      · simp only [file_stream.write, if_pos hlt]
        rw [List.set_eq_take_append_cons_drop, if_pos hlt,
          write_step_items _ _ _ _ _ (by simp; omega)]
        simp [Nat.add_comm, Nat.add_left_comm]
      · simp only [file_stream.write, if_neg hlt]
        have he : f.offset = f.items.length := by omega
        simp only [he, List.length_cons]
        rw [List.take_of_length_le (by simp), List.take_of_length_le (Nat.le_refl _),
          List.drop_eq_nil_of_le (by simp), List.drop_eq_nil_of_le (by omega)]
        simp [Nat.add_comm, Nat.add_left_comm]
    · by_cases hlt : f.offset < f.items.length
      · simp only [file_stream.write, if_pos hlt, List.length_set]
        omega
      · simp only [file_stream.write, if_neg hlt, List.length_append, List.length_singleton]
        omega

theorem base_write_loop_ok {α : Type} [Inhabited α] (OutStr n : Nat)
    (c : Cfg (Internal_Sorter_Base α) α) (hA : n ≤ c.self.ItemArray.length) :
    Internal_Sorter_Base.write_loop OutStr n c =
      { self := c.self
        streams := Function.update c.streams OutStr
          ((c.self.ItemArray.take n).foldl file_stream.write (c.streams OutStr))
        pi := c.pi.map (fun r =>
          r.receive (List.replicate n (progress_call.step subindicator.write_progress)))
        trace := c.trace ++ write_events OutStr (c.self.ItemArray.take n) } := by
  induction n with
  | zero =>
    simp [Internal_Sorter_Base.write_loop, for_each, write_events,
      progress_indicator_base.receive]
  | succ n ih =>
    have ih1 := ih (by omega)
    unfold Internal_Sorter_Base.write_loop at ih1 ⊢
    rw [for_each, ih1]
    have hlt : n < c.self.ItemArray.length := by omega
    rw [take_succ_of_lt _ _ hlt, write_events_append]
    simp [Cfg.stream_write, Cfg.report, progress_indicator_base.receive,
      List.replicate_succ', Function.comp_def, List.getD_eq_getElem?_getD,
      List.getElem?_eq_getElem hlt]
    rw [take_succ_of_lt _ _ hlt, List.foldl_append]
    rfl

theorem input_run_length {α : Type} (f : file_stream α) (n : Nat)
    (h : f.offset + n ≤ f.items.length) : (input_run f n).length = n := by
  simp [input_run]
  omega

theorem Internal_Sorter_Base.sort_body_ok {α : Type} [Inhabited α]
    (parallel_sort : parallel_sort_fn α) (comp : α → α → Bool) (InStr OutStr n : Nat)
    (c : Cfg (Internal_Sorter_Base α) α)
    (hin : (c.streams InStr).offset + n ≤ (c.streams InStr).items.length)
    (hA : n ≤ c.self.ItemArray.length)
    (hlen : (parallel_sort comp (input_run (c.streams InStr) n)).length = n) :
    Internal_Sorter_Base.sort_body parallel_sort comp InStr OutStr n c = Except.ok
      { self :=
          { ItemArray := parallel_sort comp (input_run (c.streams InStr) n)
              ++ c.self.ItemArray.drop n
            len := c.self.len }
        streams := sort_streams c.streams InStr OutStr n
          (parallel_sort comp (input_run (c.streams InStr) n))
        pi := c.pi.map (fun r => r.receive (sort_calls n))
        trace := c.trace ++ sort_events InStr OutStr n (input_run (c.streams InStr) n)
          (parallel_sort comp (input_run (c.streams InStr) n)) } := by
  have hrun := input_run_length (c.streams InStr) n hin
  unfold Internal_Sorter_Base.sort_body
  simp only []
  rw [base_read_loop_ok InStr n
    ((c.report progress_call.fp_init).report
      (progress_call.init subindicator.read_progress n)) hin hA]
  simp only []
  have htake : List.take n (List.take n (List.drop (c.streams InStr).offset
      (c.streams InStr).items) ++ List.drop n c.self.ItemArray) =
      input_run (c.streams InStr) n := by
    rw [List.take_append_of_le_length (by rw [← input_run, hrun])]
    exact List.take_of_length_le (by rw [← input_run, hrun])
  have hdrop : List.drop n (List.take n (List.drop (c.streams InStr).offset
      (c.streams InStr).items) ++ List.drop n c.self.ItemArray) =
      List.drop n c.self.ItemArray := by
    rw [List.drop_append_of_le_length (by rw [← input_run, hrun])]
    rw [List.drop_eq_nil_of_le (by rw [← input_run, hrun])]
    rfl
  rw [base_write_loop_ok]
  · by_cases hs : InStr = OutStr
    · subst hs
      simp only [Cfg.report, Internal_Sorter_Base.sort_items, Cfg.rewind_if_same, htake, hdrop,
        if_true, Cfg.stream_truncate, Cfg.stream_seek]
      simp [sort_streams, sort_events, sort_calls, progress_indicator_base.receive,
        Function.comp_def, hlen, file_stream.truncate, file_stream.seek]
      rfl
    · simp only [Cfg.report, Internal_Sorter_Base.sort_items, Cfg.rewind_if_same, htake, hdrop,
        if_neg hs]
      simp [sort_streams, sort_events, sort_calls, progress_indicator_base.receive,
        Function.comp_def, hlen, hs]
      rfl
  · simp only [Cfg.report, Internal_Sorter_Base.sort_items, Cfg.rewind_if_same, htake, hdrop]
    split <;> simp [Cfg.stream_truncate, Cfg.stream_seek, hlen]

/-! ## Orderings and insertion sort -/

theorem StrictWeakOrder.asymm {α : Type} {lt : α → α → Bool} (h : StrictWeakOrder lt)
    (a b : α) (hab : lt a b = true) : lt b a = false := by
  cases hba : lt b a with
  | false => rfl
  | true =>
    have := h.trans a b a hab hba
    rw [h.irrefl a] at this
    cases this

/-- With a strict weak order, "not greater" is transitive. -/
theorem StrictWeakOrder.not_lt_trans {α : Type} {lt : α → α → Bool} (h : StrictWeakOrder lt)
    (a b c : α) (h1 : lt b a = false) (h2 : lt c b = false) : lt c a = false := by
  cases hca : lt c a with
  | false => rfl
  | true =>
    cases hab : lt a b with
    | true =>
      have := h.trans c a b hca hab
      rw [h2] at this
      cases this
    | false =>
      cases hbc : lt b c with
      | true =>
        have := h.trans b c a hbc hca
        rw [h1] at this
        cases this
      | false =>
        have := (h.incomp_trans a b c hab h1 hbc h2).2
        rw [hca] at this
        cases this

theorem ordered_insert_perm {α : Type} (lt : α → α → Bool) (x : α) (l : List α) :
    (ordered_insert lt x l).Perm (x :: l) := by
  induction l with
  | nil => exact List.Perm.refl _
  | cons y ys ih =>
    unfold ordered_insert
    split
    · exact (List.Perm.cons y ih).trans (List.Perm.swap x y ys)
    · exact List.Perm.refl _

theorem insertion_sort_perm {α : Type} (lt : α → α → Bool) (l : List α) :
    (insertion_sort lt l).Perm l := by
  induction l with
  | nil => exact List.Perm.refl _
  | cons x xs ih =>
    exact (ordered_insert_perm lt x _).trans (List.Perm.cons x ih)

theorem ordered_insert_nondecreasing {α : Type} {lt : α → α → Bool}
    (h : StrictWeakOrder lt) (x : α) (l : List α) (hl : NonDecreasing lt l) :
    NonDecreasing lt (ordered_insert lt x l) := by
  induction l with
  | nil => simp [ordered_insert, NonDecreasing]
  | cons y ys ih =>
    unfold NonDecreasing at hl ih ⊢
    rw [List.pairwise_cons] at hl
    unfold ordered_insert
    split
    · rename_i hyx
      rw [List.pairwise_cons]
      refine ⟨?_, ih hl.2⟩
      intro b hb
      have hb1 := (ordered_insert_perm lt x ys).subset hb
      rcases List.mem_cons.mp hb1 with rfl | hb2
      · exact h.asymm y b hyx
      · exact hl.1 b hb2
    · rename_i hyx
      have hyx1 : lt y x = false := by simpa using hyx
      rw [List.pairwise_cons]
      refine ⟨?_, List.pairwise_cons.mpr hl⟩
      intro b hb
      rcases List.mem_cons.mp hb with rfl | hb2
      · exact hyx1
      · exact h.not_lt_trans x y b hyx1 (hl.1 b hb2)

theorem insertion_sort_nondecreasing {α : Type} {lt : α → α → Bool}
    (h : StrictWeakOrder lt) (l : List α) : NonDecreasing lt (insertion_sort lt l) := by
  induction l with
  | nil => simp [insertion_sort, NonDecreasing]
  | cons x xs ih => exact ordered_insert_nondecreasing h x _ ih

/-- Insertion sort is a correct comparison sort. -/
theorem insertion_sort_correct {α : Type} : CorrectSort (insertion_sort : parallel_sort_fn α) :=
  fun lt h l => ⟨insertion_sort_perm lt l, insertion_sort_nondecreasing h l⟩

/-- The operator `<` of a linear order is a strict weak order. -/
theorem std_less_strict_weak {α : Type} [LinearOrder α] :
    StrictWeakOrder (std_less : α → α → Bool) where
  irrefl a := by simp [std_less]
  trans a b c := by
    simp only [std_less, decide_eq_true_eq]
    exact lt_trans
  incomp_trans a b c := by
    simp only [std_less, decide_eq_false_iff_not, not_lt]
    intro h1 h2 h3 h4
    exact ⟨le_trans h3 h1, le_trans h2 h4⟩

/-- The comparison object used when a call of `Internal_Sorter_Obj` is
evaluated, seen through `TPIE2STL_cmp`, is the operator `<`. -/
theorem TPIE2STL_cmp_three_way {α : Type} [LinearOrder α] :
    TPIE2STL_cmp (three_way : α → α → Int) = std_less := by
  funext a b
  simp only [TPIE2STL_cmp, three_way, std_less]
  by_cases h : a < b
  · simp [h]
  · by_cases h2 : a = b
    · simp [h2]
    · simp [h, h2]

theorem three_way_strict_weak {α : Type} [LinearOrder α] :
    StrictWeakOrder (TPIE2STL_cmp (three_way : α → α → Int)) := by
  rw [TPIE2STL_cmp_three_way]
  exact std_less_strict_weak

theorem written_append {α : Type} (s : Nat) (l1 l2 : List (Event α)) :
    written s (l1 ++ l2) = written s l1 ++ written s l2 := by
  simp [written]

theorem written_read_events {α : Type} (s t : Nat) (l : List α) :
    written s (read_events t l) = [] := by
  induction l with
  | nil => rfl
  | cons x xs ih =>
    simp only [read_events]
    simpa [written] using ih

theorem written_write_events {α : Type} (s : Nat) (l : List α) :
    written s (write_events s l) = l := by
  induction l with
  | nil => rfl
  | cons x xs ih =>
    simpa [written, write_events] using ih

/-- The items written to the output stream by the events of a `sort` call
that returns are the items of its write loop. -/
theorem written_sort_events {α : Type} (InStr OutStr n : Nat) (run out : List α) :
    written OutStr (sort_events InStr OutStr n run out) = out := by
  unfold sort_events
  simp only [written_append, written_read_events, written_write_events]
  split <;> simp [written]

theorem read_from_append {α : Type} (s : Nat) (l1 l2 : List (Event α)) :
    read_from s (l1 ++ l2) = read_from s l1 ++ read_from s l2 := by
  simp [read_from]

theorem read_from_read_events {α : Type} (s : Nat) (l : List α) :
    read_from s (read_events s l) = l := by
  induction l with
  | nil => rfl
  | cons x xs ih => simpa [read_from, read_events] using ih

theorem read_from_write_events {α : Type} (s t : Nat) (l : List α) :
    read_from s (write_events t l) = [] := by
  induction l with
  | nil => rfl
  | cons x xs ih =>
    simp only [write_events]
    simpa [read_from] using ih

/-- The items read from the input stream by the events of a `sort` call that
returns are the input run. -/
theorem read_from_sort_events {α : Type} (InStr OutStr n : Nat) (run out : List α) :
    read_from InStr (sort_events InStr OutStr n run out) = run := by
  unfold sort_events
  simp only [read_from_append, read_from_read_events, read_from_write_events]
  split <;> simp [read_from]

theorem new_events_ok {S α : Type} (c c1 : Cfg S α) (es : List (Event α))
    (h : c1.trace = c.trace ++ es) : new_events c (Except.ok c1) = es := by
  simp [new_events, Outcome.final, h]

theorem new_events_error {S α : Type} (c : Cfg S α) (a : Abort) :
    new_events c (Except.error (a, c)) = [] := by
  simp [new_events, Outcome.final]

/-! ## The sorters on a valid call -/

/-- A correct comparison sort keeps the number of items. -/
theorem CorrectSort.length_eq {α : Type} {parallel_sort : parallel_sort_fn α}
    (hps : CorrectSort parallel_sort) {comp : α → α → Bool} (hcomp : StrictWeakOrder comp)
    (l : List α) : (parallel_sort comp l).length = l.length :=
  (hps comp hcomp l).1.length_eq

/-- What the shared body reads and writes, for a correct sort and a valid
call: it returns, the items read are the input run and the items written to
the output stream are the sorted run. -/
theorem Internal_Sorter_Base.sort_body_written {α : Type} [Inhabited α]
    {parallel_sort : parallel_sort_fn α} (hps : CorrectSort parallel_sort)
    {comp : α → α → Bool} (hcomp : StrictWeakOrder comp) (InStr OutStr n : Nat)
    (c : Cfg (Internal_Sorter_Base α) α)
    (hin : (c.streams InStr).offset + n ≤ (c.streams InStr).items.length)
    (hA : n ≤ c.self.ItemArray.length) :
    ∃ c1, Internal_Sorter_Base.sort_body parallel_sort comp InStr OutStr n c = Except.ok c1 ∧
      read_from InStr
        (new_events c (Internal_Sorter_Base.sort_body parallel_sort comp InStr OutStr n c)) =
        input_run (c.streams InStr) n ∧
      written OutStr
        (new_events c (Internal_Sorter_Base.sort_body parallel_sort comp InStr OutStr n c)) =
        parallel_sort comp (input_run (c.streams InStr) n) := by
  have hlen : (parallel_sort comp (input_run (c.streams InStr) n)).length = n := by
    rw [hps.length_eq hcomp, input_run_length _ _ hin]
  rw [Internal_Sorter_Base.sort_body_ok parallel_sort comp InStr OutStr n c hin hA hlen]
  refine ⟨_, rfl, ?_, ?_⟩
  · rw [new_events_ok c _ _ rfl, read_from_sort_events]
  · rw [new_events_ok c _ _ rfl, written_sort_events]

theorem op_sort_eq_body {α : Type} [LT α] [DecidableRel (fun a b : α => a < b)]
    [Inhabited α] (parallel_sort : parallel_sort_fn α) (InStr OutStr n : Nat)
    (c : Cfg (Internal_Sorter_Base α) α) (hcap : c.self.ItemArray.length = c.self.len)
    (hpos : 0 < c.self.len) (hn : n ≤ c.self.len) :
    Internal_Sorter_Op.sort parallel_sort InStr OutStr n c =
      Internal_Sorter_Base.sort_body parallel_sort std_less InStr OutStr n c := by
  unfold Internal_Sorter_Op.sort
  rw [if_neg (by omega), if_neg (by omega)]

theorem obj_sort_eq_body {α : Type} [Inhabited α] (cmp_o : α → α → Int)
    (parallel_sort : parallel_sort_fn α) (InStr OutStr n : Nat)
    (c : Cfg (Internal_Sorter_Base α) α) (hcap : c.self.ItemArray.length = c.self.len)
    (hpos : 0 < c.self.len) (hn : n ≤ c.self.len) :
    Internal_Sorter_Obj.sort cmp_o parallel_sort InStr OutStr n c =
      Internal_Sorter_Base.sort_body parallel_sort (TPIE2STL_cmp cmp_o) InStr OutStr n c := by
  unfold Internal_Sorter_Obj.sort
  rw [if_neg (by omega), if_neg (by omega), if_neg (by omega)]

/-- On a sorter without a buffer `Internal_Sorter_Op::sort` throws at once. -/
theorem op_sort_unallocated {α : Type} [LT α]
    [DecidableRel (fun a b : α => a < b)] [Inhabited α] (parallel_sort : parallel_sort_fn α)
    (InStr OutStr n : Nat) (c : Cfg (Internal_Sorter_Base α) α)
    (h : c.self.ItemArray.length = 0) :
    Internal_Sorter_Op.sort parallel_sort InStr OutStr n c =
      Except.error (Abort.NULL_POINTER, c) := by
  unfold Internal_Sorter_Op.sort
  rw [if_pos h]

/-- On a sorter without a buffer `Internal_Sorter_Obj::sort` ends before any
event, with the capacity assertion for a positive count and with the
exception for count 0. -/
theorem obj_sort_unallocated {α : Type} [Inhabited α] (cmp_o : α → α → Int)
    (parallel_sort : parallel_sort_fn α) (InStr OutStr n : Nat)
    (c : Cfg (Internal_Sorter_Base α) α) (h : c.self.ItemArray.length = 0)
    (hlen : c.self.len = 0) :
    Internal_Sorter_Obj.sort cmp_o parallel_sort InStr OutStr n c =
      Except.error (if n = 0 then Abort.NULL_POINTER else Abort.buffer_overfull, c) := by
  unfold Internal_Sorter_Obj.sort
  by_cases hn : n = 0
  · rw [if_neg (by omega), if_pos h, if_pos hn]
  · rw [if_pos (by omega), if_neg hn]

/-- A correct comparison sort of a list of numbers is determined: it gives
the one non-decreasing arrangement of the list. -/
theorem CorrectSort.nat_eq {parallel_sort : parallel_sort_fn Nat}
    (hps : CorrectSort parallel_sort) (l sorted : List Nat) (hp : l.Perm sorted)
    (hs : sorted.Sorted (fun a b => a ≤ b)) : parallel_sort std_less l = sorted := by
  obtain ⟨h1, h2⟩ := hps std_less std_less_strict_weak l
  apply List.eq_of_perm_of_sorted (h1.trans hp) _ hs
  unfold NonDecreasing at h2
  refine List.Pairwise.imp ?_ h2
  intro a b hab
  simpa [std_less] using hab

/-- The scenario of the spec for `Internal_Sorter_Op`, for every correct
comparison sort: the ten integers are written in ascending order. -/
theorem Internal_Sorter_Op.sort_scenario (parallel_sort : parallel_sort_fn Nat)
    (hps : CorrectSort parallel_sort) :
    written 1 (new_events (Internal_Sorter_Base.fresh 10 [5, 3, 8, 1, 9, 2, 7, 4, 6, 0])
      (Internal_Sorter_Op.sort parallel_sort 0 1 10
        (Internal_Sorter_Base.fresh 10 [5, 3, 8, 1, 9, 2, 7, 4, 6, 0]))) =
      [0, 1, 2, 3, 4, 5, 6, 7, 8, 9] := by
  rw [op_sort_eq_body parallel_sort 0 1 10 _ rfl (by decide) (by decide)]
  obtain ⟨c1, _, _, w1⟩ := Internal_Sorter_Base.sort_body_written hps std_less_strict_weak 0 1 10
    (Internal_Sorter_Base.fresh 10 [5, 3, 8, 1, 9, 2, 7, 4, 6, 0]) (by decide) (by decide)
  rw [w1]
  exact hps.nat_eq _ _ (by decide) (by decide)

/-! ## Claims -/

/-- C1: for `Internal_Sorter_Op` and `Internal_Sorter_Obj`, for every capacity
(`len`, the size of `ItemArray`), every count `nItems ≤ len` and every input
stream with at least `nItems` items from its position, the items `sort` writes
to the output stream are in non-decreasing order under the active ordering
(`std::less` for Op, `TPIE2STL_cmp cmp_o` for Obj), with `parallel_sort` a
correct comparison sort and the ordering a strict weak order; and when the
capacity is positive the call returns and has written `nItems` items. -/
theorem sort_writes_nondecreasing {α : Type} [LT α] [DecidableRel (fun a b : α => a < b)]
    [Inhabited α] (parallel_sort : parallel_sort_fn α) (hps : CorrectSort parallel_sort)
    (cmp_o : α → α → Int) (hless : StrictWeakOrder (std_less : α → α → Bool))
    (hcmp : StrictWeakOrder (TPIE2STL_cmp cmp_o)) (InStr OutStr nItems : Nat)
    (c : Cfg (Internal_Sorter_Base α) α) (hcap : c.self.ItemArray.length = c.self.len)
    (hn : nItems ≤ c.self.len)
    (hin : (c.streams InStr).offset + nItems ≤ (c.streams InStr).items.length) :
    (NonDecreasing std_less
        (written OutStr
          (new_events c (Internal_Sorter_Op.sort parallel_sort InStr OutStr nItems c))) ∧
      (0 < c.self.len →
        ∃ c1, Internal_Sorter_Op.sort parallel_sort InStr OutStr nItems c = Except.ok c1 ∧
          (written OutStr (new_events c
            (Internal_Sorter_Op.sort parallel_sort InStr OutStr nItems c))).length = nItems)) ∧
    (NonDecreasing (TPIE2STL_cmp cmp_o)
        (written OutStr
          (new_events c
            (Internal_Sorter_Obj.sort cmp_o parallel_sort InStr OutStr nItems c))) ∧
      (0 < c.self.len →
        ∃ c1, Internal_Sorter_Obj.sort cmp_o parallel_sort InStr OutStr nItems c
            = Except.ok c1 ∧
          (written OutStr (new_events c
            (Internal_Sorter_Obj.sort cmp_o parallel_sort InStr OutStr nItems c))).length
            = nItems)) := by
  have hA : nItems ≤ c.self.ItemArray.length := by omega
  have hrun := input_run_length (c.streams InStr) nItems hin
  by_cases hpos : 0 < c.self.len
  · obtain ⟨c1, h1, _, w1⟩ :=
      Internal_Sorter_Base.sort_body_written hps hless InStr OutStr nItems c hin hA
    obtain ⟨c2, h2, _, w2⟩ :=
      Internal_Sorter_Base.sort_body_written hps hcmp InStr OutStr nItems c hin hA
    rw [op_sort_eq_body parallel_sort InStr OutStr nItems c hcap hpos hn,
      obj_sort_eq_body cmp_o parallel_sort InStr OutStr nItems c hcap hpos hn,
      w1, w2]
    refine ⟨⟨(hps _ hless _).2, fun _ => ⟨c1, h1, ?_⟩⟩, ⟨(hps _ hcmp _).2, fun _ => ⟨c2, h2, ?_⟩⟩⟩
    · rw [hps.length_eq hless, hrun]
    · rw [hps.length_eq hcmp, hrun]
  · have h0 : c.self.ItemArray.length = 0 := by omega
    rw [op_sort_unallocated parallel_sort InStr OutStr nItems c h0,
      obj_sort_unallocated cmp_o parallel_sort InStr OutStr nItems c h0
        (by omega)]
    rw [new_events_error, new_events_error]
    exact ⟨⟨List.Pairwise.nil, fun h => absurd h hpos⟩, ⟨List.Pairwise.nil, fun h => absurd h hpos⟩⟩

/-- C1, at the scenario of the spec: a sorter allocated for 10 items, the
integers 5,3,8,1,9,2,7,4,6,0 on stream 0, output to stream 1, insertion sort
for `parallel_sort`. -/
theorem sort_writes_nondecreasing_witness :
    (Internal_Sorter_Base.fresh 10 [5, 3, 8, 1, 9, 2, 7, 4, 6, 0]).self.ItemArray.length = 10 ∧
    NonDecreasing std_less
      (written 1 (new_events (Internal_Sorter_Base.fresh 10 [5, 3, 8, 1, 9, 2, 7, 4, 6, 0])
        (Internal_Sorter_Op.sort insertion_sort 0 1 10
          (Internal_Sorter_Base.fresh 10 [5, 3, 8, 1, 9, 2, 7, 4, 6, 0])))) ∧
    NonDecreasing (TPIE2STL_cmp three_way)
      (written 1 (new_events (Internal_Sorter_Base.fresh 10 [5, 3, 8, 1, 9, 2, 7, 4, 6, 0])
        (Internal_Sorter_Obj.sort three_way insertion_sort 0 1 10
          (Internal_Sorter_Base.fresh 10 [5, 3, 8, 1, 9, 2, 7, 4, 6, 0])))) ∧
    written 1 (new_events (Internal_Sorter_Base.fresh 10 [5, 3, 8, 1, 9, 2, 7, 4, 6, 0])
      (Internal_Sorter_Op.sort insertion_sort 0 1 10
        (Internal_Sorter_Base.fresh 10 [5, 3, 8, 1, 9, 2, 7, 4, 6, 0]))) =
      [0, 1, 2, 3, 4, 5, 6, 7, 8, 9] :=
  have h := sort_writes_nondecreasing insertion_sort insertion_sort_correct three_way
    std_less_strict_weak three_way_strict_weak 0 1 10
    (Internal_Sorter_Base.fresh 10 [5, 3, 8, 1, 9, 2, 7, 4, 6, 0]) rfl (by decide) (by decide)
  ⟨rfl, h.1.1, h.2.1, Internal_Sorter_Op.sort_scenario insertion_sort insertion_sort_correct⟩

/-! ## The key sorter on a valid call -/

theorem Internal_Sorter_KObj.with_sources_length {κ : Type} (i : Nat) (l : List (qsort_item κ)) :
    (Internal_Sorter_KObj.with_sources i l).length = l.length := by
  induction l generalizing i with
  | nil => rfl
  | cons q qs ih => simp [Internal_Sorter_KObj.with_sources, ih]

theorem Internal_Sorter_KObj.with_sources_append {κ : Type} (i : Nat)
    (l : List (qsort_item κ)) (q : qsort_item κ) :
    Internal_Sorter_KObj.with_sources i (l ++ [q]) =
      Internal_Sorter_KObj.with_sources i l ++ [{ q with source := i + l.length }] := by
  induction l generalizing i with
  | nil => rfl
  | cons p ps ih =>
    simp [Internal_Sorter_KObj.with_sources, ih, Nat.add_assoc, Nat.add_comm 1]

theorem Internal_Sorter_KObj.with_sources_map_source {κ : Type} (i : Nat)
    (l : List (qsort_item κ)) :
    (Internal_Sorter_KObj.with_sources i l).map (fun q => q.source) =
      List.range' i l.length := by
  induction l generalizing i with
  | nil => rfl
  | cons p ps ih => simp [Internal_Sorter_KObj.with_sources, ih, List.range']

theorem kobj_read_loop_ok {α κ : Type} (InStr n : Nat)
    (c : Cfg (Internal_Sorter_KObj α κ) α)
    (hin : (c.streams InStr).offset + n ≤ (c.streams InStr).items.length)
    (hA : n ≤ c.self.ItemArray.length) (hS : n ≤ c.self.sortItemArray.length) :
    Internal_Sorter_KObj.read_loop InStr n c = Except.ok
      { self :=
          { ItemArray := ((c.streams InStr).items.drop (c.streams InStr).offset).take n
              ++ c.self.ItemArray.drop n
            sortItemArray :=
              Internal_Sorter_KObj.with_sources 0 (c.self.sortItemArray.take n)
                ++ c.self.sortItemArray.drop n
            UsrObject := c.self.UsrObject
            len := c.self.len }
        streams := Function.update c.streams InStr
          { items := (c.streams InStr).items, offset := (c.streams InStr).offset + n }
        pi := c.pi.map (fun r =>
          r.receive (List.replicate n (progress_call.step subindicator.read_progress)))
        trace := c.trace ++ read_events InStr
          (((c.streams InStr).items.drop (c.streams InStr).offset).take n) } := by
  induction n with
  | zero =>
    simp [Internal_Sorter_KObj.read_loop, for_loop, read_events,
      progress_indicator_base.receive, Internal_Sorter_KObj.with_sources]
  | succ n ih =>
    have ih1 := ih (by omega) (by omega) (by omega)
    unfold Internal_Sorter_KObj.read_loop at ih1 ⊢
    rw [for_loop, ih1]
    have hlt : (c.streams InStr).offset + n < (c.streams InStr).items.length := by omega
    have hSn : n < c.self.sortItemArray.length := by omega
    have hget : (Internal_Sorter_KObj.with_sources 0 (c.self.sortItemArray.take n)
        ++ c.self.sortItemArray.drop n)[n]? = some (c.self.sortItemArray[n]) := by
      rw [List.getElem?_append_right (by simp [Internal_Sorter_KObj.with_sources_length])]
      simp [Internal_Sorter_KObj.with_sources_length, Nat.min_eq_left (Nat.le_of_lt hSn),
        List.getElem?_eq_getElem hSn]
    simp only [Cfg.stream_read, file_stream.read, Function.update_same,
      List.getElem?_eq_getElem hlt, Cfg.report, hget]
    rw [run_take_succ _ _ hlt, read_events_append]
    rw [set_after_front _ _ _ _ (by simp; omega) (by omega)]
    rw [set_after_front _ _ _ _
      (by simp [Internal_Sorter_KObj.with_sources_length]; omega) hSn]
    rw [take_succ_of_lt _ _ hSn, Internal_Sorter_KObj.with_sources_append]
    simp [progress_indicator_base.receive, List.replicate_succ', Function.comp_def,
      Nat.min_eq_left (Nat.le_of_lt hSn)]
    rfl

theorem kobj_write_loop_ok {α κ : Type} [Inhabited α] [Inhabited κ]
    (OutStr n : Nat) (c : Cfg (Internal_Sorter_KObj α κ) α)
    (hS : n ≤ c.self.sortItemArray.length) :
    Internal_Sorter_KObj.write_loop OutStr n c =
      { self := c.self
        streams := Function.update c.streams OutStr
          ((Internal_Sorter_KObj.dereference c.self.ItemArray
            (c.self.sortItemArray.take n)).foldl file_stream.write (c.streams OutStr))
        pi := c.pi.map (fun r =>
          r.receive (List.replicate n (progress_call.step subindicator.write_progress)))
        trace := c.trace ++ write_events OutStr
          (Internal_Sorter_KObj.dereference c.self.ItemArray (c.self.sortItemArray.take n)) } := by
  induction n with
  | zero =>
    simp [Internal_Sorter_KObj.write_loop, for_each, write_events,
      progress_indicator_base.receive, Internal_Sorter_KObj.dereference]
  | succ n ih =>
    have ih1 := ih (by omega)
    unfold Internal_Sorter_KObj.write_loop at ih1 ⊢
    rw [for_each, ih1]
    have hlt : n < c.self.sortItemArray.length := by omega
    have hd : Internal_Sorter_KObj.dereference c.self.ItemArray
        (c.self.sortItemArray.take (n + 1)) =
        Internal_Sorter_KObj.dereference c.self.ItemArray (c.self.sortItemArray.take n)
          ++ [c.self.ItemArray.getD (c.self.sortItemArray[n]).source default] := by
      rw [take_succ_of_lt _ _ hlt]
      simp only [Internal_Sorter_KObj.dereference, List.map_append, List.map_cons, List.map_nil]
    rw [hd, write_events_append, List.foldl_append]
    simp [Cfg.stream_write, Cfg.report, progress_indicator_base.receive,
      List.replicate_succ', Function.comp_def, List.getD_eq_getElem?_getD,
      List.getElem?_eq_getElem hlt]

theorem Internal_Sorter_KObj.sort_ok {α κ : Type} [LT κ] [DecidableRel (fun a b : κ => a < b)]
    [Inhabited α] [Inhabited κ] (parallel_sort : parallel_sort_fn (qsort_item κ))
    (InStr OutStr n : Nat) (c : Cfg (Internal_Sorter_KObj α κ) α)
    (hin : (c.streams InStr).offset + n ≤ (c.streams InStr).items.length)
    (hA : c.self.ItemArray.length = c.self.len)
    (hS : c.self.sortItemArray.length = c.self.len)
    (hpos : 0 < c.self.len) (hn : n ≤ c.self.len)
    (hlen : (parallel_sort std_less
      (Internal_Sorter_KObj.with_sources 0 (c.self.sortItemArray.take n))).length = n) :
    Internal_Sorter_KObj.sort parallel_sort InStr OutStr n c = Except.ok
      { self :=
          { ItemArray := input_run (c.streams InStr) n ++ c.self.ItemArray.drop n
            sortItemArray := parallel_sort std_less
                (Internal_Sorter_KObj.with_sources 0 (c.self.sortItemArray.take n))
              ++ c.self.sortItemArray.drop n
            UsrObject := c.self.UsrObject
            len := c.self.len }
        streams := sort_streams c.streams InStr OutStr n
          (Internal_Sorter_KObj.dereference
            (input_run (c.streams InStr) n ++ c.self.ItemArray.drop n)
            (parallel_sort std_less
              (Internal_Sorter_KObj.with_sources 0 (c.self.sortItemArray.take n))))
        pi := c.pi.map (fun r => r.receive (sort_calls n))
        trace := c.trace ++ sort_events InStr OutStr n (input_run (c.streams InStr) n)
          (Internal_Sorter_KObj.dereference
            (input_run (c.streams InStr) n ++ c.self.ItemArray.drop n)
            (parallel_sort std_less
              (Internal_Sorter_KObj.with_sources 0 (c.self.sortItemArray.take n)))) } := by
  have hW : (Internal_Sorter_KObj.with_sources 0 (c.self.sortItemArray.take n)).length = n := by
    rw [Internal_Sorter_KObj.with_sources_length, List.length_take]
    omega
  unfold Internal_Sorter_KObj.sort
  rw [if_neg (by omega), if_neg (by omega)]
  simp only []
  rw [kobj_read_loop_ok InStr n
    ((c.report progress_call.fp_init).report
      (progress_call.init subindicator.read_progress n)) hin
    (by show n ≤ c.self.ItemArray.length; omega)
    (by show n ≤ c.self.sortItemArray.length; omega)]
  simp only []
  have htake : List.take n (Internal_Sorter_KObj.with_sources 0 (c.self.sortItemArray.take n)
      ++ List.drop n c.self.sortItemArray) =
      Internal_Sorter_KObj.with_sources 0 (c.self.sortItemArray.take n) := by
    rw [List.take_append_of_le_length (by rw [hW])]
    exact List.take_of_length_le (by rw [hW])
  have hdrop : List.drop n (Internal_Sorter_KObj.with_sources 0 (c.self.sortItemArray.take n)
      ++ List.drop n c.self.sortItemArray) = List.drop n c.self.sortItemArray := by
    rw [List.drop_append_of_le_length (by rw [hW])]
    rw [List.drop_eq_nil_of_le (by rw [hW])]
    rfl
  have htake2 : ∀ R : List (qsort_item κ), List.take n (parallel_sort std_less
      (Internal_Sorter_KObj.with_sources 0 (c.self.sortItemArray.take n)) ++ R) =
      parallel_sort std_less
        (Internal_Sorter_KObj.with_sources 0 (c.self.sortItemArray.take n)) := by
    intro R
    rw [List.take_append_of_le_length (by rw [hlen])]
    exact List.take_of_length_le (by rw [hlen])
  have hrun_def : List.take n (List.drop (c.streams InStr).offset (c.streams InStr).items) =
      input_run (c.streams InStr) n := rfl
  rw [kobj_write_loop_ok]
  · by_cases hs : InStr = OutStr
    · subst hs
      simp only [Cfg.report, Internal_Sorter_KObj.sort_items, Cfg.rewind_if_same, htake, hdrop,
        htake2, if_true, Cfg.stream_truncate, Cfg.stream_seek, hrun_def]
      simp [sort_streams, sort_events, sort_calls, progress_indicator_base.receive,
        Function.comp_def, file_stream.truncate, file_stream.seek]
    · simp only [Cfg.report, Internal_Sorter_KObj.sort_items, Cfg.rewind_if_same, htake, hdrop,
        htake2, if_neg hs, hrun_def]
      simp [sort_streams, sort_events, sort_calls, progress_indicator_base.receive,
        Function.comp_def, hs]
  · simp only [Cfg.report, Internal_Sorter_KObj.sort_items, Cfg.rewind_if_same, htake, hdrop]
    split <;> simp [Cfg.stream_truncate, Cfg.stream_seek, hlen]

/-- The friend `operator<` of `qsort_item` is a strict weak order when `<` on
keys is one. -/
theorem qsort_item_less_strict_weak {κ : Type} [LT κ] [DecidableRel (fun a b : κ => a < b)]
    (h : StrictWeakOrder (std_less : κ → κ → Bool)) :
    StrictWeakOrder (std_less : qsort_item κ → qsort_item κ → Bool) where
  irrefl a := h.irrefl a.keyval
  trans a b c := h.trans a.keyval b.keyval c.keyval
  incomp_trans a b c := h.incomp_trans a.keyval b.keyval c.keyval

theorem map_getD_range {α : Type} [Inhabited α] (run R : List α) :
    (List.range' 0 run.length).map (fun i => (run ++ R).getD i default) = run := by
  apply List.ext_getElem
  · simp
  · intro i h1 h2
    simp [List.getD_eq_getElem?_getD, List.getElem?_append_left h2, List.getElem?_eq_getElem h2]

/-- Dereferencing the entries of a read loop, in the order the loop left
them, gives the run back. -/
theorem Internal_Sorter_KObj.dereference_with_sources {α κ : Type} [Inhabited α]
    (run R : List α) (l : List (qsort_item κ)) (h : l.length = run.length) :
    Internal_Sorter_KObj.dereference (run ++ R) (Internal_Sorter_KObj.with_sources 0 l) = run := by
  have h1 : Internal_Sorter_KObj.dereference (run ++ R) (Internal_Sorter_KObj.with_sources 0 l) =
      ((Internal_Sorter_KObj.with_sources 0 l).map (fun q => q.source)).map
        (fun i => (run ++ R).getD i default) := by
    simp [Internal_Sorter_KObj.dereference]
  rw [h1, Internal_Sorter_KObj.with_sources_map_source, h, map_getD_range]

/-- What the key sorter writes, for a correct sort and a valid call: it
returns, the items read are the input run, and the items written are the
run dereferenced through the sorted entries. -/
theorem Internal_Sorter_KObj.sort_written {α κ : Type} [LT κ]
    [DecidableRel (fun a b : κ => a < b)] [Inhabited α] [Inhabited κ]
    {parallel_sort : parallel_sort_fn (qsort_item κ)} (hps : CorrectSort parallel_sort)
    (hkey : StrictWeakOrder (std_less : κ → κ → Bool))
    (InStr OutStr n : Nat) (c : Cfg (Internal_Sorter_KObj α κ) α)
    (hin : (c.streams InStr).offset + n ≤ (c.streams InStr).items.length)
    (hA : c.self.ItemArray.length = c.self.len)
    (hS : c.self.sortItemArray.length = c.self.len)
    (hpos : 0 < c.self.len) (hn : n ≤ c.self.len) :
    ∃ c1, Internal_Sorter_KObj.sort parallel_sort InStr OutStr n c = Except.ok c1 ∧
      c1.self.ItemArray = input_run (c.streams InStr) n ++ c.self.ItemArray.drop n ∧
      c1.self.sortItemArray = parallel_sort std_less
          (Internal_Sorter_KObj.with_sources 0 (c.self.sortItemArray.take n))
        ++ c.self.sortItemArray.drop n ∧
      read_from InStr (new_events c (Internal_Sorter_KObj.sort parallel_sort InStr OutStr n c))
        = input_run (c.streams InStr) n ∧
      written OutStr (new_events c (Internal_Sorter_KObj.sort parallel_sort InStr OutStr n c))
        = Internal_Sorter_KObj.dereference
            (input_run (c.streams InStr) n ++ c.self.ItemArray.drop n)
            (parallel_sort std_less
              (Internal_Sorter_KObj.with_sources 0 (c.self.sortItemArray.take n))) := by
  have hlen : (parallel_sort std_less
      (Internal_Sorter_KObj.with_sources 0 (c.self.sortItemArray.take n))).length = n := by
    rw [hps.length_eq (qsort_item_less_strict_weak hkey),
      Internal_Sorter_KObj.with_sources_length, List.length_take]
    omega
  rw [Internal_Sorter_KObj.sort_ok parallel_sort InStr OutStr n c hin hA hS hpos hn hlen]
  refine ⟨_, rfl, rfl, rfl, ?_, ?_⟩
  · rw [new_events_ok c _ _ rfl, read_from_sort_events]
  · rw [new_events_ok c _ _ rfl, written_sort_events]

/-- The items the key sorter writes are a rearrangement of the run it read. -/
theorem Internal_Sorter_KObj.dereference_sorted_perm {α κ : Type} [LT κ]
    [DecidableRel (fun a b : κ => a < b)] [Inhabited α]
    {parallel_sort : parallel_sort_fn (qsort_item κ)} (hps : CorrectSort parallel_sort)
    (hkey : StrictWeakOrder (std_less : κ → κ → Bool))
    (run R : List α) (l : List (qsort_item κ)) (h : l.length = run.length) :
    (Internal_Sorter_KObj.dereference (run ++ R)
      (parallel_sort std_less (Internal_Sorter_KObj.with_sources 0 l))).Perm run := by
  have hp := (hps std_less (qsort_item_less_strict_weak hkey)
    (Internal_Sorter_KObj.with_sources 0 l)).1
  have hm := hp.map (fun q : qsort_item κ => (run ++ R).getD q.source default)
  have he := Internal_Sorter_KObj.dereference_with_sources run R l h
  unfold Internal_Sorter_KObj.dereference at he ⊢
  rw [he] at hm
  exact hm

/-- C2: for each of the three sorters, for every allocated capacity `len > 0`,
every count `nItems ≤ len` and every input run of `nItems` items, the call
returns, it has written `nItems` items to the output stream, and the items
written are a permutation of the items read from the input stream;
`parallel_sort` is a correct comparison sort and the comparison it is given
(`std::less` of the items, `TPIE2STL_cmp cmp_o`, `std::less` of the keys) is a
strict weak order. -/
theorem sort_writes_permutation {α κ : Type} [LT α] [DecidableRel (fun a b : α => a < b)]
    [LT κ] [DecidableRel (fun a b : κ => a < b)] [Inhabited α] [Inhabited κ]
    (parallel_sort : parallel_sort_fn α) (hps : CorrectSort parallel_sort)
    (key_sort : parallel_sort_fn (qsort_item κ)) (hks : CorrectSort key_sort)
    (cmp_o : α → α → Int) (hless : StrictWeakOrder (std_less : α → α → Bool))
    (hcmp : StrictWeakOrder (TPIE2STL_cmp cmp_o))
    (hkey : StrictWeakOrder (std_less : κ → κ → Bool)) (InStr OutStr nItems : Nat)
    (c : Cfg (Internal_Sorter_Base α) α) (k : Cfg (Internal_Sorter_KObj α κ) α)
    (hcap : c.self.ItemArray.length = c.self.len) (hpos : 0 < c.self.len)
    (hn : nItems ≤ c.self.len)
    (hin : (c.streams InStr).offset + nItems ≤ (c.streams InStr).items.length)
    (hkA : k.self.ItemArray.length = k.self.len)
    (hkS : k.self.sortItemArray.length = k.self.len) (hkpos : 0 < k.self.len)
    (hkn : nItems ≤ k.self.len)
    (hkin : (k.streams InStr).offset + nItems ≤ (k.streams InStr).items.length) :
    (∃ c1, Internal_Sorter_Op.sort parallel_sort InStr OutStr nItems c = Except.ok c1 ∧
      (written OutStr (new_events c
        (Internal_Sorter_Op.sort parallel_sort InStr OutStr nItems c))).length = nItems ∧
      (written OutStr (new_events c
        (Internal_Sorter_Op.sort parallel_sort InStr OutStr nItems c))).Perm
        (read_from InStr (new_events c
          (Internal_Sorter_Op.sort parallel_sort InStr OutStr nItems c)))) ∧
    (∃ c1, Internal_Sorter_Obj.sort cmp_o parallel_sort InStr OutStr nItems c = Except.ok c1 ∧
      (written OutStr (new_events c
        (Internal_Sorter_Obj.sort cmp_o parallel_sort InStr OutStr nItems c))).length
        = nItems ∧
      (written OutStr (new_events c
        (Internal_Sorter_Obj.sort cmp_o parallel_sort InStr OutStr nItems c))).Perm
        (read_from InStr (new_events c
          (Internal_Sorter_Obj.sort cmp_o parallel_sort InStr OutStr nItems c)))) ∧
    (∃ k1, Internal_Sorter_KObj.sort key_sort InStr OutStr nItems k = Except.ok k1 ∧
      (written OutStr (new_events k
        (Internal_Sorter_KObj.sort key_sort InStr OutStr nItems k))).length = nItems ∧
      (written OutStr (new_events k
        (Internal_Sorter_KObj.sort key_sort InStr OutStr nItems k))).Perm
        (read_from InStr (new_events k
          (Internal_Sorter_KObj.sort key_sort InStr OutStr nItems k)))) := by
  have hA : nItems ≤ c.self.ItemArray.length := by omega
  have hrun := input_run_length (c.streams InStr) nItems hin
  have hkrun := input_run_length (k.streams InStr) nItems hkin
  obtain ⟨c1, h1, r1, w1⟩ :=
    Internal_Sorter_Base.sort_body_written hps hless InStr OutStr nItems c hin hA
  obtain ⟨c2, h2, r2, w2⟩ :=
    Internal_Sorter_Base.sort_body_written hps hcmp InStr OutStr nItems c hin hA
  obtain ⟨k1, h3, _, _, r3, w3⟩ :=
    Internal_Sorter_KObj.sort_written hks hkey InStr OutStr nItems k hkin hkA hkS hkpos hkn
  have hp3 := Internal_Sorter_KObj.dereference_sorted_perm hks hkey
    (input_run (k.streams InStr) nItems) (k.self.ItemArray.drop nItems)
    (k.self.sortItemArray.take nItems) (by rw [List.length_take, hkrun]; omega)
  rw [op_sort_eq_body parallel_sort InStr OutStr nItems c hcap hpos hn,
    obj_sort_eq_body cmp_o parallel_sort InStr OutStr nItems c hcap hpos hn,
    r1, w1, r2, w2, r3, w3]
  refine ⟨⟨c1, h1, ?_, (hps _ hless _).1⟩, ⟨c2, h2, ?_, (hps _ hcmp _).1⟩, ⟨k1, h3, ?_, hp3⟩⟩
  · rw [hps.length_eq hless, hrun]
  · rw [hps.length_eq hcmp, hrun]
  · rw [hp3.length_eq, hkrun]

/-- C2, at sorters allocated for 10 items that sort the ten integers of the
scenario from stream 0 to stream 1, with insertion sort for `parallel_sort`. -/
theorem sort_writes_permutation_witness :
    (written 1 (new_events (Internal_Sorter_Base.fresh 10 scenario_ints)
        (Internal_Sorter_Op.sort insertion_sort 0 1 10
          (Internal_Sorter_Base.fresh 10 scenario_ints)))).Perm scenario_ints ∧
    (written 1 (new_events (Internal_Sorter_Base.fresh 10 scenario_ints)
        (Internal_Sorter_Obj.sort three_way insertion_sort 0 1 10
          (Internal_Sorter_Base.fresh 10 scenario_ints)))).Perm scenario_ints ∧
    (written 1 (new_events (Internal_Sorter_KObj.fresh nat_key 10 scenario_ints)
        (Internal_Sorter_KObj.sort insertion_sort 0 1 10
          (Internal_Sorter_KObj.fresh nat_key 10 scenario_ints)))).Perm scenario_ints := by
  have h := sort_writes_permutation insertion_sort insertion_sort_correct insertion_sort
    insertion_sort_correct three_way std_less_strict_weak three_way_strict_weak
    std_less_strict_weak 0 1 10 (Internal_Sorter_Base.fresh 10 scenario_ints)
    (Internal_Sorter_KObj.fresh nat_key 10 scenario_ints) rfl (by decide) (by decide)
    (by decide) rfl rfl (by decide) (by decide) (by decide)
  obtain ⟨⟨_, _, _, p1⟩, ⟨_, _, _, p2⟩, ⟨_, _, _, p3⟩⟩ := h
  exact ⟨p1, p2, p3⟩

/-- Two entries whose source indices are a rearrangement of 0 and 1. -/
theorem sources_of_pair {κ : Type} (Q : List (qsort_item κ)) (a b : qsort_item κ)
    (h : Q.Perm [{ a with source := 0 }, { b with source := 1 }]) :
    Q.map (fun q => q.source) = [0, 1] ∨ Q.map (fun q => q.source) = [1, 0] := by
  have hm := h.map (fun q : qsort_item κ => q.source)
  simp only [List.map_cons, List.map_nil] at hm
  obtain ⟨x, y, hq⟩ := List.length_eq_two.mp hm.length_eq
  rw [hq] at hm ⊢
  have h0 : (0 : Nat) ∈ [x, y] := hm.symm.subset (by simp)
  have h1 : (1 : Nat) ∈ [x, y] := hm.symm.subset (by simp)
  have hx : x ∈ [0, 1] := hm.subset (by simp)
  have hy : y ∈ [0, 1] := hm.subset (by simp)
  simp only [List.mem_cons, List.mem_singleton, List.not_mem_nil, or_false] at h0 h1 hx hy
  rcases hx with rfl | rfl <;> rcases hy with rfl | rfl <;> simp_all

/-- C3 fails on the code: `Internal_Sorter_KObj::sort` never stores the key
of an item in `sortItemArray[i].keyval` and gives `parallel_sort` the
comparison `std::less` on the stored keys, not `stlcomp`.  At the scenario of
the spec (a sorter freshly allocated for 3 records, insertion sort for
`parallel_sort`) the records are written in the order they were read, which
is not ordered by key; and for every correct comparison sort and whatever
the two entries of `sortItemArray` hold on entry, one of the two runs
(2,"b"),(1,"a") and (1,"a"),(2,"b") is written out of key order. -/
theorem key_sort_ignores_keys :
    written 1 (new_events (Internal_Sorter_KObj.fresh record_cmp 3 scenario_records)
      (Internal_Sorter_KObj.sort insertion_sort 0 1 3
        (Internal_Sorter_KObj.fresh record_cmp 3 scenario_records))) =
      [(3, "c"), (1, "a"), (2, "b")] ∧
    ¬ key_ordered record_cmp
      (written 1 (new_events (Internal_Sorter_KObj.fresh record_cmp 3 scenario_records)
        (Internal_Sorter_KObj.sort insertion_sort 0 1 3
          (Internal_Sorter_KObj.fresh record_cmp 3 scenario_records)))) ∧
    ∀ key_sort : parallel_sort_fn (qsort_item Nat), CorrectSort key_sort →
      ∀ qa qb : qsort_item Nat,
      ¬ (key_ordered record_cmp
          (written 1
            (new_events
              (Internal_Sorter_KObj.with_entries record_cmp [qa, qb] [(2, "b"), (1, "a")])
              (Internal_Sorter_KObj.sort key_sort 0 1 2
                (Internal_Sorter_KObj.with_entries record_cmp [qa, qb]
                  [(2, "b"), (1, "a")])))) ∧
        key_ordered record_cmp
          (written 1
            (new_events
              (Internal_Sorter_KObj.with_entries record_cmp [qa, qb] [(1, "a"), (2, "b")])
              (Internal_Sorter_KObj.sort key_sort 0 1 2
                (Internal_Sorter_KObj.with_entries record_cmp [qa, qb]
                  [(1, "a"), (2, "b")]))))) := by
  have hev : written 1 (new_events (Internal_Sorter_KObj.fresh record_cmp 3 scenario_records)
      (Internal_Sorter_KObj.sort insertion_sort 0 1 3
        (Internal_Sorter_KObj.fresh record_cmp 3 scenario_records))) =
      [(3, "c"), (1, "a"), (2, "b")] := by decide
  refine ⟨hev, ?_, ?_⟩
  · rw [hev]
    simp [key_ordered, NonDecreasing, TPIE2STL_cmp, record_cmp]
  · intro key_sort hks qa qb
    obtain ⟨_, _, _, _, _, w1⟩ := Internal_Sorter_KObj.sort_written hks std_less_strict_weak 0 1 2
      (Internal_Sorter_KObj.with_entries record_cmp [qa, qb] [(2, "b"), (1, "a")])
      (Nat.le_refl 2) rfl rfl (Nat.zero_lt_succ 1) (Nat.le_refl 2)
    obtain ⟨_, _, _, _, _, w2⟩ := Internal_Sorter_KObj.sort_written hks std_less_strict_weak 0 1 2
      (Internal_Sorter_KObj.with_entries record_cmp [qa, qb] [(1, "a"), (2, "b")])
      (Nat.le_refl 2) rfl rfl (Nat.zero_lt_succ 1) (Nat.le_refl 2)
    rw [w1, w2]
    have hp := (hks std_less (qsort_item_less_strict_weak std_less_strict_weak)
      (Internal_Sorter_KObj.with_sources 0
        ((Internal_Sorter_KObj.with_entries record_cmp [qa, qb]
          [((2 : Nat), "b"), (1, "a")]).self.sortItemArray.take 2))).1
    have hsrc := sources_of_pair _ qa qb hp
    have hsame : (Internal_Sorter_KObj.with_entries record_cmp [qa, qb]
          [((1 : Nat), "a"), (2, "b")]).self.sortItemArray =
        (Internal_Sorter_KObj.with_entries record_cmp [qa, qb]
          [((2 : Nat), "b"), (1, "a")]).self.sortItemArray := rfl
    rw [hsame]
    generalize key_sort std_less (Internal_Sorter_KObj.with_sources 0
        ((Internal_Sorter_KObj.with_entries record_cmp [qa, qb]
          [((2 : Nat), "b"), (1, "a")]).self.sortItemArray.take 2)) = Q at hsrc ⊢
    have hd : ∀ A : List (Nat × String),
        Internal_Sorter_KObj.dereference A Q = (Q.map (fun q => q.source)).map
          (fun i => A.getD i default) := by
      intro A
      simp [Internal_Sorter_KObj.dereference]
    rw [hd, hd]
    rcases hsrc with h | h <;> rw [h] <;>
      simp [key_ordered, NonDecreasing, TPIE2STL_cmp, record_cmp, input_run,
        Internal_Sorter_KObj.with_entries, single_stream]

/-- On a key sorter without a buffer `Internal_Sorter_KObj::sort` throws at
once. -/
theorem kobj_sort_unallocated {α κ : Type} [LT κ] [DecidableRel (fun a b : κ => a < b)]
    [Inhabited α] [Inhabited κ] (parallel_sort : parallel_sort_fn (qsort_item κ))
    (InStr OutStr n : Nat) (c : Cfg (Internal_Sorter_KObj α κ) α)
    (h : c.self.ItemArray.length = 0 ∨ c.self.sortItemArray.length = 0) :
    Internal_Sorter_KObj.sort parallel_sort InStr OutStr n c =
      Except.error (Abort.NULL_POINTER, c) := by
  unfold Internal_Sorter_KObj.sort
  rw [if_pos h]

/-- The source indices of sorted entries stay below the count. -/
theorem sorted_sources_lt {κ : Type} [LT κ] [DecidableRel (fun a b : κ => a < b)]
    {parallel_sort : parallel_sort_fn (qsort_item κ)} (hps : CorrectSort parallel_sort)
    (hkey : StrictWeakOrder (std_less : κ → κ → Bool)) (l : List (qsort_item κ))
    (q : qsort_item κ)
    (hq : q ∈ parallel_sort std_less (Internal_Sorter_KObj.with_sources 0 l)) :
    q.source < l.length := by
  have hp := (hps std_less (qsort_item_less_strict_weak hkey)
    (Internal_Sorter_KObj.with_sources 0 l)).1
  have hmem : q.source ∈ (Internal_Sorter_KObj.with_sources 0 l).map (fun q => q.source) :=
    List.mem_map_of_mem _ (hp.subset hq)
  rw [Internal_Sorter_KObj.with_sources_map_source] at hmem
  simpa using hmem

/-- C4: for `Internal_Sorter_KObj`, for every count `nItems ≤ len` and every
input run `r`, in the state the call ends in the first `nItems` slots of
`ItemArray` hold `r` in read order (the records are never reordered), and for
every `i < nItems` the `i`-th record written is `r[s_i]`, where `s_i < nItems`
is the source index in the `i`-th entry of the sorted `sortItemArray`; with
a capacity `len > 0` the call returns. -/
theorem key_sort_dereferences {α κ : Type} [LT κ] [DecidableRel (fun a b : κ => a < b)]
    [Inhabited α] [Inhabited κ] (key_sort : parallel_sort_fn (qsort_item κ))
    (hks : CorrectSort key_sort) (hkey : StrictWeakOrder (std_less : κ → κ → Bool))
    (InStr OutStr nItems : Nat) (k : Cfg (Internal_Sorter_KObj α κ) α)
    (hkA : k.self.ItemArray.length = k.self.len)
    (hkS : k.self.sortItemArray.length = k.self.len)
    (hkn : nItems ≤ k.self.len)
    (hkin : (k.streams InStr).offset + nItems ≤ (k.streams InStr).items.length) :
    (0 < k.self.len →
      ∃ k1, Internal_Sorter_KObj.sort key_sort InStr OutStr nItems k = Except.ok k1) ∧
    (Internal_Sorter_KObj.sort key_sort InStr OutStr nItems k).final.self.ItemArray.take nItems
      = input_run (k.streams InStr) nItems ∧
    ∀ i, i < nItems → ∃ q,
      (Internal_Sorter_KObj.sort key_sort InStr OutStr nItems k).final.self.sortItemArray[i]?
        = some q ∧
      q.source < nItems ∧
      (written OutStr
        (new_events k (Internal_Sorter_KObj.sort key_sort InStr OutStr nItems k)))[i]? =
        (input_run (k.streams InStr) nItems)[q.source]? := by
  by_cases hkpos : 0 < k.self.len
  · have hkrun := input_run_length (k.streams InStr) nItems hkin
    obtain ⟨k1, h1, hI, hQ, _, w⟩ :=
      Internal_Sorter_KObj.sort_written hks hkey InStr OutStr nItems k hkin hkA hkS hkpos hkn
    have hlen : (key_sort std_less
        (Internal_Sorter_KObj.with_sources 0 (k.self.sortItemArray.take nItems))).length
        = nItems := by
      rw [hks.length_eq (qsort_item_less_strict_weak hkey),
        Internal_Sorter_KObj.with_sources_length, List.length_take]
      omega
    rw [w]
    rw [h1]
    refine ⟨fun _ => ⟨k1, rfl⟩, ?_, ?_⟩
    · show k1.self.ItemArray.take nItems = _
      rw [hI, List.take_append_of_le_length (by rw [hkrun])]
      exact List.take_of_length_le (by rw [hkrun])
    · intro i hi
      have hiQ : i < (key_sort std_less
          (Internal_Sorter_KObj.with_sources 0 (k.self.sortItemArray.take nItems))).length := by
        rw [hlen]; exact hi
      have hs := sorted_sources_lt hks hkey (k.self.sortItemArray.take nItems) _
        (List.getElem_mem hiQ)
      rw [List.length_take] at hs
      have hs2 : (key_sort std_less (Internal_Sorter_KObj.with_sources 0
          (k.self.sortItemArray.take nItems)))[i].source
          < (input_run (k.streams InStr) nItems).length := by
        rw [hkrun]; omega
      refine ⟨(key_sort std_less
        (Internal_Sorter_KObj.with_sources 0 (k.self.sortItemArray.take nItems)))[i],
        ?_, ?_, ?_⟩
      · show k1.self.sortItemArray[i]? = _
        rw [hQ, List.getElem?_append_left hiQ, List.getElem?_eq_getElem hiQ]
      · omega
      · simp [Internal_Sorter_KObj.dereference, List.getElem?_eq_getElem hiQ,
          List.getD_eq_getElem?_getD, List.getElem?_append_left hs2,
          List.getElem?_eq_getElem hs2]
  · have h0 : nItems = 0 := by omega
    subst h0
    rw [kobj_sort_unallocated key_sort InStr OutStr 0 k (Or.inl (by omega))]
    refine ⟨fun h => absurd h hkpos, ?_, ?_⟩
    · simp [Outcome.final, input_run]
    · intro i hi
      omega

/-- C4, at the scenario of the spec: a key sorter freshly allocated for 3
records, the three records on stream 0, output to stream 1, insertion sort
for `parallel_sort`. -/
theorem key_sort_dereferences_witness :
    (Internal_Sorter_KObj.sort insertion_sort 0 1 3
        (Internal_Sorter_KObj.fresh record_cmp 3 scenario_records)).final.self.ItemArray.take 3
      = scenario_records ∧
    ∀ i, i < 3 → ∃ q,
      (Internal_Sorter_KObj.sort insertion_sort 0 1 3
        (Internal_Sorter_KObj.fresh record_cmp 3 scenario_records)).final.self.sortItemArray[i]?
        = some q ∧
      q.source < 3 ∧
      (written 1 (new_events (Internal_Sorter_KObj.fresh record_cmp 3 scenario_records)
        (Internal_Sorter_KObj.sort insertion_sort 0 1 3
          (Internal_Sorter_KObj.fresh record_cmp 3 scenario_records))))[i]? =
        scenario_records[q.source]? :=
  (key_sort_dereferences insertion_sort insertion_sort_correct std_less_strict_weak 0 1 3
    (Internal_Sorter_KObj.fresh record_cmp 3 scenario_records) rfl rfl (by decide)
    (by decide)).2

/-! ## Input and output on the same stream -/

/-- With input and output on the same stream, the stream after the call holds
the items written and nothing else, and its position is behind them. -/
theorem sort_streams_same {α : Type} (streams : Nat → file_stream α) (s n : Nat)
    (out : List α) :
    sort_streams streams s s n out s = { items := out, offset := out.length } := by
  simp [sort_streams, write_many_eq]

/-- The shared body of Op and Obj with input and output on the same stream. -/
theorem Internal_Sorter_Base.sort_body_in_place {α : Type} [Inhabited α]
    {parallel_sort : parallel_sort_fn α} (hps : CorrectSort parallel_sort)
    {comp : α → α → Bool} (hcomp : StrictWeakOrder comp) (s n : Nat)
    (c : Cfg (Internal_Sorter_Base α) α)
    (hin : (c.streams s).offset + n ≤ (c.streams s).items.length)
    (hA : n ≤ c.self.ItemArray.length) :
    ∃ c1, Internal_Sorter_Base.sort_body parallel_sort comp s s n c = Except.ok c1 ∧
      (c1.streams s).items = written s
        (new_events c (Internal_Sorter_Base.sort_body parallel_sort comp s s n c)) ∧
      (c1.streams s).items.length = n ∧ (c1.streams s).offset = n := by
  have hlen : (parallel_sort comp (input_run (c.streams s) n)).length = n := by
    rw [hps.length_eq hcomp, input_run_length _ _ hin]
  rw [Internal_Sorter_Base.sort_body_ok parallel_sort comp s s n c hin hA hlen]
  refine ⟨_, rfl, ?_, ?_, ?_⟩
  · rw [new_events_ok c _ _ rfl, written_sort_events]
    simp only [sort_streams_same]
  · simp only [sort_streams_same]
    exact hlen
  · simp only [sort_streams_same]
    exact hlen

/-- The key sorter with input and output on the same stream. -/
theorem Internal_Sorter_KObj.sort_in_place {α κ : Type} [LT κ]
    [DecidableRel (fun a b : κ => a < b)] [Inhabited α] [Inhabited κ]
    {parallel_sort : parallel_sort_fn (qsort_item κ)} (hps : CorrectSort parallel_sort)
    (hkey : StrictWeakOrder (std_less : κ → κ → Bool))
    (s n : Nat) (c : Cfg (Internal_Sorter_KObj α κ) α)
    (hin : (c.streams s).offset + n ≤ (c.streams s).items.length)
    (hA : c.self.ItemArray.length = c.self.len)
    (hS : c.self.sortItemArray.length = c.self.len)
    (hpos : 0 < c.self.len) (hn : n ≤ c.self.len) :
    ∃ c1, Internal_Sorter_KObj.sort parallel_sort s s n c = Except.ok c1 ∧
      (c1.streams s).items = written s
        (new_events c (Internal_Sorter_KObj.sort parallel_sort s s n c)) ∧
      (c1.streams s).items.length = n ∧ (c1.streams s).offset = n := by
  have hlen : (parallel_sort std_less
      (Internal_Sorter_KObj.with_sources 0 (c.self.sortItemArray.take n))).length = n := by
    rw [hps.length_eq (qsort_item_less_strict_weak hkey),
      Internal_Sorter_KObj.with_sources_length, List.length_take]
    omega
  rw [Internal_Sorter_KObj.sort_ok parallel_sort s s n c hin hA hS hpos hn hlen]
  refine ⟨_, rfl, ?_, ?_, ?_⟩
  · rw [new_events_ok c _ _ rfl, written_sort_events]
    simp only [sort_streams_same]
  · simp only [sort_streams_same]
    simp [Internal_Sorter_KObj.dereference, hlen]
  · simp only [sort_streams_same]
    simp [Internal_Sorter_KObj.dereference, hlen]

/-- C5: for each of the three sorters, when input and output are the same
stream `s`, for every content and position of the stream with at least
`nItems` items remaining, the call returns and the stream then holds exactly
the `nItems` items written and nothing else: its size is `nItems` and its
position is `nItems`. -/
theorem sort_in_place_leaves_only_output {α κ : Type} [LT α]
    [DecidableRel (fun a b : α => a < b)] [LT κ] [DecidableRel (fun a b : κ => a < b)]
    [Inhabited α] [Inhabited κ]
    (parallel_sort : parallel_sort_fn α) (hps : CorrectSort parallel_sort)
    (key_sort : parallel_sort_fn (qsort_item κ)) (hks : CorrectSort key_sort)
    (cmp_o : α → α → Int) (hless : StrictWeakOrder (std_less : α → α → Bool))
    (hcmp : StrictWeakOrder (TPIE2STL_cmp cmp_o))
    (hkey : StrictWeakOrder (std_less : κ → κ → Bool)) (s nItems : Nat)
    (c : Cfg (Internal_Sorter_Base α) α) (k : Cfg (Internal_Sorter_KObj α κ) α)
    (hcap : c.self.ItemArray.length = c.self.len) (hpos : 0 < c.self.len)
    (hn : nItems ≤ c.self.len)
    (hin : (c.streams s).offset + nItems ≤ (c.streams s).items.length)
    (hkA : k.self.ItemArray.length = k.self.len)
    (hkS : k.self.sortItemArray.length = k.self.len) (hkpos : 0 < k.self.len)
    (hkn : nItems ≤ k.self.len)
    (hkin : (k.streams s).offset + nItems ≤ (k.streams s).items.length) :
    (∃ c1, Internal_Sorter_Op.sort parallel_sort s s nItems c = Except.ok c1 ∧
      (c1.streams s).items = written s
        (new_events c (Internal_Sorter_Op.sort parallel_sort s s nItems c)) ∧
      (c1.streams s).items.length = nItems ∧ (c1.streams s).offset = nItems) ∧
    (∃ c1, Internal_Sorter_Obj.sort cmp_o parallel_sort s s nItems c = Except.ok c1 ∧
      (c1.streams s).items = written s
        (new_events c (Internal_Sorter_Obj.sort cmp_o parallel_sort s s nItems c)) ∧
      (c1.streams s).items.length = nItems ∧ (c1.streams s).offset = nItems) ∧
    (∃ k1, Internal_Sorter_KObj.sort key_sort s s nItems k = Except.ok k1 ∧
      (k1.streams s).items = written s
        (new_events k (Internal_Sorter_KObj.sort key_sort s s nItems k)) ∧
      (k1.streams s).items.length = nItems ∧ (k1.streams s).offset = nItems) := by
  have hA : nItems ≤ c.self.ItemArray.length := by omega
  rw [op_sort_eq_body parallel_sort s s nItems c hcap hpos hn,
    obj_sort_eq_body cmp_o parallel_sort s s nItems c hcap hpos hn]
  exact ⟨Internal_Sorter_Base.sort_body_in_place hps hless s nItems c hin hA,
    Internal_Sorter_Base.sort_body_in_place hps hcmp s nItems c hin hA,
    Internal_Sorter_KObj.sort_in_place hks hkey s nItems k hkin hkA hkS hkpos hkn⟩

/-- C5, at sorters allocated for 10 items that sort the first 5 of the ten
integers on stream 0 back to stream 0 (insertion sort for `parallel_sort`):
the stream ends with 5 items, the five integers behind the run are gone. -/
theorem sort_in_place_leaves_only_output_witness :
    (∃ c1, Internal_Sorter_Op.sort insertion_sort 0 0 5
        (Internal_Sorter_Base.fresh 10 scenario_ints) = Except.ok c1 ∧
      (c1.streams 0).items = [1, 3, 5, 8, 9] ∧ (c1.streams 0).offset = 5) ∧
    (∃ c1, Internal_Sorter_Obj.sort three_way insertion_sort 0 0 5
        (Internal_Sorter_Base.fresh 10 scenario_ints) = Except.ok c1 ∧
      (c1.streams 0).items = [1, 3, 5, 8, 9] ∧ (c1.streams 0).offset = 5) ∧
    (∃ k1, Internal_Sorter_KObj.sort insertion_sort 0 0 5
        (Internal_Sorter_KObj.fresh nat_key 10 scenario_ints) = Except.ok k1 ∧
      (k1.streams 0).items.length = 5 ∧ (k1.streams 0).offset = 5) := by
  have h := sort_in_place_leaves_only_output insertion_sort insertion_sort_correct
    insertion_sort insertion_sort_correct three_way std_less_strict_weak three_way_strict_weak
    std_less_strict_weak 0 5 (Internal_Sorter_Base.fresh 10 scenario_ints)
    (Internal_Sorter_KObj.fresh nat_key 10 scenario_ints) rfl (by decide) (by decide)
    (by decide) rfl rfl (by decide) (by decide) (by decide)
  obtain ⟨⟨c1, h1, i1, _, o1⟩, ⟨c2, h2, i2, _, o2⟩, ⟨k1, h3, _, l3, o3⟩⟩ := h
  refine ⟨⟨c1, h1, ?_, o1⟩, ⟨c2, h2, ?_, o2⟩, ⟨k1, h3, l3, o3⟩⟩
  · rw [i1]; decide
  · rw [i2]; decide

/-! ## Same stream and distinct streams -/

/-- C6: for each of the three sorters, for the same sorter state, the same
count and the same run of `nItems` items read, the items written when input
and output are the same stream `s` are the items written when they are two
distinct streams `InStr ≠ OutStr`; both calls return. -/
theorem sort_same_stream_writes_as_distinct {α κ : Type} [LT α]
    [DecidableRel (fun a b : α => a < b)] [LT κ] [DecidableRel (fun a b : κ => a < b)]
    [Inhabited α] [Inhabited κ]
    (parallel_sort : parallel_sort_fn α) (hps : CorrectSort parallel_sort)
    (key_sort : parallel_sort_fn (qsort_item κ)) (hks : CorrectSort key_sort)
    (cmp_o : α → α → Int) (hless : StrictWeakOrder (std_less : α → α → Bool))
    (hcmp : StrictWeakOrder (TPIE2STL_cmp cmp_o))
    (hkey : StrictWeakOrder (std_less : κ → κ → Bool)) (s InStr OutStr nItems : Nat)
    (_hne : InStr ≠ OutStr)
    (c d : Cfg (Internal_Sorter_Base α) α) (k m : Cfg (Internal_Sorter_KObj α κ) α)
    (hself : c.self = d.self) (hkself : k.self = m.self)
    (hcap : c.self.ItemArray.length = c.self.len) (hpos : 0 < c.self.len)
    (hn : nItems ≤ c.self.len)
    (hkA : k.self.ItemArray.length = k.self.len)
    (hkS : k.self.sortItemArray.length = k.self.len) (hkpos : 0 < k.self.len)
    (hkn : nItems ≤ k.self.len)
    (hin : (c.streams s).offset + nItems ≤ (c.streams s).items.length)
    (hdin : (d.streams InStr).offset + nItems ≤ (d.streams InStr).items.length)
    (hrun : input_run (c.streams s) nItems = input_run (d.streams InStr) nItems)
    (hkin : (k.streams s).offset + nItems ≤ (k.streams s).items.length)
    (hmin : (m.streams InStr).offset + nItems ≤ (m.streams InStr).items.length)
    (hkrun : input_run (k.streams s) nItems = input_run (m.streams InStr) nItems) :
    ((∃ c1, Internal_Sorter_Op.sort parallel_sort s s nItems c = Except.ok c1) ∧
      (∃ d1, Internal_Sorter_Op.sort parallel_sort InStr OutStr nItems d = Except.ok d1) ∧
      written s (new_events c (Internal_Sorter_Op.sort parallel_sort s s nItems c)) =
        written OutStr
          (new_events d (Internal_Sorter_Op.sort parallel_sort InStr OutStr nItems d))) ∧
    ((∃ c1, Internal_Sorter_Obj.sort cmp_o parallel_sort s s nItems c = Except.ok c1) ∧
      (∃ d1, Internal_Sorter_Obj.sort cmp_o parallel_sort InStr OutStr nItems d
        = Except.ok d1) ∧
      written s (new_events c (Internal_Sorter_Obj.sort cmp_o parallel_sort s s nItems c)) =
        written OutStr
          (new_events d
            (Internal_Sorter_Obj.sort cmp_o parallel_sort InStr OutStr nItems d))) ∧
    ((∃ k1, Internal_Sorter_KObj.sort key_sort s s nItems k = Except.ok k1) ∧
      (∃ m1, Internal_Sorter_KObj.sort key_sort InStr OutStr nItems m = Except.ok m1) ∧
      written s (new_events k (Internal_Sorter_KObj.sort key_sort s s nItems k)) =
        written OutStr
          (new_events m (Internal_Sorter_KObj.sort key_sort InStr OutStr nItems m))) := by
  have hA : nItems ≤ c.self.ItemArray.length := by omega
  have hdA : nItems ≤ d.self.ItemArray.length := by rw [← hself]; omega
  obtain ⟨c1, h1, _, w1⟩ :=
    Internal_Sorter_Base.sort_body_written hps hless s s nItems c hin hA
  obtain ⟨d1, g1, _, v1⟩ :=
    Internal_Sorter_Base.sort_body_written hps hless InStr OutStr nItems d hdin hdA
  obtain ⟨c2, h2, _, w2⟩ :=
    Internal_Sorter_Base.sort_body_written hps hcmp s s nItems c hin hA
  obtain ⟨d2, g2, _, v2⟩ :=
    Internal_Sorter_Base.sort_body_written hps hcmp InStr OutStr nItems d hdin hdA
  obtain ⟨k1, h3, _, _, _, w3⟩ :=
    Internal_Sorter_KObj.sort_written hks hkey s s nItems k hkin hkA hkS hkpos hkn
  obtain ⟨m1, g3, _, _, _, v3⟩ :=
    Internal_Sorter_KObj.sort_written hks hkey InStr OutStr nItems m hmin
      (by rw [← hkself]; exact hkA) (by rw [← hkself]; exact hkS)
      (by rw [← hkself]; exact hkpos) (by rw [← hkself]; exact hkn)
  rw [op_sort_eq_body parallel_sort s s nItems c hcap hpos hn,
    obj_sort_eq_body cmp_o parallel_sort s s nItems c hcap hpos hn,
    op_sort_eq_body parallel_sort InStr OutStr nItems d (by rw [← hself]; exact hcap)
      (by rw [← hself]; exact hpos) (by rw [← hself]; exact hn),
    obj_sort_eq_body cmp_o parallel_sort InStr OutStr nItems d (by rw [← hself]; exact hcap)
      (by rw [← hself]; exact hpos) (by rw [← hself]; exact hn)]
  refine ⟨⟨⟨c1, h1⟩, ⟨d1, g1⟩, ?_⟩, ⟨⟨c2, h2⟩, ⟨d2, g2⟩, ?_⟩, ⟨⟨k1, h3⟩, ⟨m1, g3⟩, ?_⟩⟩
  · rw [w1, v1, hrun]
  · rw [w2, v2, hrun]
  · rw [w3, v3, hkrun, hkself]

/-- C6, at sorters allocated for 10 items with the ten integers on stream 0:
sorting stream 0 onto itself writes what sorting stream 0 to stream 1 writes
(insertion sort for `parallel_sort`). -/
theorem sort_same_stream_writes_as_distinct_witness :
    written 0 (new_events (Internal_Sorter_Base.fresh 10 scenario_ints)
        (Internal_Sorter_Op.sort insertion_sort 0 0 10
          (Internal_Sorter_Base.fresh 10 scenario_ints))) =
      written 1 (new_events (Internal_Sorter_Base.fresh 10 scenario_ints)
        (Internal_Sorter_Op.sort insertion_sort 0 1 10
          (Internal_Sorter_Base.fresh 10 scenario_ints))) ∧
    written 0 (new_events (Internal_Sorter_Base.fresh 10 scenario_ints)
        (Internal_Sorter_Obj.sort three_way insertion_sort 0 0 10
          (Internal_Sorter_Base.fresh 10 scenario_ints))) =
      written 1 (new_events (Internal_Sorter_Base.fresh 10 scenario_ints)
        (Internal_Sorter_Obj.sort three_way insertion_sort 0 1 10
          (Internal_Sorter_Base.fresh 10 scenario_ints))) ∧
    written 0 (new_events (Internal_Sorter_KObj.fresh nat_key 10 scenario_ints)
        (Internal_Sorter_KObj.sort insertion_sort 0 0 10
          (Internal_Sorter_KObj.fresh nat_key 10 scenario_ints))) =
      written 1 (new_events (Internal_Sorter_KObj.fresh nat_key 10 scenario_ints)
        (Internal_Sorter_KObj.sort insertion_sort 0 1 10
          (Internal_Sorter_KObj.fresh nat_key 10 scenario_ints))) := by
  have h := sort_same_stream_writes_as_distinct insertion_sort insertion_sort_correct
    insertion_sort insertion_sort_correct three_way std_less_strict_weak three_way_strict_weak
    std_less_strict_weak 0 0 1 10 (by decide)
    (Internal_Sorter_Base.fresh 10 scenario_ints) (Internal_Sorter_Base.fresh 10 scenario_ints)
    (Internal_Sorter_KObj.fresh nat_key 10 scenario_ints)
    (Internal_Sorter_KObj.fresh nat_key 10 scenario_ints) rfl rfl rfl (by decide) (by decide)
    rfl rfl (by decide) (by decide) (by decide) (by decide) rfl (by decide) (by decide) rfl
  exact ⟨h.1.2.2, h.2.1.2.2, h.2.2.2.2⟩

/-! ## Memory accounting -/

/-- C7: for every memory budget `memSize` (a `TPIE_OS_SIZE_T`), `MaxItemCount`
is `(memSize - space_overhead()) / space_per_item()` rounded down when the
budget covers the overhead and one item, and 0 otherwise, for the base sorter
and for the key sorter; the sizes of the types are positive, as `sizeof`
always is (the division of the source is then defined), and the sum of the
two sizes of the key sorter is a `TPIE_OS_SIZE_T`. -/
theorem MaxItemCount_eq (sizeof_T sizeof_qsort_item memSize : Nat) (_hT : 0 < sizeof_T)
    (_hQ : 0 < sizeof_qsort_item) (hsum : sizeof_T + sizeof_qsort_item < SIZE_T_RANGE)
    (hmem : memSize < SIZE_T_RANGE) :
    Internal_Sorter_Base.MaxItemCount sizeof_T memSize =
      (if Internal_Sorter_Base.space_overhead + Internal_Sorter_Base.space_per_item sizeof_T
          ≤ memSize
        then (memSize - Internal_Sorter_Base.space_overhead) /
          Internal_Sorter_Base.space_per_item sizeof_T
        else 0) ∧
    Internal_Sorter_KObj.MaxItemCount sizeof_T sizeof_qsort_item memSize =
      (if Internal_Sorter_KObj.space_overhead +
          Internal_Sorter_KObj.space_per_item sizeof_T sizeof_qsort_item ≤ memSize
        then (memSize - Internal_Sorter_KObj.space_overhead) /
          Internal_Sorter_KObj.space_per_item sizeof_T sizeof_qsort_item
        else 0) := by
  have h1 : (memSize + SIZE_T_RANGE) % SIZE_T_RANGE = memSize := by
    rw [Nat.add_mod_right, Nat.mod_eq_of_lt hmem]
  constructor
  · simp only [Internal_Sorter_Base.MaxItemCount, Internal_Sorter_Base.space_overhead,
      Internal_Sorter_Base.space_per_item, h1, Nat.zero_add, Nat.sub_zero]
    by_cases h : memSize < sizeof_T
    · rw [if_pos h, if_neg (by omega)]
    · rw [if_neg h, if_pos (by omega)]
  · simp only [Internal_Sorter_KObj.MaxItemCount, Internal_Sorter_KObj.space_overhead,
      Internal_Sorter_KObj.space_per_item, h1, Nat.zero_add, Nat.sub_zero,
      Nat.mod_eq_of_lt hsum]
    by_cases h : memSize < sizeof_T + sizeof_qsort_item
    · rw [if_pos h, if_neg (by omega)]
    · rw [if_neg h, if_pos (by omega)]

/-- C7, at items of 8 bytes, entries of 16 bytes and a budget of 100 bytes:
12 items for the base sorter, 4 for the key sorter. -/
theorem MaxItemCount_eq_witness :
    Internal_Sorter_Base.MaxItemCount 8 100 = 12 ∧
    Internal_Sorter_KObj.MaxItemCount 8 16 100 = 4 := by
  have h := MaxItemCount_eq 8 16 100 (by decide) (by decide) (by decide) (by decide)
  exact ⟨h.1.trans (by decide), h.2.trans (by decide)⟩

/-- C8: memory accounting is tight for the base sorter and the key sorter:
for every budget `b`, `MaxItemCount(b) * space_per_item() + space_overhead()`
is at most `b`, and with one more item it exceeds `b`. -/
theorem MaxItemCount_tight (sizeof_T sizeof_qsort_item b : Nat) (hT : 0 < sizeof_T)
    (hQ : 0 < sizeof_qsort_item) (hsum : sizeof_T + sizeof_qsort_item < SIZE_T_RANGE)
    (hb : b < SIZE_T_RANGE) :
    (Internal_Sorter_Base.MaxItemCount sizeof_T b * Internal_Sorter_Base.space_per_item sizeof_T
        + Internal_Sorter_Base.space_overhead ≤ b ∧
      b < (Internal_Sorter_Base.MaxItemCount sizeof_T b + 1) *
        Internal_Sorter_Base.space_per_item sizeof_T + Internal_Sorter_Base.space_overhead) ∧
    (Internal_Sorter_KObj.MaxItemCount sizeof_T sizeof_qsort_item b *
        Internal_Sorter_KObj.space_per_item sizeof_T sizeof_qsort_item
        + Internal_Sorter_KObj.space_overhead ≤ b ∧
      b < (Internal_Sorter_KObj.MaxItemCount sizeof_T sizeof_qsort_item b + 1) *
        Internal_Sorter_KObj.space_per_item sizeof_T sizeof_qsort_item
        + Internal_Sorter_KObj.space_overhead) := by
  have h1 : (b + SIZE_T_RANGE - 0) % SIZE_T_RANGE = b := by
    rw [Nat.sub_zero, Nat.add_mod_right, Nat.mod_eq_of_lt hb]
  have key : ∀ p : Nat, 0 < p →
      ((if b < p then 0 else b / p) * p + 0 ≤ b ∧ b < ((if b < p then 0 else b / p) + 1) * p + 0) := by
    intro p hp
    by_cases h : b < p
    · rw [if_pos h]
      omega
    · rw [if_neg h]
      have hd := Nat.div_add_mod b p
      have hm := Nat.mod_lt b hp
      rw [Nat.mul_comm] at hd
      constructor
      · omega
      · rw [Nat.add_mul]
        omega
  constructor
  · simp only [Internal_Sorter_Base.MaxItemCount, Internal_Sorter_Base.space_overhead,
      Internal_Sorter_Base.space_per_item, h1]
    exact key sizeof_T hT
  · simp only [Internal_Sorter_KObj.MaxItemCount, Internal_Sorter_KObj.space_overhead,
      Internal_Sorter_KObj.space_per_item, h1, Nat.mod_eq_of_lt hsum]
    exact key (sizeof_T + sizeof_qsort_item) (by omega)

/-- C8, at items of 8 bytes, entries of 16 bytes and a budget of 100 bytes. -/
theorem MaxItemCount_tight_witness :
    (Internal_Sorter_Base.MaxItemCount 8 100 * 8 + 0 ≤ 100 ∧
      100 < (Internal_Sorter_Base.MaxItemCount 8 100 + 1) * 8 + 0) ∧
    (Internal_Sorter_KObj.MaxItemCount 8 16 100 * 24 + 0 ≤ 100 ∧
      100 < (Internal_Sorter_KObj.MaxItemCount 8 16 100 + 1) * 24 + 0) :=
  MaxItemCount_tight 8 16 100 (by decide) (by decide) (by decide) (by decide)

/-! ## Calls that fail their precondition -/

/-- C9 fails on the code for `Internal_Sorter_Obj`: on a sorter that was never
allocated, asked to sort 1 item, `Internal_Sorter_Obj::sort` ends with the
capacity assertion, which it checks before the test of the buffer, where
`Internal_Sorter_Op::sort` and `Internal_Sorter_KObj::sort` throw
`NULL_POINTER`; none of the three performs an event. -/
theorem unallocated_obj_sort_fails_assertion :
    Internal_Sorter_Obj.sort three_way insertion_sort 0 1 1
        (Internal_Sorter_Base.unallocated scenario_ints) =
      Except.error (Abort.buffer_overfull, Internal_Sorter_Base.unallocated scenario_ints) ∧
    Internal_Sorter_Op.sort insertion_sort 0 1 1
        (Internal_Sorter_Base.unallocated scenario_ints) =
      Except.error (Abort.NULL_POINTER, Internal_Sorter_Base.unallocated scenario_ints) ∧
    Internal_Sorter_KObj.sort insertion_sort 0 1 1
        (Internal_Sorter_KObj.unallocated nat_key scenario_ints) =
      Except.error (Abort.NULL_POINTER,
        Internal_Sorter_KObj.unallocated nat_key scenario_ints) :=
  ⟨obj_sort_unallocated three_way insertion_sort 0 1 1 _ rfl rfl,
    op_sort_unallocated insertion_sort 0 1 1 _ rfl,
    kobj_sort_unallocated insertion_sort 0 1 1 _ (Or.inl rfl)⟩

/-- C10: for each of the three sorters, for every allocated capacity
`len > 0` and every count `nItems > len`, `sort` ends with the capacity
assertion in the state it was called in: no event has been performed, the
streams and `ItemArray` are those on entry. -/
theorem sort_overfull_fails_before_reading {α κ : Type} [LT α]
    [DecidableRel (fun a b : α => a < b)] [LT κ] [DecidableRel (fun a b : κ => a < b)]
    [Inhabited α] [Inhabited κ]
    (parallel_sort : parallel_sort_fn α) (key_sort : parallel_sort_fn (qsort_item κ))
    (cmp_o : α → α → Int) (InStr OutStr nItems : Nat)
    (c : Cfg (Internal_Sorter_Base α) α) (k : Cfg (Internal_Sorter_KObj α κ) α)
    (hcap : c.self.ItemArray.length = c.self.len) (hpos : 0 < c.self.len)
    (hn : c.self.len < nItems)
    (hkA : k.self.ItemArray.length = k.self.len)
    (hkS : k.self.sortItemArray.length = k.self.len) (hkpos : 0 < k.self.len)
    (hkn : k.self.len < nItems) :
    Internal_Sorter_Op.sort parallel_sort InStr OutStr nItems c =
      Except.error (Abort.buffer_overfull, c) ∧
    Internal_Sorter_Obj.sort cmp_o parallel_sort InStr OutStr nItems c =
      Except.error (Abort.buffer_overfull, c) ∧
    Internal_Sorter_KObj.sort key_sort InStr OutStr nItems k =
      Except.error (Abort.buffer_overfull, k) := by
  refine ⟨?_, ?_, ?_⟩
  · unfold Internal_Sorter_Op.sort
    rw [if_neg (by omega), if_pos (by omega)]
  · unfold Internal_Sorter_Obj.sort
    rw [if_pos (by omega)]
  · unfold Internal_Sorter_KObj.sort
    rw [if_neg (by omega), if_pos (by omega)]

/-- C10, at sorters allocated for 3 items and asked to sort 4 of the ten
integers on stream 0. -/
theorem sort_overfull_fails_before_reading_witness :
    Internal_Sorter_Op.sort insertion_sort 0 1 4 (Internal_Sorter_Base.fresh 3 scenario_ints) =
      Except.error (Abort.buffer_overfull, Internal_Sorter_Base.fresh 3 scenario_ints) ∧
    Internal_Sorter_Obj.sort three_way insertion_sort 0 1 4
        (Internal_Sorter_Base.fresh 3 scenario_ints) =
      Except.error (Abort.buffer_overfull, Internal_Sorter_Base.fresh 3 scenario_ints) ∧
    Internal_Sorter_KObj.sort insertion_sort 0 1 4
        (Internal_Sorter_KObj.fresh nat_key 3 scenario_ints) =
      Except.error (Abort.buffer_overfull,
        Internal_Sorter_KObj.fresh nat_key 3 scenario_ints) :=
  sort_overfull_fails_before_reading insertion_sort insertion_sort three_way 0 1 4
    (Internal_Sorter_Base.fresh 3 scenario_ints)
    (Internal_Sorter_KObj.fresh nat_key 3 scenario_ints) rfl (by decide) (by decide) rfl rfl
    (by decide) (by decide)

/-! ## The read phase and the write phase, distinct streams -/

theorem input_run_getElem? {α : Type} (f : file_stream α) (n k : Nat) (hk : k < n) :
    (input_run f n)[k]? = f.items[f.offset + k]? := by
  simp [input_run, List.getElem?_take, hk]

/-- With distinct streams the input stream after a call that returns has its
items unchanged and its position advanced over the run. -/
theorem sort_streams_input {α : Type} (streams : Nat → file_stream α) (InStr OutStr n : Nat)
    (out : List α) (hne : InStr ≠ OutStr) :
    sort_streams streams InStr OutStr n out InStr =
      { items := (streams InStr).items, offset := (streams InStr).offset + n } := by
  simp [sort_streams, hne, Function.update_noteq hne]

/-- With distinct streams the output stream after a call that returns is the
output stream on entry with the items `out` written at its position. -/
theorem sort_streams_output {α : Type} (streams : Nat → file_stream α) (InStr OutStr n : Nat)
    (out : List α) (hne : InStr ≠ OutStr)
    (hq : (streams OutStr).offset ≤ (streams OutStr).items.length) :
    sort_streams streams InStr OutStr n out OutStr =
      { items := (streams OutStr).items.take (streams OutStr).offset ++ out
          ++ (streams OutStr).items.drop ((streams OutStr).offset + out.length)
        offset := (streams OutStr).offset + out.length } := by
  have hne2 : OutStr ≠ InStr := fun h => hne h.symm
  simp only [sort_streams, if_neg hne, Function.update_same, Function.update_noteq hne2]
  exact write_many_eq out _ hq

/-- The read loop of `Internal_Sorter_Op::sort` and `Internal_Sorter_Obj::sort`
in a valid call, and the call as a whole with distinct streams. -/
theorem Internal_Sorter_Base.sort_body_read_phase {α : Type} [Inhabited α]
    {parallel_sort : parallel_sort_fn α} (hps : CorrectSort parallel_sort)
    {comp : α → α → Bool} (hcomp : StrictWeakOrder comp) (InStr OutStr n : Nat)
    (hne : InStr ≠ OutStr) (c : Cfg (Internal_Sorter_Base α) α)
    (hin : (c.streams InStr).offset + n ≤ (c.streams InStr).items.length)
    (hA : n ≤ c.self.ItemArray.length) :
    (∃ cr, Internal_Sorter_Base.read_loop InStr n
        ((c.report progress_call.fp_init).report
          (progress_call.init subindicator.read_progress n)) = Except.ok cr ∧
      cr.self.ItemArray.take n = input_run (c.streams InStr) n) ∧
    ∃ c1, Internal_Sorter_Base.sort_body parallel_sort comp InStr OutStr n c = Except.ok c1 ∧
      read_from InStr
        (new_events c (Internal_Sorter_Base.sort_body parallel_sort comp InStr OutStr n c)) =
        input_run (c.streams InStr) n ∧
      (c1.streams InStr).items = (c.streams InStr).items ∧
      (c1.streams InStr).offset = (c.streams InStr).offset + n := by
  have hrun := input_run_length (c.streams InStr) n hin
  have hlen : (parallel_sort comp (input_run (c.streams InStr) n)).length = n := by
    rw [hps.length_eq hcomp, hrun]
  constructor
  · rw [base_read_loop_ok InStr n
      ((c.report progress_call.fp_init).report
        (progress_call.init subindicator.read_progress n)) hin hA]
    refine ⟨_, rfl, ?_⟩
    show List.take n (input_run (c.streams InStr) n ++ _) = _
    rw [List.take_append_of_le_length (by rw [hrun])]
    exact List.take_of_length_le (by rw [hrun])
  · rw [Internal_Sorter_Base.sort_body_ok parallel_sort comp InStr OutStr n c hin hA hlen]
    refine ⟨_, rfl, ?_, ?_, ?_⟩
    · rw [new_events_ok c _ _ rfl, read_from_sort_events]
    · simp only [sort_streams_input _ _ _ _ _ hne]
    · simp only [sort_streams_input _ _ _ _ _ hne]

/-- The read loop of `Internal_Sorter_KObj::sort` in a valid call, and the
call as a whole with distinct streams. -/
theorem Internal_Sorter_KObj.sort_reads_first {α κ : Type} [LT κ]
    [DecidableRel (fun a b : κ => a < b)] [Inhabited α] [Inhabited κ]
    {parallel_sort : parallel_sort_fn (qsort_item κ)} (hps : CorrectSort parallel_sort)
    (hkey : StrictWeakOrder (std_less : κ → κ → Bool))
    (InStr OutStr n : Nat) (hne : InStr ≠ OutStr) (c : Cfg (Internal_Sorter_KObj α κ) α)
    (hin : (c.streams InStr).offset + n ≤ (c.streams InStr).items.length)
    (hA : c.self.ItemArray.length = c.self.len)
    (hS : c.self.sortItemArray.length = c.self.len)
    (hpos : 0 < c.self.len) (hn : n ≤ c.self.len) :
    (∃ cr, Internal_Sorter_KObj.read_loop InStr n
        ((c.report progress_call.fp_init).report
          (progress_call.init subindicator.read_progress n)) = Except.ok cr ∧
      cr.self.ItemArray.take n = input_run (c.streams InStr) n) ∧
    ∃ c1, Internal_Sorter_KObj.sort parallel_sort InStr OutStr n c = Except.ok c1 ∧
      read_from InStr
        (new_events c (Internal_Sorter_KObj.sort parallel_sort InStr OutStr n c)) =
        input_run (c.streams InStr) n ∧
      (c1.streams InStr).items = (c.streams InStr).items ∧
      (c1.streams InStr).offset = (c.streams InStr).offset + n := by
  have hrun := input_run_length (c.streams InStr) n hin
  have hlen : (parallel_sort std_less
      (Internal_Sorter_KObj.with_sources 0 (c.self.sortItemArray.take n))).length = n := by
    rw [hps.length_eq (qsort_item_less_strict_weak hkey),
      Internal_Sorter_KObj.with_sources_length, List.length_take]
    omega
  constructor
  · rw [kobj_read_loop_ok InStr n
      ((c.report progress_call.fp_init).report
        (progress_call.init subindicator.read_progress n)) hin
      (by show n ≤ c.self.ItemArray.length; omega)
      (by show n ≤ c.self.sortItemArray.length; omega)]
    refine ⟨_, rfl, ?_⟩
    show List.take n (input_run (c.streams InStr) n ++ _) = _
    rw [List.take_append_of_le_length (by rw [hrun])]
    exact List.take_of_length_le (by rw [hrun])
  · rw [Internal_Sorter_KObj.sort_ok parallel_sort InStr OutStr n c hin hA hS hpos hn hlen]
    refine ⟨_, rfl, ?_, ?_, ?_⟩
    · rw [new_events_ok c _ _ rfl, read_from_sort_events]
    · simp only [sort_streams_input _ _ _ _ _ hne]
    · simp only [sort_streams_input _ _ _ _ _ hne]

/-- C11: read phase, for each of the three sorters with distinct input and
output streams in a valid call.  The read loop ends with the `k`-th item
read in slot `k` of `ItemArray` (its first `nItems` slots are the run); the
call returns, the items it read from the input stream are exactly the
`nItems` items at positions `p .. p + nItems - 1`, where `p` is the position
of the input stream on entry, and on return the input stream has the same
items and position `p + nItems`. -/
theorem sort_read_phase {α κ : Type} [LT α] [DecidableRel (fun a b : α => a < b)]
    [LT κ] [DecidableRel (fun a b : κ => a < b)] [Inhabited α] [Inhabited κ]
    (parallel_sort : parallel_sort_fn α) (hps : CorrectSort parallel_sort)
    (key_sort : parallel_sort_fn (qsort_item κ)) (hks : CorrectSort key_sort)
    (cmp_o : α → α → Int) (hless : StrictWeakOrder (std_less : α → α → Bool))
    (hcmp : StrictWeakOrder (TPIE2STL_cmp cmp_o))
    (hkey : StrictWeakOrder (std_less : κ → κ → Bool)) (InStr OutStr nItems : Nat)
    (hne : InStr ≠ OutStr)
    (c : Cfg (Internal_Sorter_Base α) α) (k : Cfg (Internal_Sorter_KObj α κ) α)
    (hcap : c.self.ItemArray.length = c.self.len) (hpos : 0 < c.self.len)
    (hn : nItems ≤ c.self.len)
    (hin : (c.streams InStr).offset + nItems ≤ (c.streams InStr).items.length)
    (hkA : k.self.ItemArray.length = k.self.len)
    (hkS : k.self.sortItemArray.length = k.self.len) (hkpos : 0 < k.self.len)
    (hkn : nItems ≤ k.self.len)
    (hkin : (k.streams InStr).offset + nItems ≤ (k.streams InStr).items.length) :
    ((input_run (c.streams InStr) nItems).length = nItems ∧
      ∀ i, i < nItems → (input_run (c.streams InStr) nItems)[i]? =
        (c.streams InStr).items[(c.streams InStr).offset + i]?) ∧
    ((∃ cr, Internal_Sorter_Base.read_loop InStr nItems
        ((c.report progress_call.fp_init).report
          (progress_call.init subindicator.read_progress nItems)) = Except.ok cr ∧
      cr.self.ItemArray.take nItems = input_run (c.streams InStr) nItems) ∧
      (∃ kr, Internal_Sorter_KObj.read_loop InStr nItems
        ((k.report progress_call.fp_init).report
          (progress_call.init subindicator.read_progress nItems)) = Except.ok kr ∧
      kr.self.ItemArray.take nItems = input_run (k.streams InStr) nItems)) ∧
    (∃ c1, Internal_Sorter_Op.sort parallel_sort InStr OutStr nItems c = Except.ok c1 ∧
      read_from InStr
        (new_events c (Internal_Sorter_Op.sort parallel_sort InStr OutStr nItems c)) =
        input_run (c.streams InStr) nItems ∧
      (c1.streams InStr).items = (c.streams InStr).items ∧
      (c1.streams InStr).offset = (c.streams InStr).offset + nItems) ∧
    (∃ c1, Internal_Sorter_Obj.sort cmp_o parallel_sort InStr OutStr nItems c = Except.ok c1 ∧
      read_from InStr
        (new_events c (Internal_Sorter_Obj.sort cmp_o parallel_sort InStr OutStr nItems c)) =
        input_run (c.streams InStr) nItems ∧
      (c1.streams InStr).items = (c.streams InStr).items ∧
      (c1.streams InStr).offset = (c.streams InStr).offset + nItems) ∧
    (∃ k1, Internal_Sorter_KObj.sort key_sort InStr OutStr nItems k = Except.ok k1 ∧
      read_from InStr
        (new_events k (Internal_Sorter_KObj.sort key_sort InStr OutStr nItems k)) =
        input_run (k.streams InStr) nItems ∧
      (k1.streams InStr).items = (k.streams InStr).items ∧
      (k1.streams InStr).offset = (k.streams InStr).offset + nItems) := by
  have hA : nItems ≤ c.self.ItemArray.length := by omega
  have b1 := Internal_Sorter_Base.sort_body_read_phase hps hless InStr OutStr nItems hne c hin hA
  have b2 := Internal_Sorter_Base.sort_body_read_phase hps hcmp InStr OutStr nItems hne c hin hA
  have b3 := Internal_Sorter_KObj.sort_reads_first hks hkey InStr OutStr nItems hne k hkin hkA
    hkS hkpos hkn
  rw [op_sort_eq_body parallel_sort InStr OutStr nItems c hcap hpos hn,
    obj_sort_eq_body cmp_o parallel_sort InStr OutStr nItems c hcap hpos hn]
  exact ⟨⟨input_run_length _ _ hin, fun i hi => input_run_getElem? _ _ _ hi⟩,
    ⟨b1.1, b3.1⟩, b1.2, b2.2, b3.2⟩

/-- C11, at sorters allocated for 10 items that sort 4 of the ten integers on
stream 0 to stream 1 (insertion sort for `parallel_sort`): the items read are
5, 3, 8, 1 and the input stream ends at position 4 with its ten items. -/
theorem sort_read_phase_witness :
    (∃ c1, Internal_Sorter_Op.sort insertion_sort 0 1 4
        (Internal_Sorter_Base.fresh 10 scenario_ints) = Except.ok c1 ∧
      read_from 0 (new_events (Internal_Sorter_Base.fresh 10 scenario_ints)
        (Internal_Sorter_Op.sort insertion_sort 0 1 4
          (Internal_Sorter_Base.fresh 10 scenario_ints))) = [5, 3, 8, 1] ∧
      (c1.streams 0).items = scenario_ints ∧ (c1.streams 0).offset = 4) ∧
    (∃ k1, Internal_Sorter_KObj.sort insertion_sort 0 1 4
        (Internal_Sorter_KObj.fresh nat_key 10 scenario_ints) = Except.ok k1 ∧
      read_from 0 (new_events (Internal_Sorter_KObj.fresh nat_key 10 scenario_ints)
        (Internal_Sorter_KObj.sort insertion_sort 0 1 4
          (Internal_Sorter_KObj.fresh nat_key 10 scenario_ints))) = [5, 3, 8, 1] ∧
      (k1.streams 0).items = scenario_ints ∧ (k1.streams 0).offset = 4) := by
  have h := sort_read_phase insertion_sort insertion_sort_correct insertion_sort
    insertion_sort_correct three_way std_less_strict_weak three_way_strict_weak
    std_less_strict_weak 0 1 4 (by decide) (Internal_Sorter_Base.fresh 10 scenario_ints)
    (Internal_Sorter_KObj.fresh nat_key 10 scenario_ints) rfl (by decide) (by decide)
    (by decide) rfl rfl (by decide) (by decide) (by decide)
  exact ⟨h.2.2.1, h.2.2.2.2⟩

/-- The write phase of `Internal_Sorter_Op::sort` and
`Internal_Sorter_Obj::sort` in a valid call with distinct streams: `n` items
are written from the position `q` of the output stream on, the position
ends at `q + n`, the items below `q` are unchanged, and the items written
are the run in non-decreasing order. -/
theorem Internal_Sorter_Base.sort_body_write_phase {α : Type} [Inhabited α]
    {parallel_sort : parallel_sort_fn α} (hps : CorrectSort parallel_sort)
    {comp : α → α → Bool} (hcomp : StrictWeakOrder comp) (InStr OutStr n : Nat)
    (hne : InStr ≠ OutStr) (c : Cfg (Internal_Sorter_Base α) α)
    (hin : (c.streams InStr).offset + n ≤ (c.streams InStr).items.length)
    (hA : n ≤ c.self.ItemArray.length)
    (hq : (c.streams OutStr).offset ≤ (c.streams OutStr).items.length) :
    ∃ c1, Internal_Sorter_Base.sort_body parallel_sort comp InStr OutStr n c = Except.ok c1 ∧
      (written OutStr (new_events c
        (Internal_Sorter_Base.sort_body parallel_sort comp InStr OutStr n c))).length = n ∧
      (c1.streams OutStr).offset = (c.streams OutStr).offset + n ∧
      (c1.streams OutStr).items =
        (c.streams OutStr).items.take (c.streams OutStr).offset
        ++ written OutStr (new_events c
          (Internal_Sorter_Base.sort_body parallel_sort comp InStr OutStr n c))
        ++ (c.streams OutStr).items.drop ((c.streams OutStr).offset + n) ∧
      NonDecreasing comp (written OutStr (new_events c
        (Internal_Sorter_Base.sort_body parallel_sort comp InStr OutStr n c))) ∧
      (written OutStr (new_events c
        (Internal_Sorter_Base.sort_body parallel_sort comp InStr OutStr n c))).Perm
        (input_run (c.streams InStr) n) := by
  have hrun := input_run_length (c.streams InStr) n hin
  have hlen : (parallel_sort comp (input_run (c.streams InStr) n)).length = n := by
    rw [hps.length_eq hcomp, hrun]
  rw [Internal_Sorter_Base.sort_body_ok parallel_sort comp InStr OutStr n c hin hA hlen]
  rw [new_events_ok c _ _ rfl, written_sort_events]
  refine ⟨_, rfl, hlen, ?_, ?_, (hps comp hcomp _).2, (hps comp hcomp _).1⟩
  · simp only [sort_streams_output _ _ _ _ _ hne hq, hlen]
  · simp only [sort_streams_output _ _ _ _ _ hne hq, hlen]

/-- The write phase of `Internal_Sorter_KObj::sort` in a valid call with
distinct streams: `n` items are written from the position `q` of the output
stream on, the position ends at `q + n`, the items below `q` are unchanged,
and the items written are a rearrangement of the run. -/
theorem Internal_Sorter_KObj.sort_write_phase {α κ : Type} [LT κ]
    [DecidableRel (fun a b : κ => a < b)] [Inhabited α] [Inhabited κ]
    {parallel_sort : parallel_sort_fn (qsort_item κ)} (hps : CorrectSort parallel_sort)
    (hkey : StrictWeakOrder (std_less : κ → κ → Bool))
    (InStr OutStr n : Nat) (hne : InStr ≠ OutStr) (c : Cfg (Internal_Sorter_KObj α κ) α)
    (hin : (c.streams InStr).offset + n ≤ (c.streams InStr).items.length)
    (hA : c.self.ItemArray.length = c.self.len)
    (hS : c.self.sortItemArray.length = c.self.len)
    (hpos : 0 < c.self.len) (hn : n ≤ c.self.len)
    (hq : (c.streams OutStr).offset ≤ (c.streams OutStr).items.length) :
    ∃ c1, Internal_Sorter_KObj.sort parallel_sort InStr OutStr n c = Except.ok c1 ∧
      (written OutStr (new_events c
        (Internal_Sorter_KObj.sort parallel_sort InStr OutStr n c))).length = n ∧
      (c1.streams OutStr).offset = (c.streams OutStr).offset + n ∧
      (c1.streams OutStr).items =
        (c.streams OutStr).items.take (c.streams OutStr).offset
        ++ written OutStr (new_events c
          (Internal_Sorter_KObj.sort parallel_sort InStr OutStr n c))
        ++ (c.streams OutStr).items.drop ((c.streams OutStr).offset + n) ∧
      (written OutStr (new_events c
        (Internal_Sorter_KObj.sort parallel_sort InStr OutStr n c))).Perm
        (input_run (c.streams InStr) n) := by
  have hrun := input_run_length (c.streams InStr) n hin
  have hlen : (parallel_sort std_less
      (Internal_Sorter_KObj.with_sources 0 (c.self.sortItemArray.take n))).length = n := by
    rw [hps.length_eq (qsort_item_less_strict_weak hkey),
      Internal_Sorter_KObj.with_sources_length, List.length_take]
    omega
  have hp := Internal_Sorter_KObj.dereference_sorted_perm hps hkey
    (input_run (c.streams InStr) n) (c.self.ItemArray.drop n)
    (c.self.sortItemArray.take n) (by rw [List.length_take, hrun]; omega)
  have hdl : (Internal_Sorter_KObj.dereference
      (input_run (c.streams InStr) n ++ c.self.ItemArray.drop n)
      (parallel_sort std_less
        (Internal_Sorter_KObj.with_sources 0 (c.self.sortItemArray.take n)))).length = n := by
    rw [hp.length_eq, hrun]
  rw [Internal_Sorter_KObj.sort_ok parallel_sort InStr OutStr n c hin hA hS hpos hn hlen]
  rw [new_events_ok c _ _ rfl, written_sort_events]
  refine ⟨_, rfl, hdl, ?_, ?_, hp⟩
  · simp only [sort_streams_output _ _ _ _ _ hne hq, hdl]
  · simp only [sort_streams_output _ _ _ _ _ hne hq, hdl]

/-- C12 fails on the code for `Internal_Sorter_KObj`: on a sorter freshly
allocated for 3 records, with the three records of the scenario on stream 0
and an output stream 1 that holds one record and is at position 1 (insertion
sort for `parallel_sort`), the call leaves the output stream at position 4
with the record below position 1 unchanged, but the records at positions
1 to 3 are the run in the order it was read, which is not the sorted run. -/
theorem key_sort_write_phase_unsorted :
    ((Internal_Sorter_KObj.sort insertion_sort 0 1 3
        (Internal_Sorter_KObj.fresh_onto record_cmp 3 scenario_records
          [(9, "x")] 1)).final.streams 1).items =
      [(9, "x"), (3, "c"), (1, "a"), (2, "b")] ∧
    ((Internal_Sorter_KObj.sort insertion_sort 0 1 3
        (Internal_Sorter_KObj.fresh_onto record_cmp 3 scenario_records
          [(9, "x")] 1)).final.streams 1).offset = 4 ∧
    ¬ key_ordered record_cmp [(3, "c"), (1, "a"), (2, "b")] := by
  refine ⟨by decide, by decide, ?_⟩
  simp [key_ordered, NonDecreasing, TPIE2STL_cmp, record_cmp]

/-! ## Sorting the output again -/

/-- Under a strict weak order, a run without ties has one non-decreasing
arrangement. -/
theorem nondecreasing_perm_unique {α : Type} {lt : α → α → Bool} (h : StrictWeakOrder lt)
    (l1 l2 : List α) (hp : l1.Perm l2) (h1 : NonDecreasing lt l1) (h2 : NonDecreasing lt l2)
    (hties : TieFree lt l1) : l1 = l2 := by
  induction l1 generalizing l2 with
  | nil => exact (List.Perm.nil_eq hp)
  | cons a t ih =>
    cases l2 with
    | nil => exact absurd hp.length_eq (by simp)
    | cons b u =>
      unfold NonDecreasing at h1 h2
      rw [List.pairwise_cons] at h1 h2
      have hb : b ∈ a :: t := hp.symm.subset (List.mem_cons_self b u)
      have ha : a ∈ b :: u := hp.subset (List.mem_cons_self a t)
      have hba : lt b a = false := by
        rcases List.mem_cons.mp hb with e | hbt
        · rw [e]; exact h.irrefl a
        · exact h1.1 b hbt
      have hab : lt a b = false := by
        rcases List.mem_cons.mp ha with e | hau
        · rw [e]; exact h.irrefl b
        · exact h2.1 a hau
      have e : a = b := hties a (List.mem_cons_self a t) b hb hab hba
      subst e
      have ht : t = u := ih u (List.Perm.cons_inv hp) h1.2 h2.2
        (fun x hx y hy => hties x (List.mem_cons_of_mem _ hx) y (List.mem_cons_of_mem _ hy))
      rw [ht]

/-- A correct comparison sort leaves a non-decreasing run without ties as it
is. -/
theorem CorrectSort.sorted_fixed {α : Type} {parallel_sort : parallel_sort_fn α}
    (hps : CorrectSort parallel_sort) {lt : α → α → Bool} (h : StrictWeakOrder lt)
    (l : List α) (hl : NonDecreasing lt l) (hties : TieFree lt l) :
    parallel_sort lt l = l := by
  obtain ⟨hp, hs⟩ := hps lt h l
  exact (nondecreasing_perm_unique h l _ hp.symm hl hs hties).symm

theorem TieFree.of_perm {α : Type} {lt : α → α → Bool} {l1 l2 : List α} (hp : l1.Perm l2)
    (h : TieFree lt l2) : TieFree lt l1 :=
  fun a ha b hb => h a (hp.subset ha) b (hp.subset hb)

/-- The shared body of Op and Obj, called on a run without ties and then on
its own output, writes the same output again. -/
theorem Internal_Sorter_Base.sort_body_again {α : Type} [Inhabited α]
    {parallel_sort : parallel_sort_fn α} (hps : CorrectSort parallel_sort)
    {comp : α → α → Bool} (hcomp : StrictWeakOrder comp)
    (InStr OutStr InStr2 OutStr2 n : Nat) (c d : Cfg (Internal_Sorter_Base α) α)
    (hin : (c.streams InStr).offset + n ≤ (c.streams InStr).items.length)
    (hA : n ≤ c.self.ItemArray.length)
    (hdin : (d.streams InStr2).offset + n ≤ (d.streams InStr2).items.length)
    (hdA : n ≤ d.self.ItemArray.length)
    (hties : TieFree comp (input_run (c.streams InStr) n))
    (hagain : input_run (d.streams InStr2) n = written OutStr
      (new_events c (Internal_Sorter_Base.sort_body parallel_sort comp InStr OutStr n c))) :
    (∃ d1, Internal_Sorter_Base.sort_body parallel_sort comp InStr2 OutStr2 n d
      = Except.ok d1) ∧
    written OutStr2
        (new_events d (Internal_Sorter_Base.sort_body parallel_sort comp InStr2 OutStr2 n d)) =
      written OutStr
        (new_events c (Internal_Sorter_Base.sort_body parallel_sort comp InStr OutStr n c)) := by
  obtain ⟨c1, _, _, w1⟩ :=
    Internal_Sorter_Base.sort_body_written hps hcomp InStr OutStr n c hin hA
  obtain ⟨d1, g1, _, v1⟩ :=
    Internal_Sorter_Base.sort_body_written hps hcomp InStr2 OutStr2 n d hdin hdA
  refine ⟨⟨d1, g1⟩, ?_⟩
  rw [v1, hagain, w1]
  exact hps.sorted_fixed hcomp _ (hps comp hcomp _).2
    (TieFree.of_perm (hps comp hcomp _).1 hties)

theorem insert_behind_ties_perm {α : Type} (lt : α → α → Bool) (x : α) (l : List α) :
    (insert_behind_ties lt x l).Perm (x :: l) := by
  induction l with
  | nil => exact List.Perm.refl _
  | cons y ys ih =>
    unfold insert_behind_ties
    split
    · exact List.Perm.refl _
    · exact (List.Perm.cons y ih).trans (List.Perm.swap x y ys)

theorem insert_behind_ties_nondecreasing {α : Type} {lt : α → α → Bool}
    (h : StrictWeakOrder lt) (x : α) (l : List α) (hl : NonDecreasing lt l) :
    NonDecreasing lt (insert_behind_ties lt x l) := by
  induction l with
  | nil => simp [insert_behind_ties, NonDecreasing]
  | cons y ys ih =>
    unfold NonDecreasing at hl ih ⊢
    rw [List.pairwise_cons] at hl
    unfold insert_behind_ties
    split
    · rename_i hxy
      rw [List.pairwise_cons]
      refine ⟨?_, List.pairwise_cons.mpr hl⟩
      intro b hb
      rcases List.mem_cons.mp hb with rfl | hb2
      · exact h.asymm x b hxy
      · cases hbx : lt b x with
        | false => rfl
        | true =>
          have := h.trans b x y hbx hxy
          rw [hl.1 b hb2] at this
          cases this
    · rename_i hxy
      have hxy1 : lt x y = false := by simpa using hxy
      rw [List.pairwise_cons]
      refine ⟨?_, ih hl.2⟩
      intro b hb
      have hb1 := (insert_behind_ties_perm lt x ys).subset hb
      rcases List.mem_cons.mp hb1 with rfl | hb2
      · exact hxy1
      · exact hl.1 b hb2

/-- The insertion sort that is not stable is a correct comparison sort. -/
theorem tie_reversing_sort_correct {α : Type} :
    CorrectSort (tie_reversing_sort : parallel_sort_fn α) := by
  intro lt h l
  induction l with
  | nil => exact ⟨List.Perm.refl _, List.Pairwise.nil⟩
  | cons x xs ih =>
    exact ⟨(insert_behind_ties_perm lt x _).trans (List.Perm.cons x ih.1),
      insert_behind_ties_nondecreasing h x _ ih.2⟩

/-- A strict weak order on keys is one on the items it is applied to through
their keys. -/
theorem StrictWeakOrder.on_key {α κ : Type} {lt : κ → κ → Bool} (h : StrictWeakOrder lt)
    (f : α → κ) : StrictWeakOrder (fun a b => lt (f a) (f b)) where
  irrefl a := h.irrefl (f a)
  trans a b c := h.trans (f a) (f b) (f c)
  incomp_trans a b c := h.incomp_trans (f a) (f b) (f c)

theorem record_key_cmp_strict_weak : StrictWeakOrder (TPIE2STL_cmp record_key_cmp) :=
  (three_way_strict_weak : StrictWeakOrder (TPIE2STL_cmp (three_way : Nat → Nat → Int))).on_key
    (fun r : Nat × String => r.1)

/-- The operator `<` of a linear order leaves no ties in any run. -/
theorem std_less_tie_free {α : Type} [LinearOrder α] (l : List α) :
    TieFree (std_less : α → α → Bool) l := by
  intro a _ b _ hab hba
  simp only [std_less, decide_eq_false_iff_not, not_lt] at hab hba
  exact le_antisymm hba hab

theorem three_way_tie_free {α : Type} [LinearOrder α] (l : List α) :
    TieFree (TPIE2STL_cmp (three_way : α → α → Int)) l := by
  rw [TPIE2STL_cmp_three_way]
  exact std_less_tie_free l

/-- C13 as it holds on the code: for `Internal_Sorter_Op` and
`Internal_Sorter_Obj`, for every run without ties under the ordering (two
items neither of which is less than the other are the same item), sorting
the run and then sorting the output again, in a valid call with the same
ordering, returns and writes an output identical, item for item, to the
first output. -/
theorem resort_without_ties_same_output {α : Type} [LT α]
    [DecidableRel (fun a b : α => a < b)] [Inhabited α]
    (parallel_sort : parallel_sort_fn α) (hps : CorrectSort parallel_sort)
    (cmp_o : α → α → Int) (hless : StrictWeakOrder (std_less : α → α → Bool))
    (hcmp : StrictWeakOrder (TPIE2STL_cmp cmp_o))
    (InStr OutStr InStr2 OutStr2 nItems : Nat) (c d : Cfg (Internal_Sorter_Base α) α)
    (hcap : c.self.ItemArray.length = c.self.len) (hpos : 0 < c.self.len)
    (hn : nItems ≤ c.self.len)
    (hin : (c.streams InStr).offset + nItems ≤ (c.streams InStr).items.length)
    (hdcap : d.self.ItemArray.length = d.self.len) (hdpos : 0 < d.self.len)
    (hdn : nItems ≤ d.self.len)
    (hdin : (d.streams InStr2).offset + nItems ≤ (d.streams InStr2).items.length)
    (hties : TieFree std_less (input_run (c.streams InStr) nItems))
    (hties_o : TieFree (TPIE2STL_cmp cmp_o) (input_run (c.streams InStr) nItems)) :
    (input_run (d.streams InStr2) nItems = written OutStr
        (new_events c (Internal_Sorter_Op.sort parallel_sort InStr OutStr nItems c)) →
      (∃ d1, Internal_Sorter_Op.sort parallel_sort InStr2 OutStr2 nItems d = Except.ok d1) ∧
      written OutStr2
          (new_events d (Internal_Sorter_Op.sort parallel_sort InStr2 OutStr2 nItems d)) =
        written OutStr
          (new_events c (Internal_Sorter_Op.sort parallel_sort InStr OutStr nItems c))) ∧
    (input_run (d.streams InStr2) nItems = written OutStr
        (new_events c (Internal_Sorter_Obj.sort cmp_o parallel_sort InStr OutStr nItems c)) →
      (∃ d1, Internal_Sorter_Obj.sort cmp_o parallel_sort InStr2 OutStr2 nItems d
        = Except.ok d1) ∧
      written OutStr2
          (new_events d
            (Internal_Sorter_Obj.sort cmp_o parallel_sort InStr2 OutStr2 nItems d)) =
        written OutStr
          (new_events c
            (Internal_Sorter_Obj.sort cmp_o parallel_sort InStr OutStr nItems c))) := by
  have hA : nItems ≤ c.self.ItemArray.length := by omega
  have hdA : nItems ≤ d.self.ItemArray.length := by omega
  rw [op_sort_eq_body parallel_sort InStr OutStr nItems c hcap hpos hn,
    obj_sort_eq_body cmp_o parallel_sort InStr OutStr nItems c hcap hpos hn,
    op_sort_eq_body parallel_sort InStr2 OutStr2 nItems d hdcap hdpos hdn,
    obj_sort_eq_body cmp_o parallel_sort InStr2 OutStr2 nItems d hdcap hdpos hdn]
  exact ⟨fun h => Internal_Sorter_Base.sort_body_again hps hless InStr OutStr InStr2 OutStr2
      nItems c d hin hA hdin hdA hties h,
    fun h => Internal_Sorter_Base.sort_body_again hps hcmp InStr OutStr InStr2 OutStr2
      nItems c d hin hA hdin hdA hties_o h⟩

/-- C13 as amended, at sorters allocated for 10 items: the ten integers of
the scenario are sorted from stream 0 to stream 1, and the output
0, 1, ..., 9 is sorted again (insertion sort for `parallel_sort`). -/
theorem resort_without_ties_same_output_witness :
    written 1 (new_events (Internal_Sorter_Base.fresh 10 [0, 1, 2, 3, 4, 5, 6, 7, 8, 9])
        (Internal_Sorter_Op.sort insertion_sort 0 1 10
          (Internal_Sorter_Base.fresh 10 [0, 1, 2, 3, 4, 5, 6, 7, 8, 9]))) =
      written 1 (new_events (Internal_Sorter_Base.fresh 10 scenario_ints)
        (Internal_Sorter_Op.sort insertion_sort 0 1 10
          (Internal_Sorter_Base.fresh 10 scenario_ints))) ∧
    written 1 (new_events (Internal_Sorter_Base.fresh 10 [0, 1, 2, 3, 4, 5, 6, 7, 8, 9])
        (Internal_Sorter_Obj.sort three_way insertion_sort 0 1 10
          (Internal_Sorter_Base.fresh 10 [0, 1, 2, 3, 4, 5, 6, 7, 8, 9]))) =
      written 1 (new_events (Internal_Sorter_Base.fresh 10 scenario_ints)
        (Internal_Sorter_Obj.sort three_way insertion_sort 0 1 10
          (Internal_Sorter_Base.fresh 10 scenario_ints))) := by
  have h := resort_without_ties_same_output insertion_sort insertion_sort_correct three_way
    std_less_strict_weak three_way_strict_weak 0 1 0 1 10
    (Internal_Sorter_Base.fresh 10 scenario_ints)
    (Internal_Sorter_Base.fresh 10 [0, 1, 2, 3, 4, 5, 6, 7, 8, 9])
    rfl (by decide) (by decide) (by decide) rfl (by decide) (by decide) (by decide)
    (std_less_tie_free _) (three_way_tie_free _)
  exact ⟨(h.1 (by decide)).2, (h.2 (by decide)).2⟩

/-- C13 fails as stated: with ties and a correct comparison sort that is not
stable, sorting the output again writes another order.  `Internal_Sorter_Obj`
with a comparison object on the key of the records, allocated for 2 records,
writes the run (1,"a"),(1,"b") as (1,"b"),(1,"a"), and writes that output,
sorted again, as (1,"a"),(1,"b"). -/
theorem resort_reorders_ties :
    CorrectSort (tie_reversing_sort : parallel_sort_fn (Nat × String)) ∧
    StrictWeakOrder (TPIE2STL_cmp record_key_cmp) ∧
    written 1 (new_events (Internal_Sorter_Base.fresh 2 [(1, "a"), (1, "b")])
        (Internal_Sorter_Obj.sort record_key_cmp tie_reversing_sort 0 1 2
          (Internal_Sorter_Base.fresh 2 [(1, "a"), (1, "b")]))) = [(1, "b"), (1, "a")] ∧
    written 1 (new_events (Internal_Sorter_Base.fresh 2 [(1, "b"), (1, "a")])
        (Internal_Sorter_Obj.sort record_key_cmp tie_reversing_sort 0 1 2
          (Internal_Sorter_Base.fresh 2 [(1, "b"), (1, "a")]))) = [(1, "a"), (1, "b")] ∧
    written 1 (new_events (Internal_Sorter_Base.fresh 2 [(1, "b"), (1, "a")])
        (Internal_Sorter_Obj.sort record_key_cmp tie_reversing_sort 0 1 2
          (Internal_Sorter_Base.fresh 2 [(1, "b"), (1, "a")]))) ≠
      written 1 (new_events (Internal_Sorter_Base.fresh 2 [(1, "a"), (1, "b")])
        (Internal_Sorter_Obj.sort record_key_cmp tie_reversing_sort 0 1 2
          (Internal_Sorter_Base.fresh 2 [(1, "a"), (1, "b")]))) :=
  ⟨tie_reversing_sort_correct, record_key_cmp_strict_weak, by decide, by decide, by decide⟩

/-! ## Allocation and the size of an item -/

/-- C14: for the base sorter and the key sorter, for every `n` and whatever
the previous capacity, `allocate(n)` leaves `len = n` and a buffer of exactly
`n` slots (for the key sorter both `ItemArray` and `sortItemArray`), and
`deallocate()` leaves `len = 0` and buffers of size 0. -/
theorem allocate_deallocate_sizes {α κ : Type} [Inhabited α] [Inhabited κ] (n : Nat)
    (s : Internal_Sorter_Base α) (k : Internal_Sorter_KObj α κ) :
    ((s.allocate n).len = n ∧ (s.allocate n).ItemArray.length = n) ∧
    ((k.allocate n).len = n ∧ (k.allocate n).ItemArray.length = n ∧
      (k.allocate n).sortItemArray.length = n) ∧
    (s.deallocate.len = 0 ∧ s.deallocate.ItemArray.length = 0) ∧
    (k.deallocate.len = 0 ∧ k.deallocate.ItemArray.length = 0 ∧
      k.deallocate.sortItemArray.length = 0) := by
  simp [Internal_Sorter_Base.allocate, Internal_Sorter_Base.deallocate,
    Internal_Sorter_KObj.allocate, Internal_Sorter_KObj.deallocate, array_resize]

/-- C15: `space_per_item()` of the key sorter is `sizeof(T)` plus
`sizeof(qsort_item<KEY>)`, that of the base sorter is `sizeof(T)`,
`space_overhead()` is 0 for both, and for every budget `MaxItemCount` of the
key sorter is at most that of the base sorter for the same item type; the
size of the item is positive and the sum of the two sizes is a
`TPIE_OS_SIZE_T`. -/
theorem key_sorter_fits_fewer_items (sizeof_T sizeof_qsort_item memSize : Nat)
    (hT : 0 < sizeof_T) (hsum : sizeof_T + sizeof_qsort_item < SIZE_T_RANGE) :
    Internal_Sorter_KObj.space_per_item sizeof_T sizeof_qsort_item
      = sizeof_T + sizeof_qsort_item ∧
    Internal_Sorter_Base.space_per_item sizeof_T = sizeof_T ∧
    Internal_Sorter_Base.space_overhead = 0 ∧
    Internal_Sorter_KObj.space_overhead = 0 ∧
    Internal_Sorter_KObj.MaxItemCount sizeof_T sizeof_qsort_item memSize ≤
      Internal_Sorter_Base.MaxItemCount sizeof_T memSize := by
  refine ⟨Nat.mod_eq_of_lt hsum, rfl, rfl, rfl, ?_⟩
  simp only [Internal_Sorter_KObj.MaxItemCount, Internal_Sorter_Base.MaxItemCount,
    Internal_Sorter_KObj.space_overhead, Internal_Sorter_Base.space_overhead,
    Internal_Sorter_KObj.space_per_item, Internal_Sorter_Base.space_per_item,
    Nat.mod_eq_of_lt hsum]
  generalize (memSize + SIZE_T_RANGE - 0) % SIZE_T_RANGE = m
  by_cases h1 : m < sizeof_T + sizeof_qsort_item
  · rw [if_pos h1]
    exact Nat.zero_le _
  · rw [if_neg h1, if_neg (by omega)]
    exact Nat.div_le_div_left (by omega) hT

/-- C15, at items of 8 bytes, entries of 16 bytes and a budget of 100 bytes:
the key sorter fits 4 items, the base sorter 12. -/
theorem key_sorter_fits_fewer_items_witness :
    Internal_Sorter_KObj.space_per_item 8 16 = 24 ∧
    Internal_Sorter_Base.space_per_item 8 = 8 ∧
    Internal_Sorter_KObj.MaxItemCount 8 16 100 ≤ Internal_Sorter_Base.MaxItemCount 8 100 := by
  have h := key_sorter_fits_fewer_items 8 16 100 (by decide) (by decide)
  exact ⟨h.1, h.2.1, h.2.2.2.2⟩

/-! ## The progress reporter -/

theorem for_loop_with_pi {S α : Type} (body : Nat → Cfg S α → Outcome S α)
    (hbody : ∀ i c, body i (c.with_pi none) = (body i c).with_pi none) (n : Nat)
    (c : Cfg S α) :
    for_loop body n (c.with_pi none) = Outcome.with_pi (for_loop body n c) none := by
  induction n with
  | zero => rfl
  | succ n ih =>
    rw [for_loop, ih]
    conv => rhs; rw [for_loop]
    cases h : for_loop body n c with
    | ok c1 => exact hbody n c1
    | error e => rfl

theorem for_each_with_pi {S α : Type} (body : Nat → Cfg S α → Cfg S α)
    (hbody : ∀ i c, body i (c.with_pi none) = (body i c).with_pi none) (n : Nat)
    (c : Cfg S α) :
    for_each body n (c.with_pi none) = (for_each body n c).with_pi none := by
  induction n with
  | zero => rfl
  | succ n ih => rw [for_each, for_each, ih, hbody]

theorem report_with_pi {S α : Type} (c : Cfg S α) (p : progress_call) :
    (c.with_pi none).report p = (c.report p).with_pi none := by
  simp [Cfg.report, Cfg.with_pi]

theorem rewind_with_pi {S α : Type} (c : Cfg S α) (InStr OutStr : Nat) :
    (c.with_pi none).rewind_if_same InStr OutStr =
      (c.rewind_if_same InStr OutStr).with_pi none := by
  unfold Cfg.rewind_if_same
  split <;> rfl

theorem base_read_loop_with_pi {α : Type} (InStr n : Nat)
    (c : Cfg (Internal_Sorter_Base α) α) :
    Internal_Sorter_Base.read_loop InStr n (c.with_pi none) =
      (Internal_Sorter_Base.read_loop InStr n c).with_pi none := by
  unfold Internal_Sorter_Base.read_loop
  apply for_loop_with_pi
  intro i c
  simp only [Cfg.stream_read, Cfg.with_pi]
  cases (c.streams InStr).read with
  | none => rfl
  | some p => simp [Outcome.with_pi, Cfg.report, Cfg.with_pi]

theorem base_write_loop_with_pi {α : Type} [Inhabited α] (OutStr n : Nat)
    (c : Cfg (Internal_Sorter_Base α) α) :
    Internal_Sorter_Base.write_loop OutStr n (c.with_pi none) =
      (Internal_Sorter_Base.write_loop OutStr n c).with_pi none := by
  unfold Internal_Sorter_Base.write_loop
  apply for_each_with_pi
  intro i c
  simp [Cfg.stream_write, Cfg.report, Cfg.with_pi]

/-- The shared body of Op and Obj without a reporter does what it does with
one, the reporter apart. -/
theorem Internal_Sorter_Base.sort_body_with_pi {α : Type} [Inhabited α]
    (parallel_sort : parallel_sort_fn α) (comp : α → α → Bool) (InStr OutStr n : Nat)
    (c : Cfg (Internal_Sorter_Base α) α) :
    Internal_Sorter_Base.sort_body parallel_sort comp InStr OutStr n (c.with_pi none) =
      (Internal_Sorter_Base.sort_body parallel_sort comp InStr OutStr n c).with_pi none := by
  unfold Internal_Sorter_Base.sort_body
  simp only [report_with_pi, base_read_loop_with_pi]
  cases Internal_Sorter_Base.read_loop InStr n
      ((c.report progress_call.fp_init).report
        (progress_call.init subindicator.read_progress n)) with
  | error e => rfl
  | ok c1 =>
    simp only [Outcome.with_pi]
    have hs : ∀ x : Cfg (Internal_Sorter_Base α) α,
        Internal_Sorter_Base.sort_items parallel_sort comp n (x.with_pi none) =
          (Internal_Sorter_Base.sort_items parallel_sort comp n x).with_pi none := fun _ => rfl
    simp only [report_with_pi, hs, rewind_with_pi, base_write_loop_with_pi]

theorem kobj_read_loop_with_pi {α κ : Type} (InStr n : Nat)
    (c : Cfg (Internal_Sorter_KObj α κ) α) :
    Internal_Sorter_KObj.read_loop InStr n (c.with_pi none) =
      (Internal_Sorter_KObj.read_loop InStr n c).with_pi none := by
  unfold Internal_Sorter_KObj.read_loop
  apply for_loop_with_pi
  intro i c
  simp only [Cfg.stream_read, Cfg.with_pi]
  cases (c.streams InStr).read with
  | none => rfl
  | some p => simp [Outcome.with_pi, Cfg.report, Cfg.with_pi]

theorem kobj_write_loop_with_pi {α κ : Type} [Inhabited α] [Inhabited κ] (OutStr n : Nat)
    (c : Cfg (Internal_Sorter_KObj α κ) α) :
    Internal_Sorter_KObj.write_loop OutStr n (c.with_pi none) =
      (Internal_Sorter_KObj.write_loop OutStr n c).with_pi none := by
  unfold Internal_Sorter_KObj.write_loop
  apply for_each_with_pi
  intro i c
  simp [Cfg.stream_write, Cfg.report, Cfg.with_pi]

theorem op_sort_with_pi {α : Type} [LT α] [DecidableRel (fun a b : α => a < b)]
    [Inhabited α] (parallel_sort : parallel_sort_fn α) (InStr OutStr n : Nat)
    (c : Cfg (Internal_Sorter_Base α) α) :
    Internal_Sorter_Op.sort parallel_sort InStr OutStr n (c.with_pi none) =
      (Internal_Sorter_Op.sort parallel_sort InStr OutStr n c).with_pi none := by
  unfold Internal_Sorter_Op.sort
  rw [Internal_Sorter_Base.sort_body_with_pi]
  show (if c.self.ItemArray.length = 0 then _ else if ¬ n ≤ c.self.len then _ else _) = _
  split
  · rfl
  · split <;> rfl

theorem obj_sort_with_pi {α : Type} [Inhabited α] (cmp_o : α → α → Int)
    (parallel_sort : parallel_sort_fn α) (InStr OutStr n : Nat)
    (c : Cfg (Internal_Sorter_Base α) α) :
    Internal_Sorter_Obj.sort cmp_o parallel_sort InStr OutStr n (c.with_pi none) =
      (Internal_Sorter_Obj.sort cmp_o parallel_sort InStr OutStr n c).with_pi none := by
  unfold Internal_Sorter_Obj.sort
  rw [Internal_Sorter_Base.sort_body_with_pi]
  show (if ¬ n ≤ c.self.len then _ else if c.self.ItemArray.length = 0 then _
    else if ¬ n ≤ c.self.len then _ else _) = _
  split
  · rfl
  · split
    · rfl
    · rfl

theorem kobj_sort_with_pi {α κ : Type} [LT κ] [DecidableRel (fun a b : κ => a < b)]
    [Inhabited α] [Inhabited κ] (parallel_sort : parallel_sort_fn (qsort_item κ))
    (InStr OutStr n : Nat) (c : Cfg (Internal_Sorter_KObj α κ) α) :
    Internal_Sorter_KObj.sort parallel_sort InStr OutStr n (c.with_pi none) =
      (Internal_Sorter_KObj.sort parallel_sort InStr OutStr n c).with_pi none := by
  unfold Internal_Sorter_KObj.sort
  show (if c.self.ItemArray.length = 0 ∨ c.self.sortItemArray.length = 0 then _
    else if ¬ n ≤ c.self.len then _ else _) = _
  split
  · rfl
  · split
    · rfl
    · simp only [report_with_pi, kobj_read_loop_with_pi]
      cases Internal_Sorter_KObj.read_loop InStr n
          ((c.report progress_call.fp_init).report
            (progress_call.init subindicator.read_progress n)) with
      | error e => rfl
      | ok c1 =>
        simp only [Outcome.with_pi]
        have hs : ∀ x : Cfg (Internal_Sorter_KObj α κ) α,
            Internal_Sorter_KObj.sort_items parallel_sort n (x.with_pi none) =
              (Internal_Sorter_KObj.sort_items parallel_sort n x).with_pi none :=
          fun _ => rfl
        simp only [report_with_pi, hs, rewind_with_pi, kobj_write_loop_with_pi]

theorem with_pi_final {S α : Type} (r : Outcome S α) (pi : Option progress_indicator_base) :
    (r.with_pi pi).final.self = r.final.self ∧ (r.with_pi pi).final.streams = r.final.streams ∧
      (r.with_pi pi).final.trace = r.final.trace ∧ (r.with_pi pi).abort = r.abort := by
  cases r with
  | ok c => exact ⟨rfl, rfl, rfl, rfl⟩
  | error e => exact ⟨rfl, rfl, rfl, rfl⟩

theorem with_pi_with_pi {S α : Type} (c : Cfg S α) (p q : Option progress_indicator_base) :
    (c.with_pi p).with_pi q = c.with_pi q := rfl

/-- C16: progress reporting does not affect the result.  For each of the
three sorters and every input, valid or not, `sort` called with no reporter
(`pi` null) and `sort` called with any reporter `r` end the same way (both
return or both abort alike) and leave the sorter, its buffers included, and
all streams in the same final state. -/
theorem sort_result_ignores_reporter {α κ : Type} [LT α]
    [DecidableRel (fun a b : α => a < b)] [LT κ] [DecidableRel (fun a b : κ => a < b)]
    [Inhabited α] [Inhabited κ]
    (parallel_sort : parallel_sort_fn α) (key_sort : parallel_sort_fn (qsort_item κ))
    (cmp_o : α → α → Int) (InStr OutStr nItems : Nat)
    (c : Cfg (Internal_Sorter_Base α) α) (k : Cfg (Internal_Sorter_KObj α κ) α)
    (r : progress_indicator_base) :
    ((Internal_Sorter_Op.sort parallel_sort InStr OutStr nItems (c.with_pi none)).final.self =
        (Internal_Sorter_Op.sort parallel_sort InStr OutStr nItems
          (c.with_pi (some r))).final.self ∧
      (Internal_Sorter_Op.sort parallel_sort InStr OutStr nItems (c.with_pi none)).final.streams =
        (Internal_Sorter_Op.sort parallel_sort InStr OutStr nItems
          (c.with_pi (some r))).final.streams ∧
      (Internal_Sorter_Op.sort parallel_sort InStr OutStr nItems (c.with_pi none)).abort =
        (Internal_Sorter_Op.sort parallel_sort InStr OutStr nItems
          (c.with_pi (some r))).abort) ∧
    ((Internal_Sorter_Obj.sort cmp_o parallel_sort InStr OutStr nItems
          (c.with_pi none)).final.self =
        (Internal_Sorter_Obj.sort cmp_o parallel_sort InStr OutStr nItems
          (c.with_pi (some r))).final.self ∧
      (Internal_Sorter_Obj.sort cmp_o parallel_sort InStr OutStr nItems
          (c.with_pi none)).final.streams =
        (Internal_Sorter_Obj.sort cmp_o parallel_sort InStr OutStr nItems
          (c.with_pi (some r))).final.streams ∧
      (Internal_Sorter_Obj.sort cmp_o parallel_sort InStr OutStr nItems
          (c.with_pi none)).abort =
        (Internal_Sorter_Obj.sort cmp_o parallel_sort InStr OutStr nItems
          (c.with_pi (some r))).abort) ∧
    ((Internal_Sorter_KObj.sort key_sort InStr OutStr nItems (k.with_pi none)).final.self =
        (Internal_Sorter_KObj.sort key_sort InStr OutStr nItems
          (k.with_pi (some r))).final.self ∧
      (Internal_Sorter_KObj.sort key_sort InStr OutStr nItems (k.with_pi none)).final.streams =
        (Internal_Sorter_KObj.sort key_sort InStr OutStr nItems
          (k.with_pi (some r))).final.streams ∧
      (Internal_Sorter_KObj.sort key_sort InStr OutStr nItems (k.with_pi none)).abort =
        (Internal_Sorter_KObj.sort key_sort InStr OutStr nItems
          (k.with_pi (some r))).abort) := by
  have h1 := op_sort_with_pi parallel_sort InStr OutStr nItems (c.with_pi (some r))
  have h2 := obj_sort_with_pi cmp_o parallel_sort InStr OutStr nItems (c.with_pi (some r))
  have h3 := kobj_sort_with_pi key_sort InStr OutStr nItems (k.with_pi (some r))
  rw [with_pi_with_pi] at h1 h2 h3
  rw [h1, h2, h3]
  exact ⟨⟨(with_pi_final _ _).1, (with_pi_final _ _).2.1, (with_pi_final _ _).2.2.2⟩,
    ⟨(with_pi_final _ _).1, (with_pi_final _ _).2.1, (with_pi_final _ _).2.2.2⟩,
    ⟨(with_pi_final _ _).1, (with_pi_final _ _).2.1, (with_pi_final _ _).2.2.2⟩⟩

/-! ## The number of workers and the length of the indicator -/

/-- C17: `default_worker_count()` returns `h` when the hardware concurrency
`h` is less than 4 and `h - 1` when it is 4 or more; the result is not 0
when `h` is at least 1. -/
theorem default_worker_count_eq (h : Nat) :
    (h < 4 → default_worker_count h = h) ∧
    (4 ≤ h → default_worker_count h = h - 1) ∧
    (1 ≤ h → default_worker_count h ≠ 0) := by
  unfold default_worker_count
  refine ⟨fun h4 => if_pos h4, fun h4 => if_neg (by omega), fun h1 => ?_⟩
  split <;> omega

/-- C17, at hardware concurrency 2, 4 and 8: 2, 3 and 7 workers. -/
theorem default_worker_count_eq_witness :
    default_worker_count 2 = 2 ∧ default_worker_count 4 = 3 ∧ default_worker_count 8 = 7 ∧
      default_worker_count 1 ≠ 0 :=
  ⟨(default_worker_count_eq 2).1 (by decide), (default_worker_count_eq 4).2.1 (by decide),
    (default_worker_count_eq 8).2.1 (by decide), (default_worker_count_eq 1).2.2 (by decide)⟩

/-- C20: `set_indicator_length(x)` leaves the indicator length in [2,60] for
every `int` `x`: it is `x` when `2 ≤ x ≤ 60`, 2 when `x < 2` and 60 when
`x > 60`. -/
theorem set_indicator_length_clamps (self : progress_indicator_arrow) (x : Int) :
    (2 ≤ (self.set_indicator_length x).m_indicatorLength ∧
      (self.set_indicator_length x).m_indicatorLength ≤ 60) ∧
    (2 ≤ x → x ≤ 60 → ((self.set_indicator_length x).m_indicatorLength : Int) = x) ∧
    (x < 2 → (self.set_indicator_length x).m_indicatorLength = 2) ∧
    (60 < x → (self.set_indicator_length x).m_indicatorLength = 60) := by
  simp only [progress_indicator_arrow.set_indicator_length, STREAM_SIZE_RANGE]
  refine ⟨?_, ?_, ?_, ?_⟩
  · omega
  · intro h1 h2
    omega
  · intro h1
    omega
  · intro h1
    omega

/-- C20, at the lengths 30, -5 and 100 on a new indicator: 30, 2 and 60. -/
theorem set_indicator_length_clamps_witness :
    (((progress_indicator_arrow.new "sort" 100).set_indicator_length 30).m_indicatorLength
      : Int) = 30 ∧
    ((progress_indicator_arrow.new "sort" 100).set_indicator_length (-5)).m_indicatorLength
      = 2 ∧
    ((progress_indicator_arrow.new "sort" 100).set_indicator_length 100).m_indicatorLength
      = 60 :=
  ⟨(set_indicator_length_clamps (progress_indicator_arrow.new "sort" 100) 30).2.1
      (by decide) (by decide),
    (set_indicator_length_clamps (progress_indicator_arrow.new "sort" 100) (-5)).2.2.1
      (by decide),
    (set_indicator_length_clamps (progress_indicator_arrow.new "sort" 100) 100).2.2.2
      (by decide)⟩

/-! ## Jobs: a parent and its children -/

theorem precedes_of_not_mem (e1 e2 : job_event) (l : List job_event) (h : e2 ∉ l) :
    Precedes e1 e2 l := by
  intro l1 l2 e
  exact absurd (e ▸ List.mem_append_right l1 (List.mem_cons_self e2 l2)) h

theorem precedes_cons_self (e1 e2 : job_event) (t : List job_event) (h : e1 ≠ e2) :
    Precedes e1 e2 (e1 :: t) := by
  intro l1 l2 e
  cases l1 with
  | nil =>
    simp only [List.nil_append, List.cons.injEq] at e
    exact absurd e.1 h
  | cons x xs =>
    simp only [List.cons_append, List.cons.injEq] at e
    rw [← e.1]
    exact List.mem_cons_self e1 xs

theorem precedes_cons_of_ne (e1 e2 x : job_event) (t : List job_event) (h : x ≠ e2)
    (ht : Precedes e1 e2 t) : Precedes e1 e2 (x :: t) := by
  intro l1 l2 e
  cases l1 with
  | nil =>
    simp only [List.nil_append, List.cons.injEq] at e
    exact absurd e.1 h
  | cons y ys =>
    simp only [List.cons_append, List.cons.injEq] at e
    exact List.mem_cons_of_mem y (ht ys l2 e.2)

/-- The order is kept when events are appended, if the new occurrences of
`e2` have an `e1` before them, in the log so far or among the new events. -/
theorem precedes_append (e1 e2 : job_event) (l t : List job_event) (hl : Precedes e1 e2 l)
    (ht : e2 ∈ t → e1 ∈ l ∨ Precedes e1 e2 t) : Precedes e1 e2 (l ++ t) := by
  intro l1 l2 e
  rcases List.append_eq_append_iff.mp e with ⟨a1, h1, h2⟩ | ⟨c1, h1, h2⟩
  · have hmem : e2 ∈ t := h2 ▸ List.mem_append_right a1 (List.mem_cons_self e2 l2)
    rcases ht hmem with h | h
    · rw [h1]
      exact List.mem_append_left a1 h
    · rw [h1]
      exact List.mem_append_right l (h a1 l2 h2)
  · cases c1 with
    | nil =>
      simp only [List.nil_append, List.append_nil] at h1 h2
      have hmem : e2 ∈ t := h2 ▸ List.mem_cons_self e2 l2
      rcases ht hmem with h | h
      · rw [← h1]
        exact h
      · exact absurd (h [] l2 h2.symm) (List.not_mem_nil e1)
    | cons y ys =>
      simp only [List.cons_append, List.cons.injEq] at h2
      exact hl l1 ys (by rw [h1, h2.1])

theorem size_t_succ (m : Nat) (h : m + 1 < SIZE_T_RANGE) : (m + 1) % SIZE_T_RANGE = m + 1 :=
  Nat.mod_eq_of_lt h

theorem size_t_pred (m : Nat) (h1 : 1 ≤ m) (h2 : m < SIZE_T_RANGE) :
    (m + SIZE_T_RANGE - 1) % SIZE_T_RANGE = m - 1 := by
  have e : m + SIZE_T_RANGE - 1 = (m - 1) + SIZE_T_RANGE := by omega
  rw [e, Nat.add_mod_right, Nat.mod_eq_of_lt (by omega)]

/-- The children enqueued under `a`: each is enqueued with count 1 and parent
`a`, the count of `a` grows by their number, nothing else changes. -/
theorem enqueue_children_spec (a : Nat) (cs : List Nat) (p : job_pool) (hcs : cs.Nodup)
    (ha : a ∉ cs) (hk : (p.jobs a).m_dependencies + cs.length < SIZE_T_RANGE)
    (hfresh : ∀ c, c ∈ cs → p.jobs c = job.new) :
    (job_pool.enqueue_children a cs p).jobs a =
        { p.jobs a with m_dependencies := (p.jobs a).m_dependencies + cs.length } ∧
      (∀ c, c ∈ cs → (job_pool.enqueue_children a cs p).jobs c =
        { m_dependencies := 1, m_parent := some a, m_state := job_state.job_enqueued }) ∧
      (∀ j, j ≠ a → j ∉ cs → (job_pool.enqueue_children a cs p).jobs j = p.jobs j) ∧
      (job_pool.enqueue_children a cs p).log = p.log := by
  induction cs generalizing p with
  | nil => simp [job_pool.enqueue_children]
  | cons c cs ih =>
    have hca : c ≠ a := fun e => ha (e ▸ List.mem_cons_self c cs)
    have hac : a ≠ c := fun e => hca e.symm
    have hc_cs : c ∉ cs := (List.nodup_cons.mp hcs).1
    have ha_cs : a ∉ cs := fun h => ha (List.mem_cons_of_mem c h)
    have hlen : (c :: cs).length = cs.length + 1 := rfl
    rw [hlen] at hk
    have h1a : (p.enqueue c (some a)).jobs a =
        { p.jobs a with m_dependencies := (p.jobs a).m_dependencies + 1 } := by
      simp [job_pool.enqueue, job_pool.set, Function.update_noteq hac,
        size_t_succ _ (show (p.jobs a).m_dependencies + 1 < SIZE_T_RANGE by omega)]
    have h1c : (p.enqueue c (some a)).jobs c =
        { m_dependencies := 1, m_parent := some a, m_state := job_state.job_enqueued } := by
      have hf := hfresh c (List.mem_cons_self c cs)
      simp [job_pool.enqueue, job_pool.set, Function.update_noteq hca, hf, job.new,
        size_t_succ 0 (by decide)]
    have h1o : ∀ j, j ≠ a → j ≠ c → (p.enqueue c (some a)).jobs j = p.jobs j := by
      intro j hja hjc
      simp [job_pool.enqueue, job_pool.set, Function.update_noteq hja,
        Function.update_noteq hjc]
    have h1l : (p.enqueue c (some a)).log = p.log := rfl
    obtain ⟨i1, i2, i3, i4⟩ := ih (p.enqueue c (some a)) (List.nodup_cons.mp hcs).2 ha_cs
      (by rw [h1a]; show (p.jobs a).m_dependencies + 1 + cs.length < SIZE_T_RANGE; omega)
      (fun x hx => by
        rw [h1o x (fun e => ha_cs (e ▸ hx)) (fun e => hc_cs (e ▸ hx))]
        exact hfresh x (List.mem_cons_of_mem c hx))
    unfold job_pool.enqueue_children
    refine ⟨?_, ?_, ?_, ?_⟩
    · rw [i1, h1a]
      simp [Nat.add_assoc, Nat.add_comm 1]
    · intro x hx
      rcases List.mem_cons.mp hx with e | hx2
      · subst e
        rw [i3 x hca hc_cs, h1c]
      · exact i2 x hx2
    · intro j hja hj
      rw [i3 j hja (fun h => hj (List.mem_cons_of_mem c h)),
        h1o j hja (fun e => hj (e ▸ List.mem_cons_self c cs))]
    · rw [i4, h1l]

/-- After the submission no job has run. -/
theorem submitted_ran (a : Nat) (cs : List Nat) (hcs : cs.Nodup) (ha : a ∉ cs)
    (hN : cs.length + 1 < SIZE_T_RANGE) : job_pool.ran a cs [] (job_pool.submitted a cs) := by
  have h0 : (job_pool.fresh.enqueue a none).jobs a =
      { m_dependencies := 1, m_parent := none, m_state := job_state.job_enqueued } := by
    simp [job_pool.enqueue, job_pool.set, job_pool.fresh, job.new, size_t_succ 0 (by decide)]
  have h0o : ∀ j, j ≠ a → (job_pool.fresh.enqueue a none).jobs j = job.new := by
    intro j hj
    simp [job_pool.enqueue, job_pool.set, job_pool.fresh, Function.update_noteq hj]
  obtain ⟨i1, i2, _, i4⟩ := enqueue_children_spec a cs (job_pool.fresh.enqueue a none) hcs ha
    (by rw [h0]; show 1 + cs.length < SIZE_T_RANGE; omega)
    (fun c hc => h0o c (fun e => ha (e ▸ hc)))
  unfold job_pool.submitted
  constructor
  · rw [i1, h0]
  · intro c hc
    rw [i2 c hc]
  · rw [i1, h0]
    simp [Nat.add_comm]
  · intro c hc
    rw [i2 c hc]
    simp
  · intro j
    rw [i4]
    simp [job_pool.enqueue, job_pool.set, job_pool.fresh]
  · intro c _
    rw [i4]
    simp [job_pool.enqueue, job_pool.set, job_pool.fresh]
  · rw [i4]
    simp [job_pool.enqueue, job_pool.set, job_pool.fresh]
  · intro j
    rw [i4]
    exact precedes_of_not_mem _ _ _ (by simp [job_pool.enqueue, job_pool.set, job_pool.fresh])
  · intro c _
    rw [i4]
    exact ⟨precedes_of_not_mem _ _ _ (by simp [job_pool.enqueue, job_pool.set, job_pool.fresh]),
      precedes_of_not_mem _ _ _ (by simp [job_pool.enqueue, job_pool.set, job_pool.fresh])⟩

/-- The completion routine on a job without a parent whose count is `m ≥ 1`:
the count becomes `m - 1`, and the hook and the wake-up happen when that is
zero. -/
theorem done_root (f : Nat) (p : job_pool) (a m : Nat)
    (hpar : (p.jobs a).m_parent = none) (hm : (p.jobs a).m_dependencies = m) (h1 : 1 ≤ m)
    (h2 : m < SIZE_T_RANGE) :
    ∃ p1, job_pool.done (f + 1) p a = some p1 ∧
      (p1.jobs a).m_dependencies = m - 1 ∧ (p1.jobs a).m_parent = none ∧
      (∀ j, j ≠ a → p1.jobs j = p.jobs j) ∧
      p1.log = p.log ++
        (if m - 1 = 0 then [job_event.on_done a, job_event.notify a] else []) := by
  rw [job_pool.done]
  simp only [hm, size_t_pred m h1 h2, hpar]
  by_cases h0 : m - 1 = 0
  · simp only [h0, ne_eq, not_true_eq_false, if_false, if_true]
    refine ⟨_, rfl, ?_, ?_, ?_, rfl⟩
    · simp [job_pool.set]
    · simp [job_pool.set, hpar]
    · intro j hj
      simp [job_pool.set, Function.update_noteq hj]
  · simp only [h0, ne_eq, not_false_eq_true, if_true, if_false]
    refine ⟨_, rfl, ?_, ?_, ?_, ?_⟩
    · simp [job_pool.set]
    · simp [job_pool.set, hpar]
    · intro j hj
      simp [job_pool.set, Function.update_noteq hj]
    · simp [job_pool.set]

/-- The parent runs to its end: its count goes from `m ≥ 1` to `m - 1`. -/
theorem run_parent (f : Nat) (p : job_pool) (a m : Nat)
    (hpar : (p.jobs a).m_parent = none) (hm : (p.jobs a).m_dependencies = m) (h1 : 1 ≤ m)
    (h2 : m < SIZE_T_RANGE) :
    ∃ p1, job_pool.run (f + 1) p a = some p1 ∧
      (p1.jobs a).m_dependencies = m - 1 ∧ (p1.jobs a).m_parent = none ∧
      (∀ j, j ≠ a → p1.jobs j = p.jobs j) ∧
      p1.log = p.log ++ [job_event.work a] ++
        (if m - 1 = 0 then [job_event.on_done a, job_event.notify a] else []) := by
  unfold job_pool.run
  obtain ⟨p1, e, d1, d2, d3, d4⟩ := done_root f
    { jobs := Function.update p.jobs a { p.jobs a with m_state := job_state.job_running }
      log := p.log ++ [job_event.work a] } a m
    (by simp [hpar]) (by simp [hm]) h1 h2
  refine ⟨p1, e, d1, d2, ?_, d4⟩
  intro j hj
  rw [d3 j hj]
  simp [Function.update_noteq hj]

/-- A child with count 1 runs to its end: its count becomes 0, its hook is
invoked, and the count of its parent goes from `m ≥ 1` to `m - 1`. -/
theorem run_child (f : Nat) (p : job_pool) (a c m : Nat) (hca : c ≠ a)
    (hpar : (p.jobs a).m_parent = none) (hm : (p.jobs a).m_dependencies = m) (h1 : 1 ≤ m)
    (h2 : m < SIZE_T_RANGE) (hcpar : (p.jobs c).m_parent = some a)
    (hc : (p.jobs c).m_dependencies = 1) :
    ∃ p1, job_pool.run (f + 2) p c = some p1 ∧
      (p1.jobs a).m_dependencies = m - 1 ∧ (p1.jobs a).m_parent = none ∧
      (p1.jobs c).m_dependencies = 0 ∧ (p1.jobs c).m_parent = some a ∧
      (∀ j, j ≠ a → j ≠ c → p1.jobs j = p.jobs j) ∧
      p1.log = p.log ++ [job_event.work c, job_event.on_done c, job_event.notify c] ++
        (if m - 1 = 0 then [job_event.on_done a, job_event.notify a] else []) := by
  have hac : a ≠ c := fun e => hca e.symm
  unfold job_pool.run
  rw [job_pool.done]
  simp only [Function.update_same, hc, size_t_pred 1 (Nat.le_refl 1) (by decide), hcpar,
    Nat.sub_self, ne_eq, not_true_eq_false, if_false]
  obtain ⟨p1, e, d1, d2, d3, d4⟩ := done_root f
    { jobs := Function.update
        (({ jobs := Function.update p.jobs c
              { p.jobs c with m_state := job_state.job_running }
            log := p.log ++ [job_event.work c] } : job_pool).set c
          { m_dependencies := 0, m_parent := some a,
            m_state := job_state.job_running }).jobs c
        { m_dependencies := 0, m_parent := some a, m_state := job_state.job_idle }
      log := p.log ++ [job_event.work c] ++ [job_event.on_done c, job_event.notify c] } a m
    (by simp [job_pool.set, Function.update_noteq hac, hpar])
    (by simp [job_pool.set, Function.update_noteq hac, hm]) h1 h2
  refine ⟨p1, ?_, d1, d2, ?_, ?_, ?_, ?_⟩
  · rw [← e]
    simp [job_pool.set, hcpar]
  · rw [d3 c hca]
    simp [job_pool.set]
  · rw [d3 c hca]
    simp [job_pool.set]
  · intro j hja hjc
    rw [d3 j hja]
    simp [job_pool.set, Function.update_noteq hjc]
  · rw [d4]
    simp

/-- A job of the group that has not run yet runs to its end within two levels
of the completion routine.  Afterwards exactly the jobs run before and this
one have run, and the count of the parent is one less. -/
theorem ran_step (f a : Nat) (cs D : List Nat) (p : job_pool) (j : Nat)
    (ha : a ∉ cs) (hN : cs.length + 1 < SIZE_T_RANGE)
    (hD : D.Nodup) (hDsub : ∀ x, x ∈ D → x ∈ a :: cs) (hj : j ∈ a :: cs) (hjD : j ∉ D)
    (inv : job_pool.ran a cs D p) :
    ∃ p1, job_pool.run (f + 2) p j = some p1 ∧ job_pool.ran a cs (j :: D) p1 ∧
      (p1.jobs a).m_dependencies + 1 = (p.jobs a).m_dependencies := by
  have hnd : (j :: D).Nodup := List.nodup_cons.mpr ⟨hjD, hD⟩
  have hsub : (j :: D) ⊆ (a :: cs) := by
    intro x hx
    rcases List.mem_cons.mp hx with e | h
    · rw [e]
      exact hj
    · exact hDsub x h
  have hsp := hnd.subperm hsub
  have hle : D.length + 1 ≤ cs.length + 1 := by
    have := hsp.length_le
    simpa using this
  have hall : cs.length + 1 - D.length - 1 = 0 → ∀ x, x ∈ a :: cs → x ∈ j :: D := by
    intro h0 x hx
    have h3 : (a :: cs).length ≤ (j :: D).length := by
      simp only [List.length_cons]
      omega
    exact (hsp.perm_of_length_le h3).mem_iff.mpr hx
  have hm : (p.jobs a).m_dependencies = cs.length + 1 - D.length := inv.deps_a
  have h1 : 1 ≤ cs.length + 1 - D.length := by omega
  have h2 : cs.length + 1 - D.length < SIZE_T_RANGE := by omega
  have hlog_a : p.log.count (job_event.on_done a) = 0 := by
    rw [inv.on_done_a, if_neg (by omega)]
  have hwork : ∀ x, x ∈ a :: cs → x ≠ j → cs.length + 1 - D.length - 1 = 0 →
      job_event.work x ∈ p.log := by
    intro x hx hxj h0
    have hxD : x ∈ D := by
      rcases List.mem_cons.mp (hall h0 x hx) with e | h
      · exact absurd e hxj
      · exact h
    have hc := inv.work x
    rw [if_pos hxD] at hc
    exact List.count_pos_iff.mp (by omega)
  have hdone : ∀ x, x ∈ cs → x ≠ j → cs.length + 1 - D.length - 1 = 0 →
      job_event.on_done x ∈ p.log := by
    intro x hx hxj h0
    have hxD : x ∈ D := by
      rcases List.mem_cons.mp (hall h0 x (List.mem_cons_of_mem a hx)) with e | h
      · exact absurd e hxj
      · exact h
    have hc := inv.on_done_c x hx
    rw [if_pos hxD] at hc
    exact List.count_pos_iff.mp (by omega)
  by_cases hja : j = a
  · subst hja
    obtain ⟨p1, e, d1, d2, d3, d4⟩ := run_parent (f + 1) p j _ inv.parent_a hm h1 h2
    have hne : ∀ c, c ∈ cs → c ≠ j := fun c hc e => ha (e ▸ hc)
    refine ⟨p1, e, ?_, by rw [d1, hm]; omega⟩
    by_cases h0 : cs.length + 1 - D.length - 1 = 0
    · rw [if_pos h0] at d4
      constructor
      · exact d2
      · intro c hc
        rw [d3 c (hne c hc)]
        exact inv.parent_c c hc
      · rw [d1]
        simp only [List.length_cons]
        omega
      · intro c hc
        rw [d3 c (hne c hc), inv.deps_c c hc]
        simp [hne c hc]
      · intro x
        rw [d4]
        simp only [List.count_append, inv.work x]
        by_cases hx : x = j
        · subst hx
          simp [hjD, List.count_cons]
        · simp [hx, List.count_cons, Ne.symm hx]
      · intro c hc
        rw [d4]
        simp only [List.count_append, inv.on_done_c c hc]
        simp [hne c hc, List.count_cons, Ne.symm (hne c hc)]
      · rw [d4]
        simp only [List.count_append, hlog_a]
        have : cs.length ≤ D.length := by omega
        simp [List.count_cons, this]
      · intro x
        rw [d4, List.append_assoc]
        refine precedes_append _ _ _ _ (inv.hook_after_work x) (fun _ => ?_)
        by_cases hx : x = j
        · subst hx
          exact Or.inr (precedes_cons_self _ _ _ (by simp))
        · exact Or.inr (precedes_of_not_mem _ _ _ (by simp [hx]))
      · intro c hc
        rw [d4, List.append_assoc]
        exact ⟨precedes_append _ _ _ _ (inv.hook_after_children c hc).1
            (fun _ => Or.inl (hwork c (List.mem_cons_of_mem j hc) (hne c hc) h0)),
          precedes_append _ _ _ _ (inv.hook_after_children c hc).2
            (fun _ => Or.inl (hdone c hc (hne c hc) h0))⟩
    · rw [if_neg h0, List.append_nil] at d4
      constructor
      · exact d2
      · intro c hc
        rw [d3 c (hne c hc)]
        exact inv.parent_c c hc
      · rw [d1]
        simp only [List.length_cons]
        omega
      · intro c hc
        rw [d3 c (hne c hc), inv.deps_c c hc]
        simp [hne c hc]
      · intro x
        rw [d4]
        simp only [List.count_append, inv.work x]
        by_cases hx : x = j
        · subst hx
          simp [hjD, List.count_cons]
        · simp [hx, List.count_cons, Ne.symm hx]
      · intro c hc
        rw [d4]
        simp only [List.count_append, inv.on_done_c c hc]
        simp [hne c hc, List.count_cons]
      · rw [d4]
        simp only [List.count_append, hlog_a]
        have : ¬ (cs.length ≤ D.length) := by omega
        simp [List.count_cons, this]
      · intro x
        rw [d4]
        exact precedes_append _ _ _ _ (inv.hook_after_work x)
          (fun h => absurd h (by simp))
      · intro c hc
        rw [d4]
        exact ⟨precedes_append _ _ _ _ (inv.hook_after_children c hc).1
            (fun h => absurd h (by simp)),
          precedes_append _ _ _ _ (inv.hook_after_children c hc).2
            (fun h => absurd h (by simp))⟩
  · have hjc : j ∈ cs := by
      rcases List.mem_cons.mp hj with e | h
      · exact absurd e hja
      · exact h
    have haj : a ≠ j := fun e => hja e.symm
    obtain ⟨p1, e, d1, d2, d3, d4, d5, d6⟩ := run_child f p a j _ hja inv.parent_a hm h1 h2
      (inv.parent_c j hjc) (by rw [inv.deps_c j hjc, if_neg hjD])
    have hne : ∀ c, c ∈ cs → c ≠ a := fun c hc e => ha (e ▸ hc)
    have hjdone : p.log.count (job_event.on_done j) = 0 := by
      rw [inv.on_done_c j hjc, if_neg hjD]
    refine ⟨p1, e, ?_, by rw [d1, hm]; omega⟩
    by_cases h0 : cs.length + 1 - D.length - 1 = 0
    · rw [if_pos h0] at d6
      constructor
      · exact d2
      · intro c hc
        by_cases hcj : c = j
        · rw [hcj]
          exact d4
        · rw [d5 c (hne c hc) hcj]
          exact inv.parent_c c hc
      · rw [d1]
        simp only [List.length_cons]
        omega
      · intro c hc
        by_cases hcj : c = j
        · rw [hcj, d3]
          simp
        · rw [d5 c (hne c hc) hcj, inv.deps_c c hc]
          simp [hcj]
      · intro x
        rw [d6]
        simp only [List.count_append, inv.work x]
        by_cases hx : x = j
        · subst hx
          simp [hjD, List.count_cons]
        · simp [hx, List.count_cons, Ne.symm hx]
      · intro c hc
        rw [d6]
        simp only [List.count_append, inv.on_done_c c hc]
        by_cases hcj : c = j
        · subst hcj
          simp [hjD, List.count_cons, haj]
        · simp [hcj, List.count_cons, Ne.symm hcj, Ne.symm (hne c hc)]
      · rw [d6]
        simp only [List.count_append, hlog_a]
        have : cs.length ≤ D.length := by omega
        simp [List.count_cons, this, hja]
      · intro x
        rw [d6, List.append_assoc]
        refine precedes_append _ _ _ _ (inv.hook_after_work x) (fun _ => ?_)
        by_cases hx : x = j
        · subst hx
          exact Or.inr (precedes_cons_self _ _ _ (by simp))
        · by_cases hxa : x = a
          · exact Or.inl (hwork x (hxa ▸ List.mem_cons_self a cs) hx h0)
          · exact Or.inr (precedes_of_not_mem _ _ _ (by simp [hx, hxa]))
      · intro c hc
        rw [d6, List.append_assoc]
        by_cases hcj : c = j
        · subst hcj
          exact ⟨precedes_append _ _ _ _ (inv.hook_after_children c hc).1
              (fun _ => Or.inr (precedes_cons_self _ _ _ (by simp))),
            precedes_append _ _ _ _ (inv.hook_after_children c hc).2
              (fun _ => Or.inr (precedes_cons_of_ne _ _ _ _ (by simp)
                (precedes_cons_self _ _ _ (by simp [hja]))))⟩
        · exact ⟨precedes_append _ _ _ _ (inv.hook_after_children c hc).1
              (fun _ => Or.inl (hwork c (List.mem_cons_of_mem a hc) hcj h0)),
            precedes_append _ _ _ _ (inv.hook_after_children c hc).2
              (fun _ => Or.inl (hdone c hc hcj h0))⟩
    · rw [if_neg h0, List.append_nil] at d6
      constructor
      · exact d2
      · intro c hc
        by_cases hcj : c = j
        · rw [hcj]
          exact d4
        · rw [d5 c (hne c hc) hcj]
          exact inv.parent_c c hc
      · rw [d1]
        simp only [List.length_cons]
        omega
      · intro c hc
        by_cases hcj : c = j
        · rw [hcj, d3]
          simp
        · rw [d5 c (hne c hc) hcj, inv.deps_c c hc]
          simp [hcj]
      · intro x
        rw [d6]
        simp only [List.count_append, inv.work x]
        by_cases hx : x = j
        · subst hx
          simp [hjD, List.count_cons]
        · simp [hx, List.count_cons, Ne.symm hx]
      · intro c hc
        rw [d6]
        simp only [List.count_append, inv.on_done_c c hc]
        by_cases hcj : c = j
        · subst hcj
          simp [hjD, List.count_cons]
        · simp [hcj, List.count_cons, Ne.symm hcj]
      · rw [d6]
        simp only [List.count_append, hlog_a]
        have : ¬ (cs.length ≤ D.length) := by omega
        simp [List.count_cons, this, hja]
      · intro x
        rw [d6]
        refine precedes_append _ _ _ _ (inv.hook_after_work x) (fun _ => ?_)
        by_cases hx : x = j
        · subst hx
          exact Or.inr (precedes_cons_self _ _ _ (by simp))
        · exact Or.inr (precedes_of_not_mem _ _ _ (by simp [hx]))
      · intro c hc
        rw [d6]
        exact ⟨precedes_append _ _ _ _ (inv.hook_after_children c hc).1
            (fun h => absurd h (by simp [haj])),
          precedes_append _ _ _ _ (inv.hook_after_children c hc).2
            (fun h => absurd h (by simp [haj]))⟩

/-- Jobs of the group that have not run yet, each at most once, run to their
ends one after the other. -/
theorem run_all_ran (f a : Nat) (cs : List Nat) (ha : a ∉ cs)
    (hN : cs.length + 1 < SIZE_T_RANGE) (sched : List Nat) :
    ∀ (D : List Nat) (p : job_pool), D.Nodup → (∀ x, x ∈ D → x ∈ a :: cs) → sched.Nodup →
      (∀ x, x ∈ sched → x ∈ a :: cs) → (∀ x, x ∈ sched → x ∉ D) → job_pool.ran a cs D p →
      ∃ p1, job_pool.run_all (f + 2) sched p = some p1 ∧
        job_pool.ran a cs (sched.reverse ++ D) p1 := by
  induction sched with
  | nil =>
    intro D p _ _ _ _ _ inv
    exact ⟨p, rfl, inv⟩
  | cons j js ih =>
    intro D p hD hDsub hs hsub hdis inv
    have hjm : j ∈ j :: js := List.mem_cons_self j js
    obtain ⟨p1, e, inv1, _⟩ := ran_step f a cs D p j ha hN hD hDsub (hsub j hjm) (hdis j hjm) inv
    obtain ⟨p2, e2, inv2⟩ := ih (j :: D) p1 (List.nodup_cons.mpr ⟨hdis j hjm, hD⟩)
      (by
        intro x hx
        rcases List.mem_cons.mp hx with e | h
        · rw [e]
          exact hsub j hjm
        · exact hDsub x h)
      (List.nodup_cons.mp hs).2 (fun x hx => hsub x (List.mem_cons_of_mem j hx))
      (by
        intro x hx hxD
        rcases List.mem_cons.mp hxD with e | h
        · exact (List.nodup_cons.mp hs).1 (e ▸ hx)
        · exact hdis x (List.mem_cons_of_mem j hx) h)
      inv1
    refine ⟨p2, ?_, ?_⟩
    · rw [job_pool.run_all, e]
      exact e2
    · have h : (j :: js).reverse ++ D = js.reverse ++ (j :: D) := by
        rw [List.reverse_cons, List.append_assoc, List.singleton_append]
      rw [h]
      exact inv2

/-- After the submission of a parent and its children, jobs of the group run
in any order, each at most once: every run ends, and the state is the one in
which exactly these jobs have run. -/
theorem submitted_run_all (a : Nat) (cs sched : List Nat) (fuel : Nat) (hf : 2 ≤ fuel)
    (hcs : cs.Nodup) (ha : a ∉ cs) (hN : cs.length + 1 < SIZE_T_RANGE) (hs : sched.Nodup)
    (hsub : ∀ j, j ∈ sched → j ∈ a :: cs) :
    ∃ p, job_pool.run_all fuel sched (job_pool.submitted a cs) = some p ∧
      job_pool.ran a cs sched.reverse p := by
  obtain ⟨f, rfl⟩ : ∃ f, fuel = f + 2 := ⟨fuel - 2, by omega⟩
  obtain ⟨p, e, inv⟩ := run_all_ran f a cs ha hN sched [] (job_pool.submitted a cs)
    List.nodup_nil (fun x hx => absurd hx (List.not_mem_nil x)) hs hsub
    (fun x _ => List.not_mem_nil x) (submitted_ran a cs hcs ha hN)
  exact ⟨p, e, by simpa using inv⟩

/-- A schedule without repetition inside the group has run the whole group
exactly when it is as long as the group. -/
theorem all_run_iff (a : Nat) (cs sched : List Nat) (hcs : cs.Nodup) (ha : a ∉ cs)
    (hs : sched.Nodup) (hsub : ∀ j, j ∈ sched → j ∈ a :: cs) :
    cs.length + 1 ≤ sched.length ↔ ∀ j, j ∈ a :: cs → j ∈ sched := by
  constructor
  · intro h j hj
    exact ((hs.subperm hsub).perm_of_length_le (by simpa using h)).mem_iff.mpr hj
  · intro h
    have hnd : (a :: cs).Nodup := List.nodup_cons.mpr ⟨ha, hcs⟩
    have := (hnd.subperm h).length_le
    simpa using this

/-- C18: after a parent job `a` and `N` child jobs `cs` enqueued under it are
submitted, in every state reached by running jobs of the group to their ends
(in any order, each at most once) the dependency count of the parent is
`N + 1` minus the number of completions, `is_done()` of the parent is true
exactly when that count is zero, which is exactly when the parent and all `N`
children have completed, and `join()` on the parent returns exactly in these
states. -/
theorem parent_done_after_all_completions (a : Nat) (cs sched : List Nat) (fuel : Nat)
    (hf : 2 ≤ fuel) (hcs : cs.Nodup) (ha : a ∉ cs) (hN : cs.length + 1 < SIZE_T_RANGE)
    (hs : sched.Nodup) (hsub : ∀ j, j ∈ sched → j ∈ a :: cs) :
    ∃ p, job_pool.run_all fuel sched (job_pool.submitted a cs) = some p ∧
      (p.jobs a).m_dependencies = cs.length + 1 - sched.length ∧
      (p.is_done a = true ↔ (p.jobs a).m_dependencies = 0) ∧
      (p.is_done a = true ↔ ∀ j, j ∈ a :: cs → j ∈ sched) ∧
      ((p.join a).isSome = true ↔ ∀ j, j ∈ a :: cs → j ∈ sched) := by
  obtain ⟨p, e, inv⟩ := submitted_run_all a cs sched fuel hf hcs ha hN hs hsub
  have hd : (p.jobs a).m_dependencies = cs.length + 1 - sched.length := by
    rw [inv.deps_a, List.length_reverse]
  have hall := all_run_iff a cs sched hcs ha hs hsub
  have hdone : p.is_done a = true ↔ ∀ j, j ∈ a :: cs → j ∈ sched := by
    rw [← hall]
    simp only [job_pool.is_done, decide_eq_true_eq, hd]
    omega
  refine ⟨p, e, hd, by simp [job_pool.is_done], hdone, ?_⟩
  rw [← hdone]
  unfold job_pool.join
  cases p.is_done a <;> simp

/-- C18, with a parent 0 and the children 1 and 2: after the runs of 1, 0 and
2 the parent is done and `join()` returns; after the runs of 1 and 0 only,
the parent is not done and `join()` stays blocked. -/
theorem parent_done_after_all_completions_witness :
    (∃ p, job_pool.run_all 2 [1, 0, 2] (job_pool.submitted 0 [1, 2]) = some p ∧
      p.is_done 0 = true ∧ (p.join 0).isSome = true) ∧
    (∃ p, job_pool.run_all 2 [1, 0] (job_pool.submitted 0 [1, 2]) = some p ∧
      (p.jobs 0).m_dependencies = 1 ∧ ¬ (p.is_done 0 = true) ∧
      ¬ ((p.join 0).isSome = true)) := by
  constructor
  · obtain ⟨p, e, _, _, h1, h2⟩ := parent_done_after_all_completions 0 [1, 2] [1, 0, 2] 2
      (by decide) (by decide) (by decide) (by decide) (by decide) (by decide)
    exact ⟨p, e, h1.mpr (by decide), h2.mpr (by decide)⟩
  · obtain ⟨p, e, h0, _, h1, h2⟩ := parent_done_after_all_completions 0 [1, 2] [1, 0] 2
      (by decide) (by decide) (by decide) (by decide) (by decide) (by decide)
    exact ⟨p, e, h0, fun h => absurd (h1.mp h) (by decide),
      fun h => absurd (h2.mp h) (by decide)⟩

/-- C19: after a parent job `a` and child jobs `cs` under it are enqueued
once each, in every state reached by running jobs of the group to their ends
(in any order, each at most once): the hook `on_done()` of a child has been
invoked once if the child has run and not at all otherwise; the hook of the
parent has been invoked once if the parent and all children have run and not
at all otherwise; every invocation of a hook comes after the job's own work,
and the parent's also after the work and the hook of every child; and the
run of a child that has not run yet ends, invokes the child's hook, and
leaves the dependency count of the parent exactly one less. -/
theorem on_done_once_after_completions (a : Nat) (cs sched : List Nat) (fuel : Nat)
    (hf : 2 ≤ fuel) (hcs : cs.Nodup) (ha : a ∉ cs) (hN : cs.length + 1 < SIZE_T_RANGE)
    (hs : sched.Nodup) (hsub : ∀ j, j ∈ sched → j ∈ a :: cs) :
    ∃ p, job_pool.run_all fuel sched (job_pool.submitted a cs) = some p ∧
      (∀ c, c ∈ cs → p.log.count (job_event.on_done c) = if c ∈ sched then 1 else 0) ∧
      (p.log.count (job_event.on_done a) =
        if ∀ j, j ∈ a :: cs → j ∈ sched then 1 else 0) ∧
      (∀ j, Precedes (job_event.work j) (job_event.on_done j) p.log) ∧
      (∀ c, c ∈ cs → Precedes (job_event.work c) (job_event.on_done a) p.log ∧
        Precedes (job_event.on_done c) (job_event.on_done a) p.log) ∧
      (∀ c, c ∈ cs → c ∉ sched → ∃ p1, job_pool.run fuel p c = some p1 ∧
        p1.log.count (job_event.on_done c) = 1 ∧
        (p1.jobs a).m_dependencies + 1 = (p.jobs a).m_dependencies) := by
  obtain ⟨p, e, inv⟩ := submitted_run_all a cs sched fuel hf hcs ha hN hs hsub
  have hall := all_run_iff a cs sched hcs ha hs hsub
  refine ⟨p, e, ?_, ?_, inv.hook_after_work, inv.hook_after_children, ?_⟩
  · intro c hc
    rw [inv.on_done_c c hc]
    simp only [List.mem_reverse]
  · rw [inv.on_done_a, List.length_reverse]
    by_cases h : cs.length + 1 ≤ sched.length
    · rw [if_pos h, if_pos (hall.mp h)]
    · rw [if_neg h, if_neg (fun h1 => h (hall.mpr h1))]
  · intro c hc hcs1
    obtain ⟨f, rfl⟩ : ∃ f, fuel = f + 2 := ⟨fuel - 2, by omega⟩
    obtain ⟨p1, e1, inv1, h1⟩ := ran_step f a cs sched.reverse p c ha hN
      (List.nodup_reverse.mpr hs) (fun x hx => hsub x (List.mem_reverse.mp hx))
      (List.mem_cons_of_mem a hc) (fun h => hcs1 (List.mem_reverse.mp h)) inv
    refine ⟨p1, e1, ?_, h1⟩
    rw [inv1.on_done_c c hc, if_pos (List.mem_cons_self c _)]

/-- C19, with a parent 0 and the children 1 and 2: after the runs of 2, 0 and
1 each of the three hooks has been invoked once; after the run of 2 only,
the hook of 2 has been invoked once and those of 0 and 1 not at all, and the
run of 1 takes the count of the parent from 2 to 1. -/
theorem on_done_once_after_completions_witness :
    (∃ p, job_pool.run_all 2 [2, 0, 1] (job_pool.submitted 0 [1, 2]) = some p ∧
      p.log.count (job_event.on_done 1) = 1 ∧ p.log.count (job_event.on_done 2) = 1 ∧
      p.log.count (job_event.on_done 0) = 1) ∧
    (∃ p, job_pool.run_all 2 [2] (job_pool.submitted 0 [1, 2]) = some p ∧
      p.log.count (job_event.on_done 1) = 0 ∧ p.log.count (job_event.on_done 2) = 1 ∧
      p.log.count (job_event.on_done 0) = 0 ∧
      ∃ p1, job_pool.run 2 p 1 = some p1 ∧
        (p1.jobs 0).m_dependencies + 1 = (p.jobs 0).m_dependencies) := by
  constructor
  · obtain ⟨p, e, h1, h2, _⟩ := on_done_once_after_completions 0 [1, 2] [2, 0, 1] 2
      (by decide) (by decide) (by decide) (by decide) (by decide) (by decide)
    refine ⟨p, e, ?_, ?_, ?_⟩
    · rw [h1 1 (by decide)]
      decide
    · rw [h1 2 (by decide)]
      decide
    · rw [h2]
      decide
  · obtain ⟨p, e, h1, h2, _, _, h5⟩ := on_done_once_after_completions 0 [1, 2] [2] 2
      (by decide) (by decide) (by decide) (by decide) (by decide) (by decide)
    obtain ⟨p1, e1, _, h6⟩ := h5 1 (by decide) (by decide)
    refine ⟨p, e, ?_, ?_, ?_, p1, e1, h6⟩
    · rw [h1 1 (by decide)]
      decide
    · rw [h1 2 (by decide)]
      decide
    · rw [h2]
      decide

/-! ## The read phase of the key sorter -/

/-- Once the checks on entry have passed, `Internal_Sorter_KObj::sort` is its
read phase followed by the sort phase and the write phase. -/
theorem kobj_sort_after_read_phase {α κ : Type} [LT κ] [DecidableRel (fun a b : κ => a < b)]
    [Inhabited α] [Inhabited κ] (parallel_sort : parallel_sort_fn (qsort_item κ))
    (InStr OutStr n : Nat) (c : Cfg (Internal_Sorter_KObj α κ) α)
    (h1 : ¬ (c.self.ItemArray.length = 0 ∨ c.self.sortItemArray.length = 0))
    (h2 : n ≤ c.self.len) :
    Internal_Sorter_KObj.sort parallel_sort InStr OutStr n c =
      match Internal_Sorter_KObj.read_phase InStr n c with
      | Except.error e => Except.error e
      | Except.ok c1 =>
        Except.ok
          (((Internal_Sorter_KObj.write_loop OutStr n
            (((Internal_Sorter_KObj.sort_items parallel_sort n c1).rewind_if_same
              InStr OutStr).report
                (progress_call.init subindicator.write_progress n))).report
            (progress_call.done subindicator.write_progress)).report progress_call.fp_done) := by
  unfold Internal_Sorter_KObj.sort Internal_Sorter_KObj.read_phase
  rw [if_neg h1, if_neg (by omega)]
  simp only []
  cases Internal_Sorter_KObj.read_loop InStr n
    ((c.report progress_call.fp_init).report
      (progress_call.init subindicator.read_progress n)) with
  | error e => rfl
  | ok c1 => rfl

theorem Internal_Sorter_KObj.with_sources_map_keyval {κ : Type} (i : Nat)
    (l : List (qsort_item κ)) :
    (Internal_Sorter_KObj.with_sources i l).map (fun q => q.keyval) =
      l.map (fun q => q.keyval) := by
  induction l generalizing i with
  | nil => rfl
  | cons q qs ih => simp [Internal_Sorter_KObj.with_sources, ih]

/-- The read phase on a valid call returns, stores the source indices in the
first `n` entries, and leaves every key in the indirection array as it was on
entry. -/
theorem kobj_read_phase_keeps_keys {α κ : Type} (InStr n : Nat)
    (c : Cfg (Internal_Sorter_KObj α κ) α)
    (hin : (c.streams InStr).offset + n ≤ (c.streams InStr).items.length)
    (hA : n ≤ c.self.ItemArray.length) (hS : n ≤ c.self.sortItemArray.length) :
    ∃ c1, Internal_Sorter_KObj.read_phase InStr n c = Except.ok c1 ∧
      c1.self.sortItemArray =
        Internal_Sorter_KObj.with_sources 0 (c.self.sortItemArray.take n)
          ++ c.self.sortItemArray.drop n ∧
      c1.self.sortItemArray.map (fun q => q.keyval) =
        c.self.sortItemArray.map (fun q => q.keyval) := by
  unfold Internal_Sorter_KObj.read_phase
  simp only []
  rw [kobj_read_loop_ok InStr n
    ((c.report progress_call.fp_init).report
      (progress_call.init subindicator.read_progress n)) hin hA hS]
  refine ⟨_, rfl, rfl, ?_⟩
  show (Internal_Sorter_KObj.with_sources 0 (c.self.sortItemArray.take n)
      ++ c.self.sortItemArray.drop n).map (fun q => q.keyval) = _
  rw [List.map_append, Internal_Sorter_KObj.with_sources_map_keyval, ← List.map_append,
    List.take_append_drop]

/-- C21 fails on the code: the read loop of `Internal_Sorter_KObj::sort`
stores the source index in `sortItemArray[i].source` and never stores the key
of the item read in `sortItemArray[i].keyval`.  At the scenario of the spec
(a sorter freshly allocated for 3 records) the read phase returns and the
entries hold the keys 0, 0, 0 the allocation left, with the sources 0, 1, 2,
where the spec requires the keys 3, 1, 2 of the records read; and whatever
three entries the array holds on entry, after the read phase they hold the
same keys, with the sources 0, 1, 2. -/
theorem read_phase_leaves_keys_unset :
    (Internal_Sorter_KObj.read_phase 0 3
        (Internal_Sorter_KObj.fresh record_cmp 3 scenario_records)).abort = none ∧
    (Internal_Sorter_KObj.read_phase 0 3
        (Internal_Sorter_KObj.fresh record_cmp 3 scenario_records)).final.self.sortItemArray =
      [{ keyval := 0, source := 0 }, { keyval := 0, source := 1 },
        { keyval := 0, source := 2 }] ∧
    Internal_Sorter_KObj.extracted_entries record_cmp 0 scenario_records =
      [{ keyval := 3, source := 0 }, { keyval := 1, source := 1 },
        { keyval := 2, source := 2 }] ∧
    (Internal_Sorter_KObj.read_phase 0 3
        (Internal_Sorter_KObj.fresh record_cmp 3 scenario_records)).final.self.sortItemArray ≠
      Internal_Sorter_KObj.extracted_entries record_cmp 0 scenario_records ∧
    ∀ qa qb qc : qsort_item Nat,
      (Internal_Sorter_KObj.read_phase 0 3
          (Internal_Sorter_KObj.with_entries record_cmp [qa, qb, qc]
            scenario_records)).final.self.sortItemArray =
        [{ qa with source := 0 }, { qb with source := 1 }, { qc with source := 2 }] := by
  refine ⟨by decide, by decide, by decide, by decide, ?_⟩
  intro qa qb qc
  obtain ⟨c1, e, h, _⟩ := kobj_read_phase_keeps_keys 0 3
    (Internal_Sorter_KObj.with_entries record_cmp [qa, qb, qc] scenario_records)
    (Nat.le_refl 3) (Nat.le_refl 3) (Nat.le_refl 3)
  rw [e]
  show c1.self.sortItemArray = _
  rw [h]
  rfl

/-! ## The order of the phases and the progress protocol -/

theorem stream_ops_append {α : Type} (l1 l2 : List (Event α)) :
    stream_ops (l1 ++ l2) = stream_ops l1 ++ stream_ops l2 := by
  simp [stream_ops]

theorem stream_ops_read_events {α : Type} (s : Nat) (l : List α) :
    stream_ops (read_events s l) = l.map (Event.read s) := by
  induction l with
  | nil => rfl
  | cons x xs ih =>
    unfold stream_ops at ih ⊢
    simp [read_events, ih]

theorem stream_ops_write_events {α : Type} (s : Nat) (l : List α) :
    stream_ops (write_events s l) = l.map (Event.write s) := by
  induction l with
  | nil => rfl
  | cons x xs ih =>
    unfold stream_ops at ih ⊢
    simp [write_events, ih]

theorem stream_ops_sort_events {α : Type} (InStr OutStr n : Nat) (run out : List α) :
    stream_ops (sort_events InStr OutStr n run out) = phased_ops InStr OutStr run out := by
  unfold sort_events phased_ops
  simp only [stream_ops_append, stream_ops_read_events, stream_ops_write_events]
  by_cases h : InStr = OutStr <;> simp [stream_ops, h]

theorem reporter_and_sort_append {α : Type} (l1 l2 : List (Event α)) :
    reporter_and_sort (l1 ++ l2) = reporter_and_sort l1 ++ reporter_and_sort l2 := by
  simp [reporter_and_sort]

theorem reporter_and_sort_read_events {α : Type} (s : Nat) (l : List α) :
    reporter_and_sort (read_events s l) =
      List.replicate l.length
        (Event.progress (progress_call.step subindicator.read_progress)) := by
  induction l with
  | nil => rfl
  | cons x xs ih =>
    unfold reporter_and_sort at ih ⊢
    simp [read_events, ih, List.replicate_succ]

theorem reporter_and_sort_write_events {α : Type} (s : Nat) (l : List α) :
    reporter_and_sort (write_events s l) =
      List.replicate l.length
        (Event.progress (progress_call.step subindicator.write_progress)) := by
  induction l with
  | nil => rfl
  | cons x xs ih =>
    unfold reporter_and_sort at ih ⊢
    simp [write_events, ih, List.replicate_succ]

theorem reporter_and_sort_sort_events {α : Type} (InStr OutStr n : Nat) (run out : List α)
    (hrun : run.length = n) (hout : out.length = n) :
    reporter_and_sort (sort_events InStr OutStr n run out) = sort_protocol n := by
  unfold sort_events sort_protocol
  simp only [reporter_and_sort_append, reporter_and_sort_read_events,
    reporter_and_sort_write_events, hrun, hout]
  by_cases h : InStr = OutStr <;> simp [reporter_and_sort, h]

/-- The events and the reporter of the shared body on a valid call. -/
theorem base_sort_events {α : Type} [Inhabited α]
    {parallel_sort : parallel_sort_fn α} (hps : CorrectSort parallel_sort)
    {comp : α → α → Bool} (hcomp : StrictWeakOrder comp) (InStr OutStr n : Nat)
    (c : Cfg (Internal_Sorter_Base α) α)
    (hin : (c.streams InStr).offset + n ≤ (c.streams InStr).items.length)
    (hA : n ≤ c.self.ItemArray.length) :
    ∃ c1 out, Internal_Sorter_Base.sort_body parallel_sort comp InStr OutStr n c
        = Except.ok c1 ∧
      out.length = n ∧
      new_events c (Internal_Sorter_Base.sort_body parallel_sort comp InStr OutStr n c) =
        sort_events InStr OutStr n (input_run (c.streams InStr) n) out ∧
      c1.pi = c.pi.map (fun r => r.receive (sort_calls n)) := by
  have hlen : (parallel_sort comp (input_run (c.streams InStr) n)).length = n := by
    rw [hps.length_eq hcomp, input_run_length _ _ hin]
  rw [Internal_Sorter_Base.sort_body_ok parallel_sort comp InStr OutStr n c hin hA hlen]
  exact ⟨_, _, rfl, hlen, new_events_ok c _ _ rfl, rfl⟩

/-- The events and the reporter of the key sorter on a valid call. -/
theorem kobj_sort_events {α κ : Type} [LT κ]
    [DecidableRel (fun a b : κ => a < b)] [Inhabited α] [Inhabited κ]
    {parallel_sort : parallel_sort_fn (qsort_item κ)} (hps : CorrectSort parallel_sort)
    (hkey : StrictWeakOrder (std_less : κ → κ → Bool))
    (InStr OutStr n : Nat) (c : Cfg (Internal_Sorter_KObj α κ) α)
    (hin : (c.streams InStr).offset + n ≤ (c.streams InStr).items.length)
    (hA : c.self.ItemArray.length = c.self.len)
    (hS : c.self.sortItemArray.length = c.self.len)
    (hpos : 0 < c.self.len) (hn : n ≤ c.self.len) :
    ∃ c1 out, Internal_Sorter_KObj.sort parallel_sort InStr OutStr n c = Except.ok c1 ∧
      out.length = n ∧
      new_events c (Internal_Sorter_KObj.sort parallel_sort InStr OutStr n c) =
        sort_events InStr OutStr n (input_run (c.streams InStr) n) out ∧
      c1.pi = c.pi.map (fun r => r.receive (sort_calls n)) := by
  have hlen : (parallel_sort std_less
      (Internal_Sorter_KObj.with_sources 0 (c.self.sortItemArray.take n))).length = n := by
    rw [hps.length_eq (qsort_item_less_strict_weak hkey),
      Internal_Sorter_KObj.with_sources_length, List.length_take]
    omega
  rw [Internal_Sorter_KObj.sort_ok parallel_sort InStr OutStr n c hin hA hS hpos hn hlen]
  refine ⟨_, _, rfl, ?_, new_events_ok c _ _ rfl, rfl⟩
  simp [Internal_Sorter_KObj.dereference, hlen]

/-- C22: phase order, for each of the three sorters and every valid call
(capacity `len > 0`, count `nItems ≤ len`, an input stream with at least
`nItems` items from its position, `parallel_sort` a correct comparison sort
and the comparison it is given a strict weak order).  The call returns, and
the operations it performed on streams are, in this order: `nItems` reads
from the input stream (of the input run), then, only when input and output
are the same stream, `truncate(0)` followed by `seek(0)`, then `nItems`
writes to the output stream (of the items written). -/
theorem sort_stream_operations_in_phases {α κ : Type} [LT α]
    [DecidableRel (fun a b : α => a < b)]
    [LT κ] [DecidableRel (fun a b : κ => a < b)] [Inhabited α] [Inhabited κ]
    (parallel_sort : parallel_sort_fn α) (hps : CorrectSort parallel_sort)
    (key_sort : parallel_sort_fn (qsort_item κ)) (hks : CorrectSort key_sort)
    (cmp_o : α → α → Int) (hless : StrictWeakOrder (std_less : α → α → Bool))
    (hcmp : StrictWeakOrder (TPIE2STL_cmp cmp_o))
    (hkey : StrictWeakOrder (std_less : κ → κ → Bool)) (InStr OutStr nItems : Nat)
    (c : Cfg (Internal_Sorter_Base α) α) (k : Cfg (Internal_Sorter_KObj α κ) α)
    (hcap : c.self.ItemArray.length = c.self.len) (hpos : 0 < c.self.len)
    (hn : nItems ≤ c.self.len)
    (hin : (c.streams InStr).offset + nItems ≤ (c.streams InStr).items.length)
    (hkA : k.self.ItemArray.length = k.self.len)
    (hkS : k.self.sortItemArray.length = k.self.len) (hkpos : 0 < k.self.len)
    (hkn : nItems ≤ k.self.len)
    (hkin : (k.streams InStr).offset + nItems ≤ (k.streams InStr).items.length) :
    ((input_run (c.streams InStr) nItems).length = nItems ∧
      (written OutStr (new_events c
        (Internal_Sorter_Op.sort parallel_sort InStr OutStr nItems c))).length = nItems ∧
      (Internal_Sorter_Op.sort parallel_sort InStr OutStr nItems c).abort = none ∧
      stream_ops (new_events c (Internal_Sorter_Op.sort parallel_sort InStr OutStr nItems c)) =
        phased_ops InStr OutStr (input_run (c.streams InStr) nItems)
          (written OutStr (new_events c
            (Internal_Sorter_Op.sort parallel_sort InStr OutStr nItems c)))) ∧
    ((written OutStr (new_events c
        (Internal_Sorter_Obj.sort cmp_o parallel_sort InStr OutStr nItems c))).length
        = nItems ∧
      (Internal_Sorter_Obj.sort cmp_o parallel_sort InStr OutStr nItems c).abort = none ∧
      stream_ops (new_events c
          (Internal_Sorter_Obj.sort cmp_o parallel_sort InStr OutStr nItems c)) =
        phased_ops InStr OutStr (input_run (c.streams InStr) nItems)
          (written OutStr (new_events c
            (Internal_Sorter_Obj.sort cmp_o parallel_sort InStr OutStr nItems c)))) ∧
    ((input_run (k.streams InStr) nItems).length = nItems ∧
      (written OutStr (new_events k
        (Internal_Sorter_KObj.sort key_sort InStr OutStr nItems k))).length = nItems ∧
      (Internal_Sorter_KObj.sort key_sort InStr OutStr nItems k).abort = none ∧
      stream_ops (new_events k (Internal_Sorter_KObj.sort key_sort InStr OutStr nItems k)) =
        phased_ops InStr OutStr (input_run (k.streams InStr) nItems)
          (written OutStr (new_events k
            (Internal_Sorter_KObj.sort key_sort InStr OutStr nItems k)))) := by
  have hA : nItems ≤ c.self.ItemArray.length := by omega
  obtain ⟨c1, o1, e1, l1, n1, _⟩ := base_sort_events hps hless InStr OutStr nItems c hin hA
  obtain ⟨c2, o2, e2, l2, n2, _⟩ := base_sort_events hps hcmp InStr OutStr nItems c hin hA
  obtain ⟨k3, o3, e3, l3, n3, _⟩ :=
    kobj_sort_events hks hkey InStr OutStr nItems k hkin hkA hkS hkpos hkn
  rw [op_sort_eq_body parallel_sort InStr OutStr nItems c hcap hpos hn,
    obj_sort_eq_body cmp_o parallel_sort InStr OutStr nItems c hcap hpos hn,
    n1, n2, n3, written_sort_events, written_sort_events, written_sort_events,
    stream_ops_sort_events, stream_ops_sort_events, stream_ops_sort_events, e1, e2, e3]
  exact ⟨⟨input_run_length _ _ hin, l1, rfl, rfl⟩, ⟨l2, rfl, rfl⟩,
    ⟨input_run_length _ _ hkin, l3, rfl, rfl⟩⟩

/-- C22, with input and output on the same stream 0 holding 2, 0, 1, on
sorters allocated for 3 items and insertion sort for `parallel_sort`: three
reads, `truncate(0)`, `seek(0)`, three writes, for each of the three
sorters. -/
theorem sort_stream_operations_in_phases_witness :
    stream_ops (new_events (Internal_Sorter_Base.fresh 3 [2, 0, 1])
        (Internal_Sorter_Op.sort insertion_sort 0 0 3
          (Internal_Sorter_Base.fresh 3 [2, 0, 1]))) =
      [Event.read 0 2, Event.read 0 0, Event.read 0 1, Event.truncate 0 0, Event.seek 0 0,
        Event.write 0 0, Event.write 0 1, Event.write 0 2] ∧
    stream_ops (new_events (Internal_Sorter_Base.fresh 3 [2, 0, 1])
        (Internal_Sorter_Obj.sort three_way insertion_sort 0 0 3
          (Internal_Sorter_Base.fresh 3 [2, 0, 1]))) =
      [Event.read 0 2, Event.read 0 0, Event.read 0 1, Event.truncate 0 0, Event.seek 0 0,
        Event.write 0 0, Event.write 0 1, Event.write 0 2] ∧
    stream_ops (new_events (Internal_Sorter_KObj.fresh nat_key 3 [2, 0, 1])
        (Internal_Sorter_KObj.sort insertion_sort 0 0 3
          (Internal_Sorter_KObj.fresh nat_key 3 [2, 0, 1]))) =
      [Event.read 0 2, Event.read 0 0, Event.read 0 1, Event.truncate 0 0, Event.seek 0 0,
        Event.write 0 2, Event.write 0 0, Event.write 0 1] := by
  have h := sort_stream_operations_in_phases insertion_sort insertion_sort_correct
    insertion_sort insertion_sort_correct three_way std_less_strict_weak three_way_strict_weak
    std_less_strict_weak 0 0 3 (Internal_Sorter_Base.fresh 3 [2, 0, 1])
    (Internal_Sorter_KObj.fresh nat_key 3 [2, 0, 1]) rfl (by decide) (by decide) (by decide)
    rfl rfl (by decide) (by decide) (by decide)
  refine ⟨?_, ?_, ?_⟩
  · rw [h.1.2.2.2]
    decide
  · rw [h.2.1.2.2]
    decide
  · rw [h.2.2.2.2.2]
    decide

/-- C23: progress protocol, for each of the three sorters and every valid
call with `nItems` items.  Among the calls on the reporter and the call of
`parallel_sort`, in the order they happen: the parent scope is opened, the
read sub-phase receives `init(nItems)`, then `nItems` calls of `step()`, then
one `done()`, before the sorting starts; after the sorting the write
sub-phase receives `init(nItems)`, `nItems` calls of `step()` and one
`done()`; the `done()` of the parent scope is the last call.  A reporter
behind `pi` has received these calls, in this order, after those it had
received before. -/
theorem sort_progress_protocol {α κ : Type} [LT α]
    [DecidableRel (fun a b : α => a < b)]
    [LT κ] [DecidableRel (fun a b : κ => a < b)] [Inhabited α] [Inhabited κ]
    (parallel_sort : parallel_sort_fn α) (hps : CorrectSort parallel_sort)
    (key_sort : parallel_sort_fn (qsort_item κ)) (hks : CorrectSort key_sort)
    (cmp_o : α → α → Int) (hless : StrictWeakOrder (std_less : α → α → Bool))
    (hcmp : StrictWeakOrder (TPIE2STL_cmp cmp_o))
    (hkey : StrictWeakOrder (std_less : κ → κ → Bool)) (InStr OutStr nItems : Nat)
    (c : Cfg (Internal_Sorter_Base α) α) (k : Cfg (Internal_Sorter_KObj α κ) α)
    (hcap : c.self.ItemArray.length = c.self.len) (hpos : 0 < c.self.len)
    (hn : nItems ≤ c.self.len)
    (hin : (c.streams InStr).offset + nItems ≤ (c.streams InStr).items.length)
    (hkA : k.self.ItemArray.length = k.self.len)
    (hkS : k.self.sortItemArray.length = k.self.len) (hkpos : 0 < k.self.len)
    (hkn : nItems ≤ k.self.len)
    (hkin : (k.streams InStr).offset + nItems ≤ (k.streams InStr).items.length) :
    ((Internal_Sorter_Op.sort parallel_sort InStr OutStr nItems c).abort = none ∧
      reporter_and_sort (new_events c
          (Internal_Sorter_Op.sort parallel_sort InStr OutStr nItems c)) =
        sort_protocol nItems ∧
      (Internal_Sorter_Op.sort parallel_sort InStr OutStr nItems c).final.pi =
        c.pi.map (fun r => { calls := r.calls ++ sort_calls nItems })) ∧
    ((Internal_Sorter_Obj.sort cmp_o parallel_sort InStr OutStr nItems c).abort = none ∧
      reporter_and_sort (new_events c
          (Internal_Sorter_Obj.sort cmp_o parallel_sort InStr OutStr nItems c)) =
        sort_protocol nItems ∧
      (Internal_Sorter_Obj.sort cmp_o parallel_sort InStr OutStr nItems c).final.pi =
        c.pi.map (fun r => { calls := r.calls ++ sort_calls nItems })) ∧
    ((Internal_Sorter_KObj.sort key_sort InStr OutStr nItems k).abort = none ∧
      reporter_and_sort (new_events k
          (Internal_Sorter_KObj.sort key_sort InStr OutStr nItems k)) =
        sort_protocol nItems ∧
      (Internal_Sorter_KObj.sort key_sort InStr OutStr nItems k).final.pi =
        k.pi.map (fun r => { calls := r.calls ++ sort_calls nItems })) := by
  have hA : nItems ≤ c.self.ItemArray.length := by omega
  have hrun := input_run_length (c.streams InStr) nItems hin
  have hkrun := input_run_length (k.streams InStr) nItems hkin
  obtain ⟨c1, o1, e1, l1, n1, p1⟩ := base_sort_events hps hless InStr OutStr nItems c hin hA
  obtain ⟨c2, o2, e2, l2, n2, p2⟩ := base_sort_events hps hcmp InStr OutStr nItems c hin hA
  obtain ⟨k3, o3, e3, l3, n3, p3⟩ :=
    kobj_sort_events hks hkey InStr OutStr nItems k hkin hkA hkS hkpos hkn
  rw [op_sort_eq_body parallel_sort InStr OutStr nItems c hcap hpos hn,
    obj_sort_eq_body cmp_o parallel_sort InStr OutStr nItems c hcap hpos hn,
    n1, n2, n3, reporter_and_sort_sort_events _ _ _ _ _ hrun l1,
    reporter_and_sort_sort_events _ _ _ _ _ hrun l2,
    reporter_and_sort_sort_events _ _ _ _ _ hkrun l3, e1, e2, e3]
  exact ⟨⟨rfl, rfl, p1⟩, ⟨rfl, rfl, p2⟩, ⟨rfl, rfl, p3⟩⟩

/-- C23, on sorters allocated for 3 items that sort the 2 items 1, 0 from
stream 0 to stream 1, with a reporter that has received no call yet and
insertion sort for `parallel_sort`: the reporter ends with the ten calls of
the protocol, for each of the three sorters. -/
theorem sort_progress_protocol_witness :
    (Internal_Sorter_Op.sort insertion_sort 0 1 2
        ((Internal_Sorter_Base.fresh 3 [1, 0]).with_pi (some { calls := [] }))).final.pi =
      some { calls :=
        [progress_call.fp_init, progress_call.init subindicator.read_progress 2,
          progress_call.step subindicator.read_progress,
          progress_call.step subindicator.read_progress,
          progress_call.done subindicator.read_progress,
          progress_call.init subindicator.write_progress 2,
          progress_call.step subindicator.write_progress,
          progress_call.step subindicator.write_progress,
          progress_call.done subindicator.write_progress, progress_call.fp_done] } ∧
    (Internal_Sorter_Obj.sort three_way insertion_sort 0 1 2
        ((Internal_Sorter_Base.fresh 3 [1, 0]).with_pi (some { calls := [] }))).final.pi =
      some { calls := sort_calls 2 } ∧
    (Internal_Sorter_KObj.sort insertion_sort 0 1 2
        ((Internal_Sorter_KObj.fresh nat_key 3 [1, 0]).with_pi
          (some { calls := [] }))).final.pi =
      some { calls := sort_calls 2 } ∧
    reporter_and_sort (new_events (Internal_Sorter_Base.fresh 3 [1, 0])
        (Internal_Sorter_Op.sort insertion_sort 0 1 2 (Internal_Sorter_Base.fresh 3 [1, 0]))) =
      [Event.progress progress_call.fp_init,
        Event.progress (progress_call.init subindicator.read_progress 2),
        Event.progress (progress_call.step subindicator.read_progress),
        Event.progress (progress_call.step subindicator.read_progress),
        Event.progress (progress_call.done subindicator.read_progress),
        Event.parallel_sort 2,
        Event.progress (progress_call.init subindicator.write_progress 2),
        Event.progress (progress_call.step subindicator.write_progress),
        Event.progress (progress_call.step subindicator.write_progress),
        Event.progress (progress_call.done subindicator.write_progress),
        Event.progress progress_call.fp_done] := by
  have h := sort_progress_protocol insertion_sort insertion_sort_correct
    insertion_sort insertion_sort_correct three_way std_less_strict_weak three_way_strict_weak
    std_less_strict_weak 0 1 2
    ((Internal_Sorter_Base.fresh 3 [1, 0]).with_pi (some { calls := [] }))
    ((Internal_Sorter_KObj.fresh nat_key 3 [1, 0]).with_pi (some { calls := [] }))
    rfl (by decide) (by decide) (by decide) rfl rfl (by decide) (by decide) (by decide)
  refine ⟨?_, ?_, ?_, ?_⟩
  · rw [h.1.2.2]
    rfl
  · rw [h.2.1.2.2]
    rfl
  · rw [h.2.2.2.2]
    rfl
  · decide

/-! ## The source indices after the sort phase -/

/-- The arrays of the key sorter after the read phase and the sort phase of a
valid call. -/
theorem kobj_sort_phase_arrays {α κ : Type} [LT κ] [DecidableRel (fun a b : κ => a < b)]
    (parallel_sort : parallel_sort_fn (qsort_item κ)) (InStr n : Nat)
    (c : Cfg (Internal_Sorter_KObj α κ) α)
    (hin : (c.streams InStr).offset + n ≤ (c.streams InStr).items.length)
    (hA : n ≤ c.self.ItemArray.length) (hS : n ≤ c.self.sortItemArray.length) :
    ∃ cr, Internal_Sorter_KObj.read_phase InStr n c = Except.ok cr ∧
      (Internal_Sorter_KObj.sort_items parallel_sort n cr).self.sortItemArray =
        parallel_sort std_less
            (Internal_Sorter_KObj.with_sources 0 (c.self.sortItemArray.take n))
          ++ c.self.sortItemArray.drop n ∧
      (Internal_Sorter_KObj.sort_items parallel_sort n cr).self.ItemArray =
        input_run (c.streams InStr) n ++ c.self.ItemArray.drop n := by
  have hW : (Internal_Sorter_KObj.with_sources 0 (c.self.sortItemArray.take n)).length = n := by
    rw [Internal_Sorter_KObj.with_sources_length, List.length_take]
    omega
  have htake : List.take n (Internal_Sorter_KObj.with_sources 0 (c.self.sortItemArray.take n)
      ++ List.drop n c.self.sortItemArray) =
      Internal_Sorter_KObj.with_sources 0 (c.self.sortItemArray.take n) := by
    rw [List.take_append_of_le_length (by rw [hW])]
    exact List.take_of_length_le (by rw [hW])
  have hdrop : List.drop n (Internal_Sorter_KObj.with_sources 0 (c.self.sortItemArray.take n)
      ++ List.drop n c.self.sortItemArray) = List.drop n c.self.sortItemArray := by
    rw [List.drop_append_of_le_length (by rw [hW])]
    rw [List.drop_eq_nil_of_le (by rw [hW])]
    rfl
  unfold Internal_Sorter_KObj.read_phase
  simp only []
  rw [kobj_read_loop_ok InStr n
    ((c.report progress_call.fp_init).report
      (progress_call.init subindicator.read_progress n)) hin hA hS]
  refine ⟨_, rfl, ?_, rfl⟩
  simp only [Internal_Sorter_KObj.sort_items, Cfg.report, htake, hdrop]

/-- C26: for `Internal_Sorter_KObj`, for every allocated capacity `len > 0`
and every count `nItems ≤ len` (with an input stream that has `nItems` items,
`parallel_sort` a correct comparison sort and `<` on keys a strict weak
order): the read phase returns, and after the sort phase the source indices
in the first `nItems` entries of `sortItemArray` are a permutation of
`0 .. nItems - 1`; so for every `i < nItems` the index
`sortItemArray[i].source` is below `nItems`, inside `ItemArray`, and the slot
it names holds an item of the run just read.  The call returns with both
arrays as the sort phase left them. -/
theorem sorted_sources_permutation_in_bounds {α κ : Type} [LT κ]
    [DecidableRel (fun a b : κ => a < b)] [Inhabited α] [Inhabited κ]
    (key_sort : parallel_sort_fn (qsort_item κ)) (hks : CorrectSort key_sort)
    (hkey : StrictWeakOrder (std_less : κ → κ → Bool)) (InStr OutStr nItems : Nat)
    (k : Cfg (Internal_Sorter_KObj α κ) α)
    (hkA : k.self.ItemArray.length = k.self.len)
    (hkS : k.self.sortItemArray.length = k.self.len) (hkpos : 0 < k.self.len)
    (hkn : nItems ≤ k.self.len)
    (hkin : (k.streams InStr).offset + nItems ≤ (k.streams InStr).items.length) :
    ∃ kr, Internal_Sorter_KObj.read_phase InStr nItems k = Except.ok kr ∧
      (((Internal_Sorter_KObj.sort_items key_sort nItems kr).self.sortItemArray.take
        nItems).map (fun q => q.source)).Perm (List.range nItems) ∧
      (∀ i, i < nItems → ∃ q,
        (Internal_Sorter_KObj.sort_items key_sort nItems kr).self.sortItemArray[i]? = some q ∧
        q.source < nItems ∧
        q.source < (Internal_Sorter_KObj.sort_items key_sort nItems kr).self.ItemArray.length ∧
        (Internal_Sorter_KObj.sort_items key_sort nItems kr).self.ItemArray[q.source]? =
          (input_run (k.streams InStr) nItems)[q.source]?) ∧
      ∃ k1, Internal_Sorter_KObj.sort key_sort InStr OutStr nItems k = Except.ok k1 ∧
        k1.self.sortItemArray =
          (Internal_Sorter_KObj.sort_items key_sort nItems kr).self.sortItemArray ∧
        k1.self.ItemArray =
          (Internal_Sorter_KObj.sort_items key_sort nItems kr).self.ItemArray := by
  have hkrun := input_run_length (k.streams InStr) nItems hkin
  obtain ⟨kr, er, hQ, hI⟩ := kobj_sort_phase_arrays key_sort InStr nItems k hkin
    (by omega) (by omega)
  obtain ⟨k1, e1, hI1, hQ1, _, _⟩ :=
    Internal_Sorter_KObj.sort_written hks hkey InStr OutStr nItems k hkin hkA hkS hkpos hkn
  have hT : (k.self.sortItemArray.take nItems).length = nItems := by
    rw [List.length_take]
    omega
  have hlen : (key_sort std_less
      (Internal_Sorter_KObj.with_sources 0 (k.self.sortItemArray.take nItems))).length
      = nItems := by
    rw [hks.length_eq (qsort_item_less_strict_weak hkey),
      Internal_Sorter_KObj.with_sources_length, hT]
  refine ⟨kr, er, ?_, ?_, k1, e1, by rw [hQ1, hQ], by rw [hI1, hI]⟩
  · rw [hQ, List.take_append_of_le_length (by rw [hlen]),
      List.take_of_length_le (by rw [hlen])]
    have hp := ((hks std_less (qsort_item_less_strict_weak hkey)
      (Internal_Sorter_KObj.with_sources 0 (k.self.sortItemArray.take nItems))).1).map
        (fun q : qsort_item κ => q.source)
    rw [Internal_Sorter_KObj.with_sources_map_source, hT] at hp
    rw [List.range_eq_range']
    exact hp
  · intro i hi
    have hiQ : i < (key_sort std_less
        (Internal_Sorter_KObj.with_sources 0 (k.self.sortItemArray.take nItems))).length := by
      rw [hlen]
      exact hi
    have hs := sorted_sources_lt hks hkey (k.self.sortItemArray.take nItems) _
      (List.getElem_mem hiQ)
    rw [hT] at hs
    have hs2 : (key_sort std_less (Internal_Sorter_KObj.with_sources 0
        (k.self.sortItemArray.take nItems)))[i].source
        < (input_run (k.streams InStr) nItems).length := by
      rw [hkrun]
      exact hs
    refine ⟨(key_sort std_less
      (Internal_Sorter_KObj.with_sources 0 (k.self.sortItemArray.take nItems)))[i],
      ?_, hs, ?_, ?_⟩
    · rw [hQ, List.getElem?_append_left hiQ, List.getElem?_eq_getElem hiQ]
    · rw [hI, List.length_append, hkrun]
      omega
    · rw [hI, List.getElem?_append_left hs2]

/-- C26, at the scenario of the spec: a key sorter freshly allocated for 3
records, the three records on stream 0, insertion sort for `parallel_sort`:
the read phase returns and after the sort phase the sources of the three
entries are a permutation of 0, 1, 2. -/
theorem sorted_sources_permutation_in_bounds_witness :
    ∃ kr, Internal_Sorter_KObj.read_phase 0 3
        (Internal_Sorter_KObj.fresh record_cmp 3 scenario_records) = Except.ok kr ∧
      (((Internal_Sorter_KObj.sort_items insertion_sort 3 kr).self.sortItemArray.take
        3).map (fun q => q.source)).Perm [0, 1, 2] := by
  obtain ⟨kr, e, h, _⟩ := sorted_sources_permutation_in_bounds insertion_sort
    insertion_sort_correct std_less_strict_weak 0 1 3
    (Internal_Sorter_KObj.fresh record_cmp 3 scenario_records) rfl rfl (by decide) (by decide)
    (by decide)
  exact ⟨kr, e, h⟩

/-! ## `Internal_Sorter_Obj` against `Internal_Sorter_Op` -/

/-- Where the two sorters agree: with a comparison object that realises the
operator `<`, on a sorter with a buffer, or with count 0 on a sorter without
one, `Internal_Sorter_Obj::sort` and `Internal_Sorter_Op::sort` end the same
way in the same state. -/
theorem obj_sort_eq_op_sort {α : Type} [LT α] [DecidableRel (fun a b : α => a < b)]
    [Inhabited α] (cmp_o : α → α → Int)
    (hcmp : TPIE2STL_cmp cmp_o = (std_less : α → α → Bool))
    (parallel_sort : parallel_sort_fn α) (InStr OutStr n : Nat)
    (c : Cfg (Internal_Sorter_Base α) α) (hcap : c.self.ItemArray.length = c.self.len)
    (h : 0 < c.self.len ∨ n = 0) :
    Internal_Sorter_Obj.sort cmp_o parallel_sort InStr OutStr n c =
      Internal_Sorter_Op.sort parallel_sort InStr OutStr n c := by
  unfold Internal_Sorter_Obj.sort Internal_Sorter_Op.sort
  rw [hcmp]
  by_cases h0 : c.self.ItemArray.length = 0
  · have hn : n = 0 := by omega
    rw [if_neg (by omega), if_pos h0]
  · by_cases hle : n ≤ c.self.len
    · rw [if_neg (by omega), if_neg h0, if_neg (by omega)]
    · rw [if_pos hle, if_neg h0, if_pos hle]

/-- C25 fails on the code: on a sorter that was never allocated and a count
of at least 1, `Internal_Sorter_Obj::sort`, with a comparison object that
realises the operator `<` of the numbers, ends with the capacity assertion,
which it checks before the test of the buffer, and `Internal_Sorter_Op::sort`
ends with the exception `NULL_POINTER`: the two calls fail in different
ways, for every `parallel_sort`, every pair of streams, every count
`n + 1` and every input. -/
theorem obj_sort_and_op_sort_fail_differently :
    TPIE2STL_cmp (three_way : Nat → Nat → Int) = std_less ∧
    ∀ (parallel_sort : parallel_sort_fn Nat) (InStr OutStr n : Nat) (items : List Nat),
      (Internal_Sorter_Obj.sort three_way parallel_sort InStr OutStr (n + 1)
        (Internal_Sorter_Base.unallocated items)).abort = some Abort.buffer_overfull ∧
      (Internal_Sorter_Op.sort parallel_sort InStr OutStr (n + 1)
        (Internal_Sorter_Base.unallocated items)).abort = some Abort.NULL_POINTER ∧
      (Internal_Sorter_Obj.sort three_way parallel_sort InStr OutStr (n + 1)
        (Internal_Sorter_Base.unallocated items)).abort ≠
      (Internal_Sorter_Op.sort parallel_sort InStr OutStr (n + 1)
        (Internal_Sorter_Base.unallocated items)).abort := by
  refine ⟨TPIE2STL_cmp_three_way, ?_⟩
  intro parallel_sort InStr OutStr n items
  rw [obj_sort_unallocated three_way parallel_sort InStr OutStr (n + 1)
      (Internal_Sorter_Base.unallocated items) rfl rfl,
    op_sort_unallocated parallel_sort InStr OutStr (n + 1)
      (Internal_Sorter_Base.unallocated items) rfl,
    if_neg (Nat.succ_ne_zero n)]
  exact ⟨rfl, rfl, by simp [Outcome.abort]⟩

/-! ## Reuse of a sorter -/

/-- What `Internal_Sorter_Op::sort` and `Internal_Sorter_Obj::sort` write does
not depend on what the buffer holds on entry: two sorters of the same
capacity, whatever earlier calls left in `ItemArray`, write the same items
for the same input run. -/
theorem base_output_ignores_buffer {α : Type} [LT α] [DecidableRel (fun a b : α => a < b)]
    [Inhabited α] {parallel_sort : parallel_sort_fn α} (hps : CorrectSort parallel_sort)
    (cmp_o : α → α → Int) (hless : StrictWeakOrder (std_less : α → α → Bool))
    (hcmp : StrictWeakOrder (TPIE2STL_cmp cmp_o)) (InStr OutStr n : Nat)
    (c1 c2 : Cfg (Internal_Sorter_Base α) α)
    (hcap1 : c1.self.ItemArray.length = c1.self.len)
    (hcap2 : c2.self.ItemArray.length = c2.self.len)
    (hsame : c1.self.len = c2.self.len) (hpos : 0 < c1.self.len) (hn : n ≤ c1.self.len)
    (hin1 : (c1.streams InStr).offset + n ≤ (c1.streams InStr).items.length)
    (hin2 : (c2.streams InStr).offset + n ≤ (c2.streams InStr).items.length)
    (hrun : input_run (c1.streams InStr) n = input_run (c2.streams InStr) n) :
    written OutStr (new_events c1 (Internal_Sorter_Op.sort parallel_sort InStr OutStr n c1)) =
      written OutStr
        (new_events c2 (Internal_Sorter_Op.sort parallel_sort InStr OutStr n c2)) ∧
    written OutStr
        (new_events c1 (Internal_Sorter_Obj.sort cmp_o parallel_sort InStr OutStr n c1)) =
      written OutStr
        (new_events c2 (Internal_Sorter_Obj.sort cmp_o parallel_sort InStr OutStr n c2)) := by
  obtain ⟨_, _, _, w1⟩ := Internal_Sorter_Base.sort_body_written hps hless InStr OutStr n c1
    hin1 (by omega)
  obtain ⟨_, _, _, w2⟩ := Internal_Sorter_Base.sort_body_written hps hless InStr OutStr n c2
    hin2 (by omega)
  obtain ⟨_, _, _, w3⟩ := Internal_Sorter_Base.sort_body_written hps hcmp InStr OutStr n c1
    hin1 (by omega)
  obtain ⟨_, _, _, w4⟩ := Internal_Sorter_Base.sort_body_written hps hcmp InStr OutStr n c2
    hin2 (by omega)
  rw [op_sort_eq_body parallel_sort InStr OutStr n c1 hcap1 hpos hn,
    op_sort_eq_body parallel_sort InStr OutStr n c2 hcap2 (by omega) (by omega),
    obj_sort_eq_body cmp_o parallel_sort InStr OutStr n c1 hcap1 hpos hn,
    obj_sort_eq_body cmp_o parallel_sort InStr OutStr n c2 hcap2 (by omega) (by omega),
    w1, w2, w3, w4, hrun]
  exact ⟨rfl, rfl⟩

theorem Internal_Sorter_KObj.with_sources_of_equal_keys {κ : Type} (d : κ) (i : Nat)
    (l : List (qsort_item κ)) (h : ∀ q, q ∈ l → q.keyval = d) :
    Internal_Sorter_KObj.with_sources i l =
      (List.range' i l.length).map (fun j => { keyval := d, source := j }) := by
  induction l generalizing i with
  | nil => rfl
  | cons q qs ih =>
    have hq : q.keyval = d := h q (List.mem_cons_self q qs)
    have ih1 := ih (i + 1) (fun x hx => h x (List.mem_cons_of_mem q hx))
    simp only [Internal_Sorter_KObj.with_sources, List.length_cons, List.range'_succ,
      List.map_cons, ih1, hq]

/-- When all keys that the first `n` entries of `sortItemArray` hold on entry
are equal, what `Internal_Sorter_KObj::sort` writes does not depend on the
sorter: two key sorters of the same capacity write the same items for the
same input run. -/
theorem kobj_output_with_equal_keys {α κ : Type} [LT κ]
    [DecidableRel (fun a b : κ => a < b)] [Inhabited α] [Inhabited κ]
    {key_sort : parallel_sort_fn (qsort_item κ)} (hks : CorrectSort key_sort)
    (hkey : StrictWeakOrder (std_less : κ → κ → Bool)) (InStr OutStr n : Nat)
    (k1 k2 : Cfg (Internal_Sorter_KObj α κ) α)
    (hA1 : k1.self.ItemArray.length = k1.self.len)
    (hS1 : k1.self.sortItemArray.length = k1.self.len)
    (hA2 : k2.self.ItemArray.length = k2.self.len)
    (hS2 : k2.self.sortItemArray.length = k2.self.len)
    (hsame : k1.self.len = k2.self.len) (hpos : 0 < k1.self.len) (hn : n ≤ k1.self.len)
    (hin1 : (k1.streams InStr).offset + n ≤ (k1.streams InStr).items.length)
    (hin2 : (k2.streams InStr).offset + n ≤ (k2.streams InStr).items.length)
    (hrun : input_run (k1.streams InStr) n = input_run (k2.streams InStr) n)
    (d : κ) (hd1 : ∀ q, q ∈ k1.self.sortItemArray.take n → q.keyval = d)
    (hd2 : ∀ q, q ∈ k2.self.sortItemArray.take n → q.keyval = d) :
    written OutStr (new_events k1 (Internal_Sorter_KObj.sort key_sort InStr OutStr n k1)) =
      written OutStr
        (new_events k2 (Internal_Sorter_KObj.sort key_sort InStr OutStr n k2)) := by
  obtain ⟨_, _, _, _, _, w1⟩ :=
    Internal_Sorter_KObj.sort_written hks hkey InStr OutStr n k1 hin1 hA1 hS1 hpos hn
  obtain ⟨_, _, _, _, _, w2⟩ :=
    Internal_Sorter_KObj.sort_written hks hkey InStr OutStr n k2 hin2 hA2 hS2 (by omega)
      (by omega)
  have hT1 : (k1.self.sortItemArray.take n).length = n := by
    rw [List.length_take]
    omega
  have hT2 : (k2.self.sortItemArray.take n).length = n := by
    rw [List.length_take]
    omega
  have hW : Internal_Sorter_KObj.with_sources 0 (k2.self.sortItemArray.take n) =
      Internal_Sorter_KObj.with_sources 0 (k1.self.sortItemArray.take n) := by
    rw [Internal_Sorter_KObj.with_sources_of_equal_keys d 0 _ hd1,
      Internal_Sorter_KObj.with_sources_of_equal_keys d 0 _ hd2, hT1, hT2]
  have hrunlen := input_run_length (k2.streams InStr) n hin2
  rw [w1, w2, hW, hrun]
  unfold Internal_Sorter_KObj.dereference
  apply List.map_congr_left
  intro q hq
  have hs := sorted_sources_lt hks hkey (k1.self.sortItemArray.take n) q hq
  rw [hT1] at hs
  have hs2 : q.source < (input_run (k2.streams InStr) n).length := by
    rw [hrunlen]
    exact hs
  simp only [List.getD_eq_getElem?_getD, List.getElem?_append_left hs2]

/-- A correct comparison sort puts two entries with different keys in the
order of their keys. -/
theorem CorrectSort.sorted_pair {key_sort : parallel_sort_fn (qsort_item Nat)}
    (hks : CorrectSort key_sort) (a b : qsort_item Nat) (h : a.keyval < b.keyval) :
    key_sort std_less [b, a] = [a, b] ∧ key_sort std_less [a, b] = [a, b] := by
  have hab : a ≠ b := fun e => by
    rw [e] at h
    exact Nat.lt_irrefl _ h
  have hlt : std_less a b = true := by
    simp only [std_less, decide_eq_true_eq]
    exact h
  have key : ∀ l : List (qsort_item Nat), l.Perm [a, b] → key_sort std_less l = [a, b] := by
    intro l hl
    obtain ⟨hp, hn⟩ := hks std_less (qsort_item_less_strict_weak std_less_strict_weak) l
    have hp2 := hp.trans hl
    obtain ⟨x, y, hq⟩ := List.length_eq_two.mp hp2.length_eq
    rw [hq] at hp2 hn ⊢
    have hx : x ∈ [a, b] := hp2.subset (by simp)
    have hy : y ∈ [a, b] := hp2.subset (by simp)
    have ha : a ∈ [x, y] := hp2.symm.subset (by simp)
    have hb : b ∈ [x, y] := hp2.symm.subset (by simp)
    have hn2 : std_less y x = false := by
      unfold NonDecreasing at hn
      exact (List.pairwise_cons.mp hn).1 y (by simp)
    simp only [List.mem_cons, List.mem_singleton, List.not_mem_nil, or_false] at hx hy ha hb
    rcases hx with rfl | rfl
    · rcases hy with rfl | rfl
      · rcases hb with e | e
        · exact absurd e.symm hab
        · exact absurd e.symm hab
      · rfl
    · rcases hy with rfl | rfl
      · rw [hlt] at hn2
        exact absurd hn2 (by decide)
      · rcases ha with e | e
        · exact absurd e hab
        · exact absurd e hab
  exact ⟨key _ (List.Perm.swap a b []), key _ (List.Perm.refl _)⟩

/-- The two key sorters of capacity 2 whose entries hold the keys 5 and 1,
for every correct comparison sort: the one not used before writes the run
(1,"a"),(2,"b") as (2,"b"),(1,"a"), the one used for one earlier call writes
it as (1,"a"),(2,"b"). -/
theorem kobj_order_after_earlier_call (key_sort : parallel_sort_fn (qsort_item Nat))
    (hks : CorrectSort key_sort) :
    written 1
        (new_events
          (Internal_Sorter_KObj.with_entries record_cmp
            [{ keyval := 5, source := 0 }, { keyval := 1, source := 0 }]
            [(1, "a"), (2, "b")])
          (Internal_Sorter_KObj.sort key_sort 0 1 2
            (Internal_Sorter_KObj.with_entries record_cmp
              [{ keyval := 5, source := 0 }, { keyval := 1, source := 0 }]
              [(1, "a"), (2, "b")]))) =
      [(2, "b"), (1, "a")] ∧
    written 1
        (new_events
          ((Internal_Sorter_KObj.sort key_sort 0 1 2
            (Internal_Sorter_KObj.with_entries record_cmp
              [{ keyval := 5, source := 0 }, { keyval := 1, source := 0 }]
              [(8, "y"), (7, "x")])).next_call (single_stream [(1, "a"), (2, "b")]))
          (Internal_Sorter_KObj.sort key_sort 0 1 2
            ((Internal_Sorter_KObj.sort key_sort 0 1 2
              (Internal_Sorter_KObj.with_entries record_cmp
                [{ keyval := 5, source := 0 }, { keyval := 1, source := 0 }]
                [(8, "y"), (7, "x")])).next_call (single_stream [(1, "a"), (2, "b")])))) =
      [(1, "a"), (2, "b")] := by
  have hp := (hks.sorted_pair { keyval := 1, source := 1 } { keyval := 5, source := 0 }
    (by decide)).1
  have hp2 := (hks.sorted_pair { keyval := 1, source := 0 } { keyval := 5, source := 1 }
    (by decide)).2
  have hB : ∀ B : Cfg (Internal_Sorter_KObj (Nat × String) Nat) (Nat × String),
      B.self.sortItemArray = [{ keyval := 1, source := 1 }, { keyval := 5, source := 0 }] →
      B.self.ItemArray.length = 2 → B.self.len = 2 →
      B.streams 0 = { items := [(1, "a"), (2, "b")], offset := 0 } →
      written 1 (new_events B (Internal_Sorter_KObj.sort key_sort 0 1 2 B)) =
        [(1, "a"), (2, "b")] := by
    intro B hS hA hl hstr
    obtain ⟨_, _, _, _, _, w⟩ := Internal_Sorter_KObj.sort_written hks std_less_strict_weak
      0 1 2 B (by rw [hstr]; exact Nat.le_refl 2) (by rw [hA, hl]) (by rw [hS, hl]; rfl)
      (by rw [hl]; exact Nat.zero_lt_succ 1) (by rw [hl])
    rw [w, hS, hstr]
    show Internal_Sorter_KObj.dereference _
      (key_sort std_less [{ keyval := 1, source := 0 }, { keyval := 5, source := 1 }]) = _
    rw [hp2]
    rfl
  constructor
  · obtain ⟨_, _, _, _, _, w⟩ := Internal_Sorter_KObj.sort_written hks std_less_strict_weak
      0 1 2
      (Internal_Sorter_KObj.with_entries record_cmp
        [{ keyval := 5, source := 0 }, { keyval := 1, source := 0 }] [(1, "a"), (2, "b")])
      (Nat.le_refl 2) rfl rfl (Nat.zero_lt_succ 1) (Nat.le_refl 2)
    rw [w]
    show Internal_Sorter_KObj.dereference _
      (key_sort std_less [{ keyval := 5, source := 0 }, { keyval := 1, source := 1 }]) = _
    rw [hp]
    rfl
  · have hlenE : (key_sort std_less (Internal_Sorter_KObj.with_sources 0
        ((Internal_Sorter_KObj.with_entries record_cmp
          [{ keyval := 5, source := 0 }, { keyval := 1, source := 0 }]
          [((8 : Nat), "y"), (7, "x")]).self.sortItemArray.take 2))).length = 2 := by
      show (key_sort std_less
        [{ keyval := 5, source := 0 }, { keyval := 1, source := 1 }]).length = 2
      rw [hp]
      rfl
    rw [Internal_Sorter_KObj.sort_ok key_sort 0 1 2
      (Internal_Sorter_KObj.with_entries record_cmp
        [{ keyval := 5, source := 0 }, { keyval := 1, source := 0 }] [(8, "y"), (7, "x")])
      (Nat.le_refl 2) rfl rfl (Nat.zero_lt_succ 1) (Nat.le_refl 2) hlenE]
    have hE : Internal_Sorter_KObj.with_sources 0
        ((Internal_Sorter_KObj.with_entries record_cmp
          [{ keyval := 5, source := 0 }, { keyval := 1, source := 0 }]
          [((8 : Nat), "y"), (7, "x")]).self.sortItemArray.take 2) =
        [{ keyval := 5, source := 0 }, { keyval := 1, source := 1 }] := rfl
    rw [hE, hp]
    exact hB _ rfl rfl rfl rfl

/-- C24 fails on the code for `Internal_Sorter_KObj`: `sort` never stores a
key in `sortItemArray`, so the order it writes comes from the keys the array
holds on entry, and an earlier call leaves them in another order.  Two key
sorters of capacity 2 whose entries hold the keys 5 and 1 sort the same run
(1,"a"),(2,"b"): the one not used before writes (2,"b"),(1,"a"), the one used
before for one call, which returned, writes (1,"a"),(2,"b"); this with
insertion sort for `parallel_sort`, and the two outputs differ for every
correct comparison sort. -/
theorem key_sort_output_depends_on_history :
    (Internal_Sorter_KObj.with_entries record_cmp
        [{ keyval := 5, source := 0 }, { keyval := 1, source := 0 }]
        [(1, "a"), (2, "b")]).self.len = 2 ∧
    (Internal_Sorter_KObj.sort insertion_sort 0 1 2
        (Internal_Sorter_KObj.with_entries record_cmp
          [{ keyval := 5, source := 0 }, { keyval := 1, source := 0 }]
          [(8, "y"), (7, "x")])).abort = none ∧
    ((Internal_Sorter_KObj.sort insertion_sort 0 1 2
        (Internal_Sorter_KObj.with_entries record_cmp
          [{ keyval := 5, source := 0 }, { keyval := 1, source := 0 }]
          [(8, "y"), (7, "x")])).next_call (single_stream [(1, "a"), (2, "b")])).self.len = 2 ∧
    written 1
        (new_events
          (Internal_Sorter_KObj.with_entries record_cmp
            [{ keyval := 5, source := 0 }, { keyval := 1, source := 0 }]
            [(1, "a"), (2, "b")])
          (Internal_Sorter_KObj.sort insertion_sort 0 1 2
            (Internal_Sorter_KObj.with_entries record_cmp
              [{ keyval := 5, source := 0 }, { keyval := 1, source := 0 }]
              [(1, "a"), (2, "b")]))) =
      [(2, "b"), (1, "a")] ∧
    written 1
        (new_events
          ((Internal_Sorter_KObj.sort insertion_sort 0 1 2
            (Internal_Sorter_KObj.with_entries record_cmp
              [{ keyval := 5, source := 0 }, { keyval := 1, source := 0 }]
              [(8, "y"), (7, "x")])).next_call (single_stream [(1, "a"), (2, "b")]))
          (Internal_Sorter_KObj.sort insertion_sort 0 1 2
            ((Internal_Sorter_KObj.sort insertion_sort 0 1 2
              (Internal_Sorter_KObj.with_entries record_cmp
                [{ keyval := 5, source := 0 }, { keyval := 1, source := 0 }]
                [(8, "y"), (7, "x")])).next_call (single_stream [(1, "a"), (2, "b")])))) =
      [(1, "a"), (2, "b")] ∧
    ∀ key_sort : parallel_sort_fn (qsort_item Nat), CorrectSort key_sort →
      written 1
          (new_events
            (Internal_Sorter_KObj.with_entries record_cmp
              [{ keyval := 5, source := 0 }, { keyval := 1, source := 0 }]
              [(1, "a"), (2, "b")])
            (Internal_Sorter_KObj.sort key_sort 0 1 2
              (Internal_Sorter_KObj.with_entries record_cmp
                [{ keyval := 5, source := 0 }, { keyval := 1, source := 0 }]
                [(1, "a"), (2, "b")]))) ≠
        written 1
          (new_events
            ((Internal_Sorter_KObj.sort key_sort 0 1 2
              (Internal_Sorter_KObj.with_entries record_cmp
                [{ keyval := 5, source := 0 }, { keyval := 1, source := 0 }]
                [(8, "y"), (7, "x")])).next_call (single_stream [(1, "a"), (2, "b")]))
            (Internal_Sorter_KObj.sort key_sort 0 1 2
              ((Internal_Sorter_KObj.sort key_sort 0 1 2
                (Internal_Sorter_KObj.with_entries record_cmp
                  [{ keyval := 5, source := 0 }, { keyval := 1, source := 0 }]
                  [(8, "y"), (7, "x")])).next_call
                (single_stream [(1, "a"), (2, "b")])))) := by
  refine ⟨rfl, by decide, by decide, by decide, by decide, ?_⟩
  intro key_sort hks
  obtain ⟨h1, h2⟩ := kobj_order_after_earlier_call key_sort hks
  rw [h1, h2]
  decide

/-! ## The bar of `progress_indicator_arrow` -/

theorem size_t_pred_stream (m : Nat) (h1 : 1 ≤ m) (h2 : m < STREAM_SIZE_RANGE) :
    (m + STREAM_SIZE_RANGE - 1) % STREAM_SIZE_RANGE = m - 1 := by
  have e : m + STREAM_SIZE_RANGE - 1 = (m - 1) + STREAM_SIZE_RANGE := by omega
  rw [e, Nat.add_mod_right, Nat.mod_eq_of_lt (by omega)]

/-- The number of characters `refresh()` prints between the brackets: one
for each iteration of the two loops and one for the arrow head. -/
theorem refresh_bar_length (self : progress_indicator_arrow) :
    self.refresh_bar.length =
      self.refresh_progress + 1 +
        (self.refresh_l - (self.refresh_progress + 1) % STREAM_SIZE_RANGE) := by
  unfold progress_indicator_arrow.refresh_bar
  simp only [List.length_append, List.length_replicate, List.length_singleton]

/-- Where the bar is inside the indicator: when the title and the 12 columns
around the bar leave room for a bar, `12 + m_title.size() < m_indicatorLength`,
the width `l` is `m_indicatorLength - 12 - m_title.size()`, at most the
indicator length, the arrow is at a position `progress ≤ l - 1`, and the
text between the brackets has exactly `l` characters: `progress` times `=`,
one `>` and `l - progress - 1` blanks. -/
theorem refresh_bar_inside (self : progress_indicator_arrow)
    (hroom : 12 + self.m_title.length < self.m_indicatorLength)
    (hlen : self.m_indicatorLength < STREAM_SIZE_RANGE) :
    self.refresh_l = self.m_indicatorLength - 12 - self.m_title.length ∧
    self.refresh_l ≤ self.m_indicatorLength ∧
    self.refresh_progress + 1 ≤ self.refresh_l ∧
    self.refresh_bar =
      List.replicate self.refresh_progress '=' ++ ['>'] ++
        List.replicate (self.refresh_l - self.refresh_progress - 1) ' ' ∧
    self.refresh_bar.length = self.refresh_l := by
  have hR : STREAM_SIZE_RANGE = 2 ^ 64 := rfl
  have hl : self.refresh_l = self.m_indicatorLength - 12 - self.m_title.length := by
    unfold progress_indicator_arrow.refresh_l
    rw [hR] at hlen ⊢
    omega
  have hl1 : 1 ≤ self.refresh_l := by omega
  have hl2 : self.refresh_l < STREAM_SIZE_RANGE := by omega
  have hp : self.refresh_progress + 1 ≤ self.refresh_l := by
    unfold progress_indicator_arrow.refresh_progress
    simp only []
    generalize (if self.m_range ≠ 0 then
      self.refresh_l * self.m_current % STREAM_SIZE_RANGE / self.m_range else 0) = p
    split
    · rw [size_t_pred_stream _ hl1 hl2]
      omega
    · omega
  have hmod : (self.refresh_progress + 1) % STREAM_SIZE_RANGE = self.refresh_progress + 1 :=
    Nat.mod_eq_of_lt (by omega)
  have hbar : self.refresh_bar =
      List.replicate self.refresh_progress '=' ++ ['>'] ++
        List.replicate (self.refresh_l - self.refresh_progress - 1) ' ' := by
    unfold progress_indicator_arrow.refresh_bar
    rw [hmod, Nat.sub_sub]
  refine ⟨hl, by omega, hp, hbar, ?_⟩
  rw [hbar]
  simp only [List.length_append, List.length_replicate, List.length_singleton]
  omega

/-- C27 fails on the code: `l` is computed by an unsigned subtraction that
wraps when the title and the 12 columns around the bar do not fit in the
indicator length, and `l - 1` wraps when `l` is 0.  With the title "sort"
and `set_indicator_length(10)`, `l` is `2 ^ 64 - 6`, far above the indicator
length 10, and the text between the brackets has `2 ^ 64 - 6` characters;
with `set_indicator_length(16)`, `l` is 0, the arrow position is
`2 ^ 64 - 1`, and the text between the brackets has `2 ^ 64` characters,
not `l`. -/
theorem refresh_bar_width_wraps :
    ((progress_indicator_arrow.new "sort" 100).set_indicator_length 10).m_indicatorLength
      = 10 ∧
    ((progress_indicator_arrow.new "sort" 100).set_indicator_length 10).refresh_l
      = 2 ^ 64 - 6 ∧
    ¬ (((progress_indicator_arrow.new "sort" 100).set_indicator_length 10).refresh_l ≤
      ((progress_indicator_arrow.new "sort" 100).set_indicator_length 10).m_indicatorLength) ∧
    ((progress_indicator_arrow.new "sort" 100).set_indicator_length 10).refresh_bar.length
      = 2 ^ 64 - 6 ∧
    ((progress_indicator_arrow.new "sort" 100).set_indicator_length 16).refresh_l = 0 ∧
    ((progress_indicator_arrow.new "sort" 100).set_indicator_length 16).refresh_progress
      = 2 ^ 64 - 1 ∧
    ((progress_indicator_arrow.new "sort" 100).set_indicator_length 16).refresh_bar.length
      = 2 ^ 64 := by
  have h10 : ((progress_indicator_arrow.new "sort" 100).set_indicator_length 10).refresh_l
      = 2 ^ 64 - 6 := rfl
  have p10 :
      ((progress_indicator_arrow.new "sort" 100).set_indicator_length 10).refresh_progress
        = 0 := rfl
  have h16 : ((progress_indicator_arrow.new "sort" 100).set_indicator_length 16).refresh_l
      = 0 := rfl
  have p16 :
      ((progress_indicator_arrow.new "sort" 100).set_indicator_length 16).refresh_progress
        = 2 ^ 64 - 1 := rfl
  refine ⟨rfl, h10, ?_, ?_, h16, p16, ?_⟩
  · rw [h10]
    show ¬ (2 ^ 64 - 6 ≤ 10)
    norm_num
  · rw [refresh_bar_length, h10, p10]
    norm_num [STREAM_SIZE_RANGE]
  · rw [refresh_bar_length, h16, p16]
    norm_num [STREAM_SIZE_RANGE]

end tpie
